import Mathlib

/-!
CHIP-8 / Super CHIP-8 interpreter core (`src/chip8.c`, `src/chip8.h`).

Shallow embedding of the virtual CPU and its display engine.

* C arrays are functions `Nat → α`; the array length is enforced at every
  access whose index is not bounded by construction (`memory`, `stack`,
  `keys`): such an access outside the array makes the operation return
  `none` (the C behaviour is undefined there).  Register accesses `V[x]`
  take a nibble or the literal `0xF`, display accesses take an index built
  from `% w` and `% h`, so they are written as plain function application.
* Machine integers are `Nat`, reduced `% 2^w` wherever the C arithmetic can
  leave the range of the destination type.
* `rand()` is an input of `chip8_cycle`.
* `chip8_cycle_layout` continues `chip8_cycle` past a store of Fx33 or Fx55
  outside `memory`, which the compiled interpreter executes on the field of
  the object at that offset.
-/

namespace Chip8Emu

/-! ## Constants of `chip8.h` -/

def CHIP8_MEMORY_SIZE : Nat := 4096
def CHIP8_STACK_SIZE : Nat := 16
def CHIP8_REGISTER_COUNT : Nat := 16
def CHIP8_KEY_COUNT : Nat := 16
def CHIP8_LOW_RES_WIDTH : Nat := 64
def CHIP8_LOW_RES_HEIGHT : Nat := 32
def CHIP8_HIGH_RES_WIDTH : Nat := 128
def CHIP8_HIGH_RES_HEIGHT : Nat := 64

/-- The struct `Chip8` of `chip8.h`. -/
structure Chip8 where
  memory : Nat → Nat
  V : Nat → Nat
  I : Nat
  pc : Nat
  stack : Nat → Nat
  sp : Nat
  delay_timer : Nat
  sound_timer : Nat
  display : Nat → Bool
  keys : Nat → Bool
  draw_flag : Bool
  high_res : Bool
  running : Bool

/-- Array store `a[i] = v`. -/
def set_at {α : Type} (a : Nat → α) (i : Nat) (v : α) : Nat → α :=
  fun j => if j = i then v else a j

/-- Checked read `c8->memory[a]`. -/
def mem_read (c8 : Chip8) (a : Nat) : Option Nat :=
  if a < CHIP8_MEMORY_SIZE then some (c8.memory a) else none

/-- Checked write `c8->memory[a] = v`. -/
def mem_write (c8 : Chip8) (a v : Nat) : Option Chip8 :=
  if a < CHIP8_MEMORY_SIZE then some { c8 with memory := set_at c8.memory a v } else none

/-- Checked read `c8->stack[i]`. -/
def stack_read (c8 : Chip8) (i : Nat) : Option Nat :=
  if i < CHIP8_STACK_SIZE then some (c8.stack i) else none

/-- Checked read `c8->keys[i]`. -/
def key_read (c8 : Chip8) (i : Nat) : Option Bool :=
  if i < CHIP8_KEY_COUNT then some (c8.keys i) else none

/-! ## Fonts and initialisation -/

def font_small : List Nat := [
  0xF0, 0x90, 0x90, 0x90, 0xF0,
  0x20, 0x60, 0x20, 0x20, 0x70,
  0xF0, 0x10, 0xF0, 0x80, 0xF0,
  0xF0, 0x10, 0xF0, 0x10, 0xF0,
  0x90, 0x90, 0xF0, 0x10, 0x10,
  0xF0, 0x80, 0xF0, 0x10, 0xF0,
  0xF0, 0x80, 0xF0, 0x90, 0xF0,
  0xF0, 0x10, 0x20, 0x40, 0x40,
  0xF0, 0x90, 0xF0, 0x90, 0xF0,
  0xF0, 0x90, 0xF0, 0x10, 0xF0,
  0xF0, 0x90, 0xF0, 0x90, 0x90,
  0xE0, 0x90, 0xE0, 0x90, 0xE0,
  0xF0, 0x80, 0x80, 0x80, 0xF0,
  0xE0, 0x90, 0x90, 0x90, 0xE0,
  0xF0, 0x80, 0xF0, 0x80, 0xF0,
  0xF0, 0x80, 0xF0, 0x80, 0x80]

def font_big : List Nat := [
  0x3C, 0x42, 0x81, 0x81, 0x81, 0x81, 0x81, 0x81, 0x42, 0x3C,
  0x18, 0x38, 0x58, 0x18, 0x18, 0x18, 0x18, 0x18, 0x18, 0x7E,
  0x3C, 0x42, 0x81, 0x01, 0x02, 0x0C, 0x30, 0x40, 0x80, 0xFF,
  0xFF, 0x02, 0x0C, 0x10, 0x3C, 0x02, 0x01, 0x81, 0x42, 0x3C,
  0x04, 0x0C, 0x14, 0x24, 0x44, 0x84, 0xFF, 0x04, 0x04, 0x04,
  0xFF, 0x80, 0x80, 0xFC, 0x02, 0x01, 0x01, 0x81, 0x42, 0x3C,
  0x3C, 0x42, 0x81, 0x80, 0xFC, 0x82, 0x81, 0x81, 0x42, 0x3C,
  0xFF, 0x02, 0x04, 0x08, 0x10, 0x20, 0x40, 0x40, 0x40, 0x40,
  0x3C, 0x42, 0x81, 0x42, 0x3C, 0x42, 0x81, 0x81, 0x42, 0x3C,
  0x3C, 0x42, 0x81, 0x81, 0x43, 0x3D, 0x01, 0x81, 0x42, 0x3C]

/-- The state after `chip8_init`: everything zeroed, then `pc = 0x200`,
`running = true`, the small font copied to `0x000` and the big font to
`0x050`. -/
def chip8_init : Chip8 where
  memory := fun a =>
    if a < 0x050 then font_small.getD a 0
    else if a < 0x050 + 100 then font_big.getD (a - 0x050) 0
    else 0
  V := fun _ => 0
  I := 0
  pc := 0x200
  stack := fun _ => 0
  sp := 0
  delay_timer := 0
  sound_timer := 0
  display := fun _ => false
  keys := fun _ => false
  draw_flag := false
  high_res := false
  running := true

/-! ## Keypad and display read surface -/

def chip8_key_down (c8 : Chip8) (key : Nat) : Chip8 :=
  if key < CHIP8_KEY_COUNT then { c8 with keys := set_at c8.keys key true } else c8

def chip8_key_up (c8 : Chip8) (key : Nat) : Chip8 :=
  if key < CHIP8_KEY_COUNT then { c8 with keys := set_at c8.keys key false } else c8

/-- The logical width `w` computed at the head of the display routines. -/
def logical_width (c8 : Chip8) : Nat :=
  if c8.high_res then CHIP8_HIGH_RES_WIDTH else CHIP8_LOW_RES_WIDTH

/-- The logical height `h` computed at the head of the display routines. -/
def logical_height (c8 : Chip8) : Nat :=
  if c8.high_res then CHIP8_HIGH_RES_HEIGHT else CHIP8_LOW_RES_HEIGHT

/-- Result of `chip8_get_display`: the buffer, `*width`, `*height`. -/
def chip8_get_display (c8 : Chip8) : (Nat → Bool) × Nat × Nat :=
  if c8.high_res then (c8.display, CHIP8_HIGH_RES_WIDTH, CHIP8_HIGH_RES_HEIGHT)
  else (c8.display, CHIP8_LOW_RES_WIDTH, CHIP8_LOW_RES_HEIGHT)

/-! ## Display engine -/

/-- The function `clear_display`: `memset` of the whole buffer, then the draw flag. -/
def clear_display (c8 : Chip8) : Chip8 :=
  { c8 with display := fun _ => false, draw_flag := true }

/-- Body of the loops of `scroll_down` for one cell `(x, y)`. -/
def scroll_down_cell (n y : Nat) (c8 : Chip8) (x : Nat) : Chip8 :=
  let val := if n ≤ y then c8.display ((y - n) * CHIP8_HIGH_RES_WIDTH + x) else false
  { c8 with display := set_at c8.display (y * CHIP8_HIGH_RES_WIDTH + x) val }

def scroll_down (c8 : Chip8) (n : Nat) : Chip8 :=
  let w := logical_width c8
  let h := logical_height c8
  if n = 0 then c8
  else
    let n := if n > h then h % 256 else n
    let c1 := (List.range h).reverse.foldl
      (fun c y => (List.range w).foldl (scroll_down_cell n y) c) c8
    { c1 with draw_flag := true }

/-- Body of the loops of `scroll_right` for one cell `(x, y)`. -/
def scroll_right_cell (y : Nat) (c8 : Chip8) (x : Nat) : Chip8 :=
  let val := if 4 ≤ x then c8.display (y * CHIP8_HIGH_RES_WIDTH + (x - 4)) else false
  { c8 with display := set_at c8.display (y * CHIP8_HIGH_RES_WIDTH + x) val }

def scroll_right (c8 : Chip8) : Chip8 :=
  let w := logical_width c8
  let h := logical_height c8
  let c1 := (List.range h).foldl
    (fun c y => (List.range w).reverse.foldl (scroll_right_cell y) c) c8
  { c1 with draw_flag := true }

/-- Body of the loops of `scroll_left` for one cell `(x, y)`. -/
def scroll_left_cell (w y : Nat) (c8 : Chip8) (x : Nat) : Chip8 :=
  let val := if x + 4 < w then c8.display (y * CHIP8_HIGH_RES_WIDTH + (x + 4)) else false
  { c8 with display := set_at c8.display (y * CHIP8_HIGH_RES_WIDTH + x) val }

def scroll_left (c8 : Chip8) : Chip8 :=
  let w := logical_width c8
  let h := logical_height c8
  let c1 := (List.range h).foldl
    (fun c y => (List.range w).foldl (scroll_left_cell w y) c) c8
  { c1 with draw_flag := true }

/-- The display index `py * CHIP8_HIGH_RES_WIDTH + px` of `draw_sprite`. -/
def draw_index (w h x y row col : Nat) : Nat :=
  let px := (x + col) % w
  let py := (y + row) % h
  py * CHIP8_HIGH_RES_WIDTH + px

/-- The two statements guarded by the bit test in `draw_sprite`:
collision check, then toggle of `display[idx]`. -/
def draw_pixel (c8 : Chip8) (idx : Nat) : Chip8 :=
  let c1 := if c8.display idx then { c8 with V := set_at c8.V 0xF 1 } else c8
  { c1 with display := set_at c1.display idx (!c1.display idx) }

/-- The test `(spr_row & (mask >> col)) != 0`. -/
def sprite_bit (mask spr_row col : Nat) : Bool :=
  spr_row &&& (mask >>> col) != 0

/-- The inner `for col` loop of `draw_sprite` over `ncols` columns. -/
def draw_row (mask ncols w h x y row spr_row : Nat) (c8 : Chip8) : Chip8 :=
  (List.range ncols).foldl
    (fun c col => if sprite_bit mask spr_row col then draw_pixel c (draw_index w h x y row col) else c)
    c8

/-- One iteration of the `for row` loop of the 16x16 branch. -/
def draw_row16 (w h x y : Nat) (c8 : Chip8) (row : Nat) : Option Chip8 := do
  let hi ← mem_read c8 (c8.I + row * 2)
  let lo ← mem_read c8 (c8.I + row * 2 + 1)
  let spr_row := ((hi <<< 8) ||| lo) % 65536
  pure (draw_row 0x8000 16 w h x y row spr_row c8)

/-- One iteration of the `for row` loop of the 8xN branch. -/
def draw_row8 (w h x y : Nat) (c8 : Chip8) (row : Nat) : Option Chip8 := do
  let spr_row ← mem_read c8 (c8.I + row)
  pure (draw_row 0x80 8 w h x y row spr_row c8)

def draw_sprite (c8 : Chip8) (x y n : Nat) : Option Chip8 := do
  let w := logical_width c8
  let h := logical_height c8
  let c0 := { c8 with V := set_at c8.V 0xF 0 }
  let c1 ←
    if n = 0 ∧ c0.high_res = true then (List.range 16).foldlM (draw_row16 w h x y) c0
    else (List.range n).foldlM (draw_row8 w h x y) c0
  pure { c1 with draw_flag := true }

/-! ## Interpreter -/

/-- The fetch `(uint16_t)memory[pc] << 8 | (uint16_t)memory[pc + 1]`. -/
def fetch_opcode (c8 : Chip8) : Option Nat := do
  let hi ← mem_read c8 c8.pc
  let lo ← mem_read c8 (c8.pc + 1)
  pure (((hi <<< 8) ||| lo) % 65536)

/-- The statement `c8->pc += 2` on the 16-bit program counter. -/
def skip_next (c8 : Chip8) : Chip8 :=
  { c8 with pc := (c8.pc + 2) % 65536 }

/-- The case `0x0000` of the outer switch. -/
def cycle_family_0 (opcode : Nat) (c8 : Chip8) : Option Chip8 :=
  if opcode = 0x00E0 then some (clear_display c8)
  else if opcode = 0x00EE then
    if c8.sp > 0 then do
      let c1 := { c8 with sp := c8.sp - 1 }
      let ret ← stack_read c1 c1.sp
      pure { c1 with pc := ret }
    else some c8
  else if opcode = 0x00FE then some (clear_display { c8 with high_res := false })
  else if opcode = 0x00FF then some (clear_display { c8 with high_res := true })
  else if opcode = 0x00FD then some { c8 with running := false }
  else if opcode = 0x00FB then some (scroll_right c8)
  else if opcode = 0x00FC then some (scroll_left c8)
  else if opcode &&& 0xFFF0 = 0x00C0 then some (scroll_down c8 ((opcode &&& 0x000F) % 256))
  else some c8

/-- The case `0x8000` of the outer switch (register-register ALU). -/
def cycle_family_8 (opcode x y : Nat) (c8 : Chip8) : Chip8 :=
  let sub := opcode &&& 0x000F
  if sub = 0x0 then { c8 with V := set_at c8.V x (c8.V y) }
  else if sub = 0x1 then { c8 with V := set_at c8.V x (c8.V x ||| c8.V y) }
  else if sub = 0x2 then { c8 with V := set_at c8.V x (c8.V x &&& c8.V y) }
  else if sub = 0x3 then { c8 with V := set_at c8.V x (c8.V x ^^^ c8.V y) }
  else if sub = 0x4 then
    let sum := (c8.V x + c8.V y) % 65536
    let c1 := { c8 with V := set_at c8.V 0xF (if sum > 0xFF then 1 else 0) }
    { c1 with V := set_at c1.V x ((sum &&& 0xFF) % 256) }
  else if sub = 0x5 then
    let c1 := { c8 with V := set_at c8.V 0xF (if c8.V x > c8.V y then 1 else 0) }
    { c1 with V := set_at c1.V x ((c1.V x + 256 - c1.V y) % 256) }
  else if sub = 0x6 then
    let c1 := { c8 with V := set_at c8.V 0xF (c8.V x &&& 0x1) }
    { c1 with V := set_at c1.V x (c1.V x >>> 1) }
  else if sub = 0x7 then
    let c1 := { c8 with V := set_at c8.V 0xF (if c8.V y > c8.V x then 1 else 0) }
    { c1 with V := set_at c1.V x ((c1.V y + 256 - c1.V x) % 256) }
  else if sub = 0xE then
    let c1 := { c8 with V := set_at c8.V 0xF ((c8.V x &&& 0x80) >>> 7) }
    { c1 with V := set_at c1.V x ((c1.V x <<< 1) % 256) }
  else c8

/-- The case `0xE000` of the outer switch (keypad skips). -/
def cycle_family_E (opcode x : Nat) (c8 : Chip8) : Option Chip8 :=
  let sub := opcode &&& 0x00FF
  if sub = 0x9E then do
    let k ← key_read c8 (c8.V x)
    pure (if k then skip_next c8 else c8)
  else if sub = 0xA1 then do
    let k ← key_read c8 (c8.V x)
    pure (if !k then skip_next c8 else c8)
  else some c8

/-- The case `0xF000` of the outer switch. -/
def cycle_family_F (opcode x : Nat) (c8 : Chip8) : Option Chip8 :=
  let sub := opcode &&& 0x00FF
  if sub = 0x07 then some { c8 with V := set_at c8.V x c8.delay_timer }
  else if sub = 0x0A then
    match (List.range CHIP8_KEY_COUNT).find? (fun i => c8.keys i) with
    | some i => some { c8 with V := set_at c8.V x (i % 256) }
    | none => some { c8 with pc := (c8.pc + 65536 - 2) % 65536 }
  else if sub = 0x15 then some { c8 with delay_timer := c8.V x }
  else if sub = 0x18 then some { c8 with sound_timer := c8.V x }
  else if sub = 0x1E then some { c8 with I := (c8.I + c8.V x) % 65536 }
  else if sub = 0x29 then some { c8 with I := (c8.V x * 5) % 65536 }
  else if sub = 0x30 then some { c8 with I := (0x50 + c8.V x * 10) % 65536 }
  else if sub = 0x33 then do
    let v := c8.V x
    let c1 ← mem_write c8 (c8.I + 0) ((v / 100) % 256)
    let c2 ← mem_write c1 (c1.I + 1) (((v / 10) % 10) % 256)
    mem_write c2 (c2.I + 2) ((v % 10) % 256)
  else if sub = 0x55 then
    (List.range (x + 1)).foldlM (fun c i => mem_write c (c.I + i) (c.V i)) c8
  else if sub = 0x65 then
    (List.range (x + 1)).foldlM
      (fun c i => (mem_read c (c.I + i)).map (fun b => { c with V := set_at c.V i b })) c8
  else some c8

/-- Decode and execute, entered after `pc += 2`.  `rnd` is the value
returned by `rand()`. -/
def execute (rnd opcode : Nat) (c8 : Chip8) : Option Chip8 :=
  let x := (opcode &&& 0x0F00) >>> 8
  let y := (opcode &&& 0x00F0) >>> 4
  let n := opcode &&& 0x000F
  let kk := opcode &&& 0x00FF
  let nnn := opcode &&& 0x0FFF
  let fam := opcode &&& 0xF000
  if fam = 0x0000 then cycle_family_0 opcode c8
  else if fam = 0x1000 then some { c8 with pc := nnn }
  else if fam = 0x2000 then
    if c8.sp < CHIP8_STACK_SIZE then
      let c1 := { c8 with stack := set_at c8.stack c8.sp c8.pc }
      let c2 := { c1 with sp := (c1.sp + 1) % 256 }
      some { c2 with pc := nnn }
    else some c8
  else if fam = 0x3000 then some (if c8.V x = kk then skip_next c8 else c8)
  else if fam = 0x4000 then some (if c8.V x ≠ kk then skip_next c8 else c8)
  else if fam = 0x5000 then
    some (if opcode &&& 0x000F = 0x0 then
      (if c8.V x = c8.V y then skip_next c8 else c8) else c8)
  else if fam = 0x6000 then some { c8 with V := set_at c8.V x kk }
  else if fam = 0x7000 then some { c8 with V := set_at c8.V x ((c8.V x + kk) % 256) }
  else if fam = 0x8000 then some (cycle_family_8 opcode x y c8)
  else if fam = 0x9000 then
    some (if opcode &&& 0x000F = 0x0 then
      (if c8.V x ≠ c8.V y then skip_next c8 else c8) else c8)
  else if fam = 0xA000 then some { c8 with I := nnn }
  else if fam = 0xB000 then some { c8 with pc := (nnn + c8.V 0) % 65536 }
  else if fam = 0xC000 then some { c8 with V := set_at c8.V x (((rnd % 256) &&& kk) % 256) }
  else if fam = 0xD000 then draw_sprite c8 (c8.V x) (c8.V y) n
  else if fam = 0xE000 then cycle_family_E opcode x c8
  else if fam = 0xF000 then cycle_family_F opcode x c8
  else some c8

/-- One fetch-decode-execute cycle. -/
def chip8_cycle (rnd : Nat) (c8 : Chip8) : Option Chip8 :=
  if !c8.running then some c8
  else do
    let opcode ← fetch_opcode c8
    execute rnd opcode (skip_next c8)

/-! ## Description of the sprite read by `draw_sprite` -/

/-- The branch condition `n == 0 && c8->high_res` of `draw_sprite`. -/
def sprite_big (c8 : Chip8) (n : Nat) : Prop := n = 0 ∧ c8.high_res = true

instance (c8 : Chip8) (n : Nat) : Decidable (sprite_big c8 n) := by
  unfold sprite_big; infer_instance

/-- Number of iterations of the `for row` loop in the branch taken. -/
def sprite_rows (c8 : Chip8) (n : Nat) : Nat := if sprite_big c8 n then 16 else n

/-- Number of iterations of the `for col` loop in the branch taken. -/
def sprite_cols (c8 : Chip8) (n : Nat) : Nat := if sprite_big c8 n then 16 else 8

/-- The value `spr_row` read from memory for `row` in the branch taken. -/
def sprite_row_bits (c8 : Chip8) (n row : Nat) : Nat :=
  if sprite_big c8 n then
    ((c8.memory (c8.I + row * 2) <<< 8) ||| c8.memory (c8.I + row * 2 + 1)) % 65536
  else c8.memory (c8.I + row)

/-- The bit test of `draw_sprite` at `(row, col)` in the branch taken. -/
def sprite_set (c8 : Chip8) (n row col : Nat) : Bool :=
  sprite_bit (if sprite_big c8 n then 0x8000 else 0x80) (sprite_row_bits c8 n row) col

/-- Every memory address read by `draw_sprite` lies inside `memory`. -/
def sprite_in_memory (c8 : Chip8) (n : Nat) : Prop :=
  if sprite_big c8 n then c8.I + 31 < CHIP8_MEMORY_SIZE
  else ∀ row, row < n → c8.I + row < CHIP8_MEMORY_SIZE

instance (c8 : Chip8) (n : Nat) : Decidable (sprite_in_memory c8 n) := by
  unfold sprite_in_memory; infer_instance

/-- The display indices toggled by `draw_sprite`, in the order of the loops. -/
def sprite_targets (c8 : Chip8) (x y n : Nat) : List Nat :=
  (List.range (sprite_rows c8 n)).flatMap (fun row =>
    ((List.range (sprite_cols c8 n)).filter (sprite_set c8 n row)).map
      (draw_index (logical_width c8) (logical_height c8) x y row))

/-! ## Concrete machine states used as test inputs -/

/-- The state after `chip8_init` with program bytes `b0 b1 b2 b3` stored at `0x200..0x203`. -/
def prog_state (b0 b1 b2 b3 : Nat) : Chip8 :=
  { chip8_init with
    memory := set_at (set_at (set_at (set_at chip8_init.memory 0x200 b0) 0x201 b1) 0x202 b2)
      0x203 b3 }

/-- Program `8F04` with `VF = 1`, `V0 = 1`. -/
def state_add_flag_reg : Chip8 :=
  { prog_state 0x8F 0x04 0 0 with V := set_at (set_at chip8_init.V 0xF 1) 0 1 }

/-- Program `8124` with `V1 = 200`, `V2 = 100`. -/
def state_add_carry : Chip8 :=
  { prog_state 0x81 0x24 0 0 with V := set_at (set_at chip8_init.V 1 200) 2 100 }

/-- The state after `chip8_init` with the cell `(0, 0)` of the display set;
the index register points at the glyph of digit 0 (`F0 90 90 90 F0`). -/
def state_pixel_set : Chip8 :=
  { chip8_init with display := set_at chip8_init.display 0 true }

/-- High-resolution state whose index register points at 32 bytes starting at
the small-font glyph of digit 0, with the cell `(1, 0)` of the display set. -/
def state_high_res : Chip8 :=
  { chip8_init with high_res := true, display := set_at chip8_init.display 1 true }

/-- Program `2204` at `0x200` (CALL 0x204) with `00EE` at `0x204`. -/
def state_call_ret : Chip8 :=
  { chip8_init with
    memory := set_at (set_at (set_at (set_at chip8_init.memory 0x200 0x22) 0x201 0x04)
      0x204 0x00) 0x205 0xEE }

/-- Program `F333` with `V3 = 234` and `I = 0x300`. -/
def state_bcd : Chip8 :=
  { prog_state 0xF3 0x33 0 0 with V := set_at chip8_init.V 3 234, I := 0x300 }

/-- Program `1202` at `0x200` (JP 0x202). -/
def state_jump : Chip8 := prog_state 0x12 0x02 0x60 0x05

/-- Program `00E0` over a display with the cell `(0, 0)` set. -/
def state_cls : Chip8 :=
  { prog_state 0x00 0xE0 0 0 with display := set_at chip8_init.display 0 true }

/-- Program `00FF` in low resolution over a display with the cell `(0, 0)` set. -/
def state_to_high_res : Chip8 :=
  { prog_state 0x00 0xFF 0 0 with display := set_at chip8_init.display 0 true }

/-- Program `F355` (store V0..V3) with `V0..V3 = 11, 22, 33, 44` and `I = 0x300`. -/
def state_store : Chip8 :=
  { prog_state 0xF3 0x55 0xF3 0x65 with
    V := set_at (set_at (set_at (set_at chip8_init.V 0 11) 1 22) 2 33) 3 44, I := 0x300 }

/-- Program `00FE` in high resolution over a display with the cell `(0, 0)` set. -/
def state_to_low_res : Chip8 :=
  { prog_state 0x00 0xFE 0 0 with
    display := set_at chip8_init.display 0 true, high_res := true }

/-! ## Host-side operations (`main.c`) and ROM loading -/

/-- Repeated calls of `chip8_cycle`, one `rand()` value per call. -/
def chip8_cycles (rnds : List Nat) (c8 : Chip8) : Option Chip8 :=
  rnds.foldlM (fun c r => chip8_cycle r c) c8

/-- The 60 Hz timer block of the main loop: each timer is decremented when positive. -/
def timer_tick (c8 : Chip8) : Chip8 :=
  let c1 := if c8.delay_timer > 0 then { c8 with delay_timer := c8.delay_timer - 1 } else c8
  if c1.sound_timer > 0 then { c1 with sound_timer := c1.sound_timer - 1 } else c1

/-- The function `chip8_load_rom` for a file that opens, whose length is
`rom.length` and whose bytes `rom` are all delivered by `fread`; returns the
state and the boolean result. -/
def chip8_load_rom (c8 : Chip8) (rom : List Nat) : Chip8 × Bool :=
  let size := rom.length
  if size ≤ 0 ∨ size + 0x200 > CHIP8_MEMORY_SIZE then (c8, false)
  else
    ({ c8 with memory := fun a =>
        if 0x200 ≤ a ∧ a < 0x200 + size then rom.getD (a - 0x200) 0 else c8.memory a }, true)

/-- Program `00FD` (EXIT). -/
def state_exit : Chip8 := prog_state 0x00 0xFD 0x60 0x05

/-- Program `80F5` with `V0 = 5`, `VF = 3`. -/
def state_sub_flag_operand : Chip8 :=
  { prog_state 0x80 0xF5 0 0 with V := set_at (set_at chip8_init.V 0 5) 0xF 3 }

/-- Program `2300` (CALL 0x300) with a full stack (`sp = 16`). -/
def state_stack_full : Chip8 := { prog_state 0x23 0x00 0 0 with sp := 16 }

/-- Program `00EE` (RET) with an empty stack (`sp = 0`). -/
def state_stack_empty : Chip8 := prog_state 0x00 0xEE 0 0

/-- Program `F30A` (wait for key) with no key pressed. -/
def state_wait_key : Chip8 := prog_state 0xF3 0x0A 0 0

/-- Program `F30A` (wait for key) with keys 5 and 9 pressed. -/
def state_key_pressed : Chip8 :=
  chip8_key_down (chip8_key_down (prog_state 0xF3 0x0A 0 0) 9) 5

/-! ## The scroll loops as sequences of cell assignments -/

/-- One assignment `display[dst] = val` of a scroll loop, given as the index
written and the index read for `val` (`none` when `val` keeps its initial
`false`). -/
def apply_move (c8 : Chip8) (m : Nat × Option Nat) : Chip8 :=
  let val := match m.2 with
    | some src => c8.display src
    | none => false
  { c8 with display := set_at c8.display m.1 val }

/-- Index written and index read by the body of `scroll_down` at `(x, y)`. -/
def scroll_down_move (n y x : Nat) : Nat × Option Nat :=
  (y * CHIP8_HIGH_RES_WIDTH + x,
    if n ≤ y then some ((y - n) * CHIP8_HIGH_RES_WIDTH + x) else none)

/-- The assignments of `scroll_down` in loop order: `y` descending, `x` ascending. -/
def scroll_down_moves (w h n : Nat) : List (Nat × Option Nat) :=
  (List.range h).reverse.flatMap (fun y => (List.range w).map (scroll_down_move n y))

/-- Index written and index read by the body of `scroll_right` at `(x, y)`. -/
def scroll_right_move (y x : Nat) : Nat × Option Nat :=
  (y * CHIP8_HIGH_RES_WIDTH + x,
    if 4 ≤ x then some (y * CHIP8_HIGH_RES_WIDTH + (x - 4)) else none)

/-- The assignments of `scroll_right` in loop order: `y` ascending, `x` descending. -/
def scroll_right_moves (w h : Nat) : List (Nat × Option Nat) :=
  (List.range h).flatMap (fun y => (List.range w).reverse.map (scroll_right_move y))

/-- Index written and index read by the body of `scroll_left` at `(x, y)`. -/
def scroll_left_move (w y x : Nat) : Nat × Option Nat :=
  (y * CHIP8_HIGH_RES_WIDTH + x,
    if x + 4 < w then some (y * CHIP8_HIGH_RES_WIDTH + (x + 4)) else none)

/-- The assignments of `scroll_left` in loop order: `y` ascending, `x` ascending. -/
def scroll_left_moves (w h : Nat) : List (Nat × Option Nat) :=
  (List.range h).flatMap (fun y => (List.range w).map (scroll_left_move w y))

/-- The later assignment `b` neither writes the cell that the earlier
assignment `a` wrote nor reads it. -/
def no_clobber (a b : Nat × Option Nat) : Prop :=
  a.1 ≠ b.1 ∧ b.2 ≠ some a.1

/-- Program `00C3` (scroll down 3) over a display with the cell `(0, 0)` set. -/
def state_scroll_down : Chip8 :=
  { prog_state 0x00 0xC3 0 0 with display := set_at chip8_init.display 0 true }

/-- Program `F329` (LD F, V3) with `V3 = 0xA`. -/
def state_small_font : Chip8 :=
  { prog_state 0xF3 0x29 0 0 with V := set_at chip8_init.V 3 0xA }

/-- Program `F330` (LD HF, V3) with `V3 = 7`. -/
def state_big_font : Chip8 :=
  { prog_state 0xF3 0x30 0 0 with V := set_at chip8_init.V 3 7 }

/-! ## Reachable machine states -/

/-- The states a session reaches while every cycle stays inside the arrays:
`chip8_init` followed by a ROM load (any memory contents), then `chip8_cycle`
steps that return, key events, timer ticks, and the two host assignments of
the main loop (`draw_flag = false` after rendering, `running = false` on a quit
request).  A cycle that reads or writes `memory`, `stack` or `keys` outside the
array has no result in `chip8_cycle` and so no successor here; the compiled
interpreter goes on from there (`chip8_cycle_layout`), and those runs are not
covered. -/
inductive Reachable : Chip8 → Prop
  | init (mem : Nat → Nat) : Reachable { chip8_init with memory := mem }
  | cycle (rnd : Nat) (s s' : Chip8) :
      Reachable s → chip8_cycle rnd s = some s' → Reachable s'
  | key_down (s : Chip8) (key : Nat) : Reachable s → Reachable (chip8_key_down s key)
  | key_up (s : Chip8) (key : Nat) : Reachable s → Reachable (chip8_key_up s key)
  | timer (s : Chip8) : Reachable s → Reachable (timer_tick s)
  | drawn (s : Chip8) : Reachable s → Reachable { s with draw_flag := false }
  | quit (s : Chip8) : Reachable s → Reachable { s with running := false }

/-- Program `2300` at `0x200` and `00EE` at `0x300`, before the first cycle. -/
def state_call_program : Chip8 :=
  { chip8_init with
    memory := set_at (set_at (set_at (set_at chip8_init.memory 0x200 0x23) 0x201 0x00)
      0x300 0x00) 0x301 0xEE }

/-- Program `E09E` (SKP V0) with `V0 = 200`. -/
def state_key_index_200 : Chip8 :=
  { prog_state 0xE0 0x9E 0 0 with V := set_at chip8_init.V 0 200 }

/-- Program `E0A1` (SKNP V0) with `V0 = 16`. -/
def state_key_index_16 : Chip8 :=
  { prog_state 0xE0 0xA1 0 0 with V := set_at chip8_init.V 0 16 }

/-- Program `F033` (BCD of V0) with `I = 4095`. -/
def state_bcd_at_4095 : Chip8 := { prog_state 0xF0 0x33 0 0 with I := 4095 }

/-- Program `F355` (store V0..V3) with `I = 4093`. -/
def state_store_at_4093 : Chip8 := { prog_state 0xF3 0x55 0 0 with I := 4093 }

/-- Program `F365` (load V0..V3) with `I = 4093`. -/
def state_load_at_4093 : Chip8 := { prog_state 0xF3 0x65 0 0 with I := 4093 }

/-- Program `DF05` (DRW VF, V0, 5) with `VF = 10`, `V0 = 3`; the index
register points at the glyph of digit 0. -/
def state_draw_flag_coord : Chip8 :=
  { prog_state 0xDF 0x05 0 0 with V := set_at (set_at chip8_init.V 0xF 10) 0 3 }

/-! ## The low-resolution region of the display buffer -/

/-- The buffer index `i` lies outside the top-left 64-by-32 region: its column
`i % 128` is at least 64 or its row `i / 128` is at least 32. -/
def outside_low_res (i : Nat) : Prop :=
  CHIP8_LOW_RES_WIDTH ≤ i % CHIP8_HIGH_RES_WIDTH ∨ CHIP8_LOW_RES_HEIGHT ≤ i / CHIP8_HIGH_RES_WIDTH

/-- In low resolution every display cell outside the 64-by-32 region is false. -/
def low_res_clean (c8 : Chip8) : Prop :=
  c8.high_res = false → ∀ i, outside_low_res i → c8.display i = false

/-- Program `00FF 00FE`: switch to high resolution and back. -/
def state_mode_round_trip : Chip8 :=
  { chip8_init with
    memory := set_at (set_at (set_at (set_at chip8_init.memory 0x200 0x00) 0x201 0xFF)
      0x202 0x00) 0x203 0xFE }

/-! ## Stores past `memory` inside the `Chip8` object -/

/-- Offset of `V` in `struct Chip8` (`chip8.h`): the fields follow `memory` in
declaration order, one byte per `uint8_t` and `bool`, two per `uint16_t`; the
16-bit fields fall on even offsets, so there is no padding before `keys`. -/
def OFFSET_V : Nat := CHIP8_MEMORY_SIZE

/-- Offset of `I`. -/
def OFFSET_I : Nat := OFFSET_V + CHIP8_REGISTER_COUNT

/-- Offset of `pc`. -/
def OFFSET_pc : Nat := OFFSET_I + 2

/-- Offset of `stack`. -/
def OFFSET_stack : Nat := OFFSET_pc + 2

/-- Offset of `sp`. -/
def OFFSET_sp : Nat := OFFSET_stack + 2 * CHIP8_STACK_SIZE

/-- Offset of `delay_timer`. -/
def OFFSET_delay_timer : Nat := OFFSET_sp + 1

/-- Offset of `sound_timer`. -/
def OFFSET_sound_timer : Nat := OFFSET_delay_timer + 1

/-- Offset of `display`. -/
def OFFSET_display : Nat := OFFSET_sound_timer + 1

/-- Offset of `keys`. -/
def OFFSET_keys : Nat := OFFSET_display + CHIP8_HIGH_RES_WIDTH * CHIP8_HIGH_RES_HEIGHT

/-- The store `c8->memory[a] = v` as the byte store at offset `a` of the
object that the compiled interpreter executes.  Inside `memory` it is
`mem_write`.  Past the array it lands on the field laid out at that offset: a
register, `sp`, a timer, or a display cell (for the byte 0 or 1).  A store on
one half of a 16-bit field, of another byte on a display cell, or from `keys`
on is given no result. -/
def mem_write_layout (c8 : Chip8) (a v : Nat) : Option Chip8 :=
  if a < CHIP8_MEMORY_SIZE then mem_write c8 a v
  else if a < OFFSET_I then some { c8 with V := set_at c8.V (a - OFFSET_V) v }
  else if a = OFFSET_sp then some { c8 with sp := v }
  else if a = OFFSET_delay_timer then some { c8 with delay_timer := v }
  else if a = OFFSET_sound_timer then some { c8 with sound_timer := v }
  else if OFFSET_display ≤ a ∧ a < OFFSET_keys ∧ v ≤ 1 then
    some { c8 with display := set_at c8.display (a - OFFSET_display) (decide (v = 1)) }
  else none

/-- The case `0xF000` with the stores of Fx33 and Fx55 executed by
`mem_write_layout`; every other case is `cycle_family_F`. -/
def cycle_family_F_layout (opcode x : Nat) (c8 : Chip8) : Option Chip8 :=
  let sub := opcode &&& 0x00FF
  if sub = 0x33 then do
    let v := c8.V x
    let c1 ← mem_write_layout c8 (c8.I + 0) ((v / 100) % 256)
    let c2 ← mem_write_layout c1 (c1.I + 1) (((v / 10) % 10) % 256)
    mem_write_layout c2 (c2.I + 2) ((v % 10) % 256)
  else if sub = 0x55 then
    (List.range (x + 1)).foldlM (fun c i => mem_write_layout c (c.I + i) (c.V i)) c8
  else cycle_family_F opcode x c8

/-- Decode and execute with the stores of the case `0xF000` executed by
`mem_write_layout`. -/
def execute_layout (rnd opcode : Nat) (c8 : Chip8) : Option Chip8 :=
  if opcode &&& 0xF000 = 0xF000 then
    cycle_family_F_layout opcode ((opcode &&& 0x0F00) >>> 8) c8
  else execute rnd opcode c8

/-- One cycle of the compiled interpreter: `chip8_cycle` in which a store of
Fx33 or Fx55 past `memory` lands on the field at that offset.  Reads outside
an array still have no result. -/
def chip8_cycle_layout (rnd : Nat) (c8 : Chip8) : Option Chip8 :=
  if !c8.running then some c8
  else do
    let opcode ← fetch_opcode c8
    execute_layout rnd opcode (skip_next c8)

/-- Repeated calls of `chip8_cycle_layout`, one `rand()` value per call. -/
def chip8_cycles_layout (rnds : List Nat) (c8 : Chip8) : Option Chip8 :=
  rnds.foldlM (fun c r => chip8_cycle_layout r c) c8

/-- ROM `AFFF 6035 F01E 60C8 F055 00EE`: index = 4095 + 53 = 4148, then V0 = 200
is stored at `memory[index]`, then RET. -/
def rom_sp_overwrite : List Nat :=
  [0xAF, 0xFF, 0x60, 0x35, 0xF0, 0x1E, 0x60, 0xC8, 0xF0, 0x55, 0x00, 0xEE]

/-- The state after `chip8_init` and the load of `rom_sp_overwrite`. -/
def state_sp_overwrite : Chip8 := (chip8_load_rom chip8_init rom_sp_overwrite).1

/-- ROM `AFFF 6078 F01E 6001 F055`: index = 4095 + 120 = 4215, then V0 = 1 is
stored at `memory[index]`. -/
def rom_display_overwrite : List Nat :=
  [0xAF, 0xFF, 0x60, 0x78, 0xF0, 0x1E, 0x60, 0x01, 0xF0, 0x55]

/-- The state after `chip8_init` and the load of `rom_display_overwrite`. -/
def state_display_overwrite : Chip8 := (chip8_load_rom chip8_init rom_display_overwrite).1

/-! ## Decoding lemmas -/

theorem and_div_two_pow (a b k : Nat) : (a &&& b) / 2 ^ k = a / 2 ^ k &&& b / 2 ^ k := by
  induction k with
  | zero => simp
  | succ k ih =>
    rw [Nat.pow_succ, ← Nat.div_div_eq_div_mul, ih, Nat.and_div_two, Nat.div_div_eq_div_mul,
      Nat.div_div_eq_div_mul]

theorem and_low_mask (a k : Nat) : a &&& (2 ^ k - 1) = a % 2 ^ k :=
  Nat.and_pow_two_sub_one_eq_mod a k

theorem decode_x (op : Nat) : (op &&& 0x0F00) >>> 8 = op / 256 % 16 := by
  rw [Nat.shiftRight_eq_div_pow, and_div_two_pow]
  exact and_low_mask (op / 2 ^ 8) 4

theorem decode_y (op : Nat) : (op &&& 0x00F0) >>> 4 = op / 16 % 16 := by
  rw [Nat.shiftRight_eq_div_pow, and_div_two_pow]
  exact and_low_mask (op / 2 ^ 4) 4

theorem decode_n (op : Nat) : op &&& 0x000F = op % 16 := and_low_mask op 4

theorem decode_kk (op : Nat) : op &&& 0x00FF = op % 256 := and_low_mask op 8

theorem decode_nnn (op : Nat) : op &&& 0x0FFF = op % 4096 := and_low_mask op 12

theorem decode_fam (op : Nat) : op &&& 0xF000 = op / 4096 % 16 * 4096 := by
  have h1 : (op &&& 0xF000) / 2 ^ 12 = op / 4096 % 16 := by
    rw [and_div_two_pow]; exact and_low_mask (op / 2 ^ 12) 4
  have h2 : (op &&& 0xF000) % 2 ^ 12 = 0 := by
    rw [← and_low_mask, Nat.and_assoc]
    have : (0xF000 &&& (2 ^ 12 - 1) : Nat) = 0 := by decide
    rw [this]; exact Nat.and_zero op
  have := Nat.div_add_mod (op &&& 0xF000) (2 ^ 12)
  omega

theorem decode_scroll (op : Nat) : op &&& 0xFFF0 = op / 16 % 4096 * 16 := by
  have h1 : (op &&& 0xFFF0) / 2 ^ 4 = op / 16 % 4096 := by
    rw [and_div_two_pow]; exact and_low_mask (op / 2 ^ 4) 12
  have h2 : (op &&& 0xFFF0) % 2 ^ 4 = 0 := by
    rw [← and_low_mask, Nat.and_assoc]
    have : (0xFFF0 &&& (2 ^ 4 - 1) : Nat) = 0 := by decide
    rw [this]; exact Nat.and_zero op
  have := Nat.div_add_mod (op &&& 0xFFF0) (2 ^ 4)
  omega

/-! ## General facts about a cycle -/

@[simp] theorem set_at_apply {α : Type} (a : Nat → α) (i : Nat) (v : α) (j : Nat) :
    set_at a i v j = if j = i then v else a j := rfl

theorem chip8_cycle_running (rnd : Nat) (s : Chip8) (op : Nat)
    (hrun : s.running = true) (hfetch : fetch_opcode s = some op) :
    chip8_cycle rnd s = execute rnd op (skip_next s) := by
  simp [chip8_cycle, hrun, hfetch]

theorem chip8_cycle_fetch (rnd : Nat) (s : Chip8) (hrun : s.running = true) :
    chip8_cycle rnd s = (fetch_opcode s).bind (fun op => execute rnd op (skip_next s)) := by
  unfold chip8_cycle
  rw [hrun]
  rfl

theorem fetch_opcode_eq (s : Chip8) (hpc : s.pc + 1 < 4096) :
    fetch_opcode s = some (((s.memory s.pc <<< 8) ||| s.memory (s.pc + 1)) % 65536) := by
  have h0 : s.pc < 4096 := by omega
  simp [fetch_opcode, mem_read, CHIP8_MEMORY_SIZE, hpc, h0]

/-! ## The loops of `draw_sprite` as a list of toggles -/

@[simp] theorem foldl_draw_pixel_memory (L : List Nat) (c : Chip8) :
    (L.foldl draw_pixel c).memory = c.memory := by
  induction L generalizing c with
  | nil => rfl
  | cons a t ih => rw [List.foldl_cons, ih]; simp only [draw_pixel]; split <;> rfl

@[simp] theorem foldl_draw_pixel_I (L : List Nat) (c : Chip8) :
    (L.foldl draw_pixel c).I = c.I := by
  induction L generalizing c with
  | nil => rfl
  | cons a t ih => rw [List.foldl_cons, ih]; simp only [draw_pixel]; split <;> rfl

@[simp] theorem foldl_draw_pixel_high_res (L : List Nat) (c : Chip8) :
    (L.foldl draw_pixel c).high_res = c.high_res := by
  induction L generalizing c with
  | nil => rfl
  | cons a t ih => rw [List.foldl_cons, ih]; simp only [draw_pixel]; split <;> rfl

theorem foldl_draw_pixel_V (L : List Nat) (c : Chip8) (j : Nat) (hj : j ≠ 0xF) :
    (L.foldl draw_pixel c).V j = c.V j := by
  induction L generalizing c with
  | nil => rfl
  | cons a t ih =>
    rw [List.foldl_cons, ih]; simp only [draw_pixel]
    split <;> simp [hj]

/-- Each cell ends as its old value XOR the parity of the number of toggles aimed at it. -/
theorem foldl_draw_pixel_display (L : List Nat) (c : Chip8) (i : Nat) :
    (L.foldl draw_pixel c).display i = xor (c.display i) (decide (L.count i % 2 = 1)) := by
  induction L generalizing c with
  | nil => simp
  | cons a t ih =>
    rw [List.foldl_cons, ih, List.count_cons]
    by_cases hia : i = a
    · subst hia
      have h1 : (draw_pixel c i).display i = !c.display i := by
        simp only [draw_pixel]; split <;> simp
      rw [h1]
      rcases Nat.mod_two_eq_zero_or_one (List.count i t) with h | h
      · have h2 : (List.count i t + 1) % 2 = 1 := by omega
        simp [h, h2]
      · have h2 : (List.count i t + 1) % 2 = 0 := by omega
        simp [h, h2]
    · have h1 : (draw_pixel c a).display i = c.display i := by
        simp only [draw_pixel]; split <;> simp [hia]
      have h2 : (a == i) = false := by simpa using fun h => hia h.symm
      rw [h1]; simp [h2]

/-- When no cell is aimed at twice, VF ends as 1 exactly when one of the
targeted cells was set at the start. -/
theorem foldl_draw_pixel_VF (L : List Nat) (hnd : L.Nodup) (c : Chip8) :
    (L.foldl draw_pixel c).V 0xF = if L.any (fun i => c.display i) then 1 else c.V 0xF := by
  induction L generalizing c with
  | nil => simp
  | cons a t ih =>
    have hat : a ∉ t := (List.nodup_cons.mp hnd).1
    rw [List.foldl_cons, ih (List.nodup_cons.mp hnd).2, List.any_cons]
    have hsame : t.any (fun i => (draw_pixel c a).display i) = t.any (fun i => c.display i) := by
      apply Bool.eq_iff_iff.mpr
      simp only [List.any_eq_true]
      constructor
      · rintro ⟨i, hi, hd⟩
        refine ⟨i, hi, ?_⟩
        have hia : i ≠ a := fun h => hat (h ▸ hi)
        simp only [draw_pixel] at hd
        split at hd <;> simpa [hia] using hd
      · rintro ⟨i, hi, hd⟩
        refine ⟨i, hi, ?_⟩
        have hia : i ≠ a := fun h => hat (h ▸ hi)
        simp only [draw_pixel]
        split <;> simpa [hia] using hd
    rw [hsame]
    cases hda : c.display a <;> simp [draw_pixel, hda]

theorem foldl_cond_draw_pixel (l : List Nat) (p : Nat → Bool) (f : Nat → Nat) (c : Chip8) :
    l.foldl (fun c col => if p col then draw_pixel c (f col) else c) c =
      ((l.filter p).map f).foldl draw_pixel c := by
  induction l generalizing c with
  | nil => rfl
  | cons a t ih =>
    rw [List.foldl_cons, ih, List.filter_cons]
    cases hp : p a <;> simp

theorem draw_row_eq (mask ncols w h x y row bits : Nat) (c : Chip8) :
    draw_row mask ncols w h x y row bits c =
      (((List.range ncols).filter (sprite_bit mask bits)).map (draw_index w h x y row)).foldl
        draw_pixel c := by
  unfold draw_row
  exact foldl_cond_draw_pixel _ _ _ _

theorem foldlM_draw_row8 (w h x y : Nat) (rows : List Nat) (c : Chip8)
    (hin : ∀ r ∈ rows, c.I + r < 4096) :
    rows.foldlM (draw_row8 w h x y) c =
      some ((rows.flatMap (fun row =>
        ((List.range 8).filter (sprite_bit 0x80 (c.memory (c.I + row)))).map
          (draw_index w h x y row))).foldl draw_pixel c) := by
  induction rows generalizing c with
  | nil => rfl
  | cons r t ih =>
    have hr : c.I + r < 4096 := hin r (List.mem_cons_self r t)
    have hstep : draw_row8 w h x y c r =
        some (draw_row 0x80 8 w h x y r (c.memory (c.I + r)) c) := by
      simp [draw_row8, mem_read, CHIP8_MEMORY_SIZE, hr]
    rw [List.foldlM_cons, hstep]
    simp only [Option.bind_eq_bind, Option.some_bind]
    rw [ih]
    · simp only [draw_row_eq, foldl_draw_pixel_memory, foldl_draw_pixel_I,
        List.flatMap_cons, List.foldl_append]
    · intro r' hr'
      simp only [draw_row_eq, foldl_draw_pixel_I]
      exact hin r' (List.mem_cons_of_mem r hr')

theorem foldlM_draw_row16 (w h x y : Nat) (rows : List Nat) (c : Chip8)
    (hin : ∀ r ∈ rows, c.I + r * 2 + 1 < 4096) :
    rows.foldlM (draw_row16 w h x y) c =
      some ((rows.flatMap (fun row =>
        ((List.range 16).filter (sprite_bit 0x8000
          (((c.memory (c.I + row * 2) <<< 8) ||| c.memory (c.I + row * 2 + 1)) % 65536))).map
          (draw_index w h x y row))).foldl draw_pixel c) := by
  induction rows generalizing c with
  | nil => rfl
  | cons r t ih =>
    have hr : c.I + r * 2 + 1 < 4096 := hin r (List.mem_cons_self r t)
    have hr0 : c.I + r * 2 < 4096 := by omega
    have hstep : draw_row16 w h x y c r =
        some (draw_row 0x8000 16 w h x y r
          (((c.memory (c.I + r * 2) <<< 8) ||| c.memory (c.I + r * 2 + 1)) % 65536) c) := by
      simp [draw_row16, mem_read, CHIP8_MEMORY_SIZE, hr, hr0]
    rw [List.foldlM_cons, hstep]
    simp only [Option.bind_eq_bind, Option.some_bind]
    rw [ih]
    · simp only [draw_row_eq, foldl_draw_pixel_memory, foldl_draw_pixel_I,
        List.flatMap_cons, List.foldl_append]
    · intro r' hr'
      simp only [draw_row_eq, foldl_draw_pixel_I]
      exact hin r' (List.mem_cons_of_mem r hr')

/-- With the sprite inside memory, `draw_sprite` clears VF, applies the
toggles of `sprite_targets` in order and raises the draw flag. -/
theorem draw_sprite_eq (s : Chip8) (x y n : Nat) (hin : sprite_in_memory s n) :
    draw_sprite s x y n =
      some { (sprite_targets s x y n).foldl draw_pixel { s with V := set_at s.V 0xF 0 } with
        draw_flag := true } := by
  unfold draw_sprite
  by_cases hbig : sprite_big s n
  · have hbig' : n = 0 ∧ s.high_res = true := hbig
    have hI : s.I + 31 < 4096 := by
      simpa [sprite_in_memory, hbig, CHIP8_MEMORY_SIZE] using hin
    have ht : sprite_targets s x y n = (List.range 16).flatMap (fun row =>
        ((List.range 16).filter (sprite_bit 0x8000
          (((s.memory (s.I + row * 2) <<< 8) ||| s.memory (s.I + row * 2 + 1)) % 65536))).map
          (draw_index (logical_width s) (logical_height s) x y row)) := by
      have hset : ∀ row, sprite_set s n row = sprite_bit 0x8000
          (((s.memory (s.I + row * 2) <<< 8) ||| s.memory (s.I + row * 2 + 1)) % 65536) := by
        intro row; funext col; simp only [sprite_set, sprite_row_bits, if_pos hbig]
      simp only [sprite_targets, sprite_rows, sprite_cols, hset, if_pos hbig]
    rw [ht, if_pos hbig', foldlM_draw_row16]
    · rfl
    · intro r hr
      have := List.mem_range.mp hr
      show s.I + r * 2 + 1 < 4096
      omega
  · have hbig' : ¬ (n = 0 ∧ s.high_res = true) := hbig
    have hI : ∀ row, row < n → s.I + row < 4096 := by
      simpa [sprite_in_memory, hbig, CHIP8_MEMORY_SIZE] using hin
    have ht : sprite_targets s x y n = (List.range n).flatMap (fun row =>
        ((List.range 8).filter (sprite_bit 0x80 (s.memory (s.I + row)))).map
          (draw_index (logical_width s) (logical_height s) x y row)) := by
      have hset : ∀ row, sprite_set s n row = sprite_bit 0x80 (s.memory (s.I + row)) := by
        intro row; funext col; simp only [sprite_set, sprite_row_bits, if_neg hbig]
      simp only [sprite_targets, sprite_rows, sprite_cols, hset, if_neg hbig]
    rw [ht, if_neg hbig', foldlM_draw_row8]
    · rfl
    · intro r hr
      exact hI r (List.mem_range.mp hr)

/-! ## The targets of a sprite -/

theorem mem_sprite_targets (s : Chip8) (x y n i : Nat) :
    i ∈ sprite_targets s x y n ↔
      ∃ row, row < sprite_rows s n ∧ ∃ col, col < sprite_cols s n ∧
        sprite_set s n row col = true ∧
        draw_index (logical_width s) (logical_height s) x y row col = i := by
  simp only [sprite_targets, List.mem_flatMap, List.mem_map, List.mem_filter, List.mem_range]
  constructor
  · rintro ⟨row, hrow, col, ⟨hcol, hset⟩, hidx⟩
    exact ⟨row, hrow, col, hcol, hset, hidx⟩
  · rintro ⟨row, hrow, col, hcol, hset, hidx⟩
    exact ⟨row, hrow, col, ⟨hcol, hset⟩, hidx⟩

theorem logical_size_cases (s : Chip8) :
    (logical_width s = 64 ∧ logical_height s = 32) ∨
      (logical_width s = 128 ∧ logical_height s = 64) := by
  unfold logical_width logical_height
  cases s.high_res <;> simp [CHIP8_LOW_RES_WIDTH, CHIP8_LOW_RES_HEIGHT, CHIP8_HIGH_RES_WIDTH,
    CHIP8_HIGH_RES_HEIGHT]

/-- Within a 16-by-16 window, distinct sprite positions hit distinct cells. -/
theorem draw_index_inj (s : Chip8) (x y r r' c c' : Nat)
    (hr : r < 16) (hr' : r' < 16) (hc : c < 16) (hc' : c' < 16)
    (h : draw_index (logical_width s) (logical_height s) x y r c =
      draw_index (logical_width s) (logical_height s) x y r' c') : r = r' ∧ c = c' := by
  unfold draw_index at h
  simp only [CHIP8_HIGH_RES_WIDTH] at h
  rcases logical_size_cases s with ⟨hw, hh⟩ | ⟨hw, hh⟩ <;> rw [hw, hh] at h <;> omega

theorem draw_index_coords (s : Chip8) (x y row col px py : Nat)
    (hpx : px < logical_width s) :
    draw_index (logical_width s) (logical_height s) x y row col = py * 128 + px ↔
      px = (x + col) % logical_width s ∧ py = (y + row) % logical_height s := by
  unfold draw_index
  simp only [CHIP8_HIGH_RES_WIDTH]
  rcases logical_size_cases s with ⟨hw, hh⟩ | ⟨hw, hh⟩ <;> rw [hw, hh] <;> rw [hw] at hpx <;> omega

theorem sprite_rows_le (s : Chip8) (n : Nat) (hn : n < 16) : sprite_rows s n ≤ 16 := by
  unfold sprite_rows; split <;> omega

theorem sprite_cols_le (s : Chip8) (n : Nat) : sprite_cols s n ≤ 16 := by
  unfold sprite_cols; split <;> omega

theorem sprite_targets_nodup (s : Chip8) (x y n : Nat) (hn : n < 16) :
    (sprite_targets s x y n).Nodup := by
  have hR := sprite_rows_le s n hn
  have hC := sprite_cols_le s n
  unfold sprite_targets
  rw [List.nodup_flatMap]
  constructor
  · intro row hrow
    have hrow' := List.mem_range.mp hrow
    apply List.Nodup.map_on
    · intro c hc c' hc' heq
      have h1 := List.mem_range.mp (List.mem_filter.mp hc).1
      have h2 := List.mem_range.mp (List.mem_filter.mp hc').1
      exact (draw_index_inj s x y row row c c' (by omega) (by omega) (by omega) (by omega) heq).2
    · exact List.Nodup.filter _ (List.nodup_range _)
  · refine List.Pairwise.imp_of_mem ?_ (List.pairwise_lt_range _)
    intro a b ha hb hab
    have ha' := List.mem_range.mp ha
    have hb' := List.mem_range.mp hb
    show List.Disjoint _ _
    rw [List.disjoint_left]
    intro i hia hib
    obtain ⟨c, hc, hci⟩ := List.mem_map.mp hia
    obtain ⟨c', hc', hci'⟩ := List.mem_map.mp hib
    have h1 := List.mem_range.mp (List.mem_filter.mp hc).1
    have h2 := List.mem_range.mp (List.mem_filter.mp hc').1
    have := (draw_index_inj s x y a b c c' (by omega) (by omega) (by omega) (by omega)
      (hci.trans hci'.symm)).1
    omega

theorem sprite_targets_congr (a b : Chip8) (x y n : Nat)
    (hm : a.memory = b.memory) (hI : a.I = b.I) (hr : a.high_res = b.high_res) :
    sprite_targets a x y n = sprite_targets b x y n := by
  have hset : sprite_set a n = sprite_set b n := by
    funext row col
    simp only [sprite_set, sprite_row_bits, sprite_big, hm, hI, hr]
  simp only [sprite_targets, sprite_rows, sprite_cols, sprite_big, logical_width,
    logical_height, hset, hr]

theorem sprite_in_memory_congr (a b : Chip8) (n : Nat)
    (hI : a.I = b.I) (hr : a.high_res = b.high_res) (h : sprite_in_memory b n) :
    sprite_in_memory a n := by
  simpa only [sprite_in_memory, sprite_big, hI, hr] using h

/-- The bit tested against `2^m` is bit `m`. -/
theorem and_two_pow_bne_zero (b m : Nat) : (b &&& 2 ^ m != 0) = b.testBit m := by
  cases hb : b.testBit m
  · have : b &&& 2 ^ m = 0 := by
      apply Nat.eq_of_testBit_eq
      intro i
      simp only [Nat.testBit_and, Nat.testBit_two_pow, Nat.zero_testBit]
      by_cases hmi : m = i
      · subst hmi; simp [hb]
      · simp [hmi]
    simp [this]
  · have h1 : (b &&& 2 ^ m).testBit m = true := by
      simp [Nat.testBit_and, Nat.testBit_two_pow, hb]
    have : b &&& 2 ^ m ≠ 0 := by
      intro h0; rw [h0] at h1; simp at h1
    simpa using this

/-- The sprite bits are taken most significant bit first. -/
theorem sprite_bit_msb_first (k bits col : Nat) (hcol : col ≤ k) :
    sprite_bit (2 ^ k) bits col = bits.testBit (k - col) := by
  unfold sprite_bit
  have : 2 ^ k >>> col = 2 ^ (k - col) := by
    rw [Nat.shiftRight_eq_div_pow, Nat.pow_div hcol (by decide)]
  rw [this]
  exact and_two_pow_bne_zero bits (k - col)

/-! ## C1: 8xy4 ADD Vx, Vy -/

/-- C1 (as amended): for a running state whose fetched opcode is 8xy4 with
byte-valued operands, the cycle succeeds, Vx ends as (old Vx + old Vy) mod 256
for every x and y, and VF ends as the carry whenever x is not F. -/
theorem add_vx_vy (rnd : Nat) (s : Chip8) (x y : Nat)
    (hrun : s.running = true) (hx : x < 16) (hy : y < 16)
    (hfetch : fetch_opcode s = some (0x8004 + 256 * x + 16 * y))
    (hvx : s.V x < 256) (hvy : s.V y < 256) :
    ∃ s', chip8_cycle rnd s = some s' ∧
      s'.V x = (s.V x + s.V y) % 256 ∧
      (x ≠ 0xF → s'.V 0xF = if s.V x + s.V y > 255 then 1 else 0) := by
  rw [chip8_cycle_running rnd s _ hrun hfetch]
  have hfam : (0x8004 + 256 * x + 16 * y) &&& 0xF000 = 0x8000 := by rw [decode_fam]; omega
  have hdx : ((0x8004 + 256 * x + 16 * y) &&& 0x0F00) >>> 8 = x := by rw [decode_x]; omega
  have hdy : ((0x8004 + 256 * x + 16 * y) &&& 0x00F0) >>> 4 = y := by rw [decode_y]; omega
  have hdn : (0x8004 + 256 * x + 16 * y) &&& 0x000F = 4 := by rw [decode_n]; omega
  have hsum : (s.V x + s.V y) % 65536 = s.V x + s.V y := by omega
  have hlow : ∀ m : Nat, (m &&& 0xFF) % 256 = m % 256 := by
    intro m; rw [decode_kk]; omega
  have hexec : execute rnd (0x8004 + 256 * x + 16 * y) (skip_next s) =
      some (cycle_family_8 (0x8004 + 256 * x + 16 * y) x y (skip_next s)) := by
    simp [execute, hfam, hdx, hdy]
  refine ⟨_, hexec, ?_, ?_⟩
  · simp [cycle_family_8, hdn, skip_next, hsum, hlow]
  · intro hxf
    simp [cycle_family_8, hdn, skip_next, hsum, hlow, Ne.symm hxf]

/-- Witness for C1: `8124` with `V1 = 200`, `V2 = 100` gives `V1 = 44`, `VF = 1`. -/
theorem add_vx_vy_witness :
    ∃ s', chip8_cycle 0 state_add_carry = some s' ∧ s'.V 1 = 44 ∧ s'.V 0xF = 1 := by
  obtain ⟨s', h1, h2, h3⟩ := add_vx_vy 0 state_add_carry 1 2 rfl (by decide) (by decide)
    (by decide) (by decide) (by decide)
  exact ⟨s', h1, h2, h3 (by decide)⟩

/-- C1 counterexample: with x = F, VF = 1 and V0 = 1 the opcode 8F04 leaves
VF = 2 (the wrapped sum), not the carry 0. -/
theorem add_vx_vy_flag_register_counterexample :
    state_add_flag_reg.running = true ∧
    fetch_opcode state_add_flag_reg = some 0x8F04 ∧
    state_add_flag_reg.V 0xF = 1 ∧ state_add_flag_reg.V 0 = 1 ∧
    (chip8_cycle 0 state_add_flag_reg).map (fun s' => s'.V 0xF) = some 2 ∧
    ¬ ((chip8_cycle 0 state_add_flag_reg).map (fun s' => s'.V 0xF) =
        some (if state_add_flag_reg.V 0xF + state_add_flag_reg.V 0 > 255 then 1 else 0)) := by
  decide

/-! ## C2: collision flag of `draw_sprite` -/

theorem any_sprite_targets (s : Chip8) (x y n : Nat) :
    (sprite_targets s x y n).any (fun i => s.display i) = true ↔
      ∃ row col, row < sprite_rows s n ∧ col < sprite_cols s n ∧
        sprite_set s n row col = true ∧
        s.display (draw_index (logical_width s) (logical_height s) x y row col) = true := by
  rw [List.any_eq_true]
  constructor
  · rintro ⟨i, hi, hd⟩
    obtain ⟨row, hrow, col, hcol, hset, hidx⟩ := (mem_sprite_targets s x y n i).mp hi
    exact ⟨row, col, hrow, hcol, hset, by rw [hidx]; exact hd⟩
  · rintro ⟨row, col, hrow, hcol, hset, hd⟩
    exact ⟨_, (mem_sprite_targets s x y n _).mpr ⟨row, hrow, col, hcol, hset, rfl⟩, hd⟩

/-- C2: for n in 0..15, any coordinates and either resolution mode, with the
sprite bytes inside memory, draw_sprite succeeds and leaves VF = 1 exactly
when some display cell targeted by a set sprite bit was set before the draw,
and VF = 0 exactly when there is no such cell. -/
theorem draw_sprite_collision_flag (s : Chip8) (x y n : Nat)
    (hn : n < 16) (hin : sprite_in_memory s n) :
    ∃ s', draw_sprite s x y n = some s' ∧
      (s'.V 0xF = 1 ↔
        ∃ row col, row < sprite_rows s n ∧ col < sprite_cols s n ∧
          sprite_set s n row col = true ∧
          s.display (draw_index (logical_width s) (logical_height s) x y row col) = true) ∧
      (s'.V 0xF = 0 ↔
        ¬ ∃ row col, row < sprite_rows s n ∧ col < sprite_cols s n ∧
          sprite_set s n row col = true ∧
          s.display (draw_index (logical_width s) (logical_height s) x y row col) = true) := by
  refine ⟨_, draw_sprite_eq s x y n hin, ?_⟩
  have hvf : ((sprite_targets s x y n).foldl draw_pixel { s with V := set_at s.V 0xF 0 }).V 0xF =
      if (sprite_targets s x y n).any (fun i => s.display i) then 1 else 0 :=
    foldl_draw_pixel_VF (sprite_targets s x y n) (sprite_targets_nodup s x y n hn)
      { s with V := set_at s.V 0xF 0 }
  have hany := any_sprite_targets s x y n
  show (((sprite_targets s x y n).foldl draw_pixel { s with V := set_at s.V 0xF 0 }).V 0xF = 1
      ↔ _) ∧
    (((sprite_targets s x y n).foldl draw_pixel { s with V := set_at s.V 0xF 0 }).V 0xF = 0 ↔ _)
  rw [hvf, ← hany]
  cases (sprite_targets s x y n).any (fun i => s.display i) <;> simp

/-- Witness for C2: the glyph of digit 0 drawn at (0, 0) over a set cell. -/
theorem draw_sprite_collision_flag_witness :
    ∃ s', draw_sprite state_pixel_set 0 0 5 = some s' ∧
      (s'.V 0xF = 1 ↔
        ∃ row col, row < sprite_rows state_pixel_set 5 ∧ col < sprite_cols state_pixel_set 5 ∧
          sprite_set state_pixel_set 5 row col = true ∧
          state_pixel_set.display (draw_index (logical_width state_pixel_set)
            (logical_height state_pixel_set) 0 0 row col) = true) ∧
      (s'.V 0xF = 0 ↔
        ¬ ∃ row col, row < sprite_rows state_pixel_set 5 ∧ col < sprite_cols state_pixel_set 5 ∧
          sprite_set state_pixel_set 5 row col = true ∧
          state_pixel_set.display (draw_index (logical_width state_pixel_set)
            (logical_height state_pixel_set) 0 0 row col) = true) :=
  draw_sprite_collision_flag state_pixel_set 0 0 5 (by decide) (by decide)

/-! ## C3: drawing twice -/

/-- C3: for every state, coordinates and row count with the sprite bytes
inside memory, draw_sprite leaves the index register, memory and resolution
mode unchanged, and a second draw_sprite with the same arguments returns every
cell of the display buffer to its value before the first draw. -/
theorem draw_sprite_twice (s : Chip8) (x y n : Nat) (hin : sprite_in_memory s n) :
    ∃ s1 s2, draw_sprite s x y n = some s1 ∧ draw_sprite s1 x y n = some s2 ∧
      s1.I = s.I ∧ s1.memory = s.memory ∧ s1.high_res = s.high_res ∧
      ∀ i, s2.display i = s.display i := by
  have h1 := draw_sprite_eq s x y n hin
  have hm : ({ (sprite_targets s x y n).foldl draw_pixel { s with V := set_at s.V 0xF 0 } with
      draw_flag := true } : Chip8).memory = s.memory := by simp
  have hI : ({ (sprite_targets s x y n).foldl draw_pixel { s with V := set_at s.V 0xF 0 } with
      draw_flag := true } : Chip8).I = s.I := by simp
  have hr : ({ (sprite_targets s x y n).foldl draw_pixel { s with V := set_at s.V 0xF 0 } with
      draw_flag := true } : Chip8).high_res = s.high_res := by simp
  have hin1 := sprite_in_memory_congr _ s n hI hr hin
  have h2 := draw_sprite_eq _ x y n hin1
  refine ⟨_, _, h1, h2, hI, hm, hr, ?_⟩
  intro i
  rw [sprite_targets_congr _ s x y n hm hI hr]
  simp only [foldl_draw_pixel_display]
  cases s.display i <;> cases decide ((sprite_targets s x y n).count i % 2 = 1) <;> rfl

/-- Witness for C3: the 16x16 sprite drawn twice in high-resolution mode. -/
theorem draw_sprite_twice_witness :
    ∃ s1 s2, draw_sprite state_high_res 3 250 0 = some s1 ∧ draw_sprite s1 3 250 0 = some s2 ∧
      s1.I = state_high_res.I ∧ s1.memory = state_high_res.memory ∧
      s1.high_res = state_high_res.high_res ∧
      ∀ i, s2.display i = state_high_res.display i :=
  draw_sprite_twice state_high_res 3 250 0 (by decide)

/-! ## C4: the pixels written by `draw_sprite` -/

theorem foldl_draw_pixel_display_nodup (L : List Nat) (hnd : L.Nodup) (c : Chip8) (i : Nat) :
    (L.foldl draw_pixel c).display i = xor (c.display i) (decide (i ∈ L)) := by
  rw [foldl_draw_pixel_display]
  congr 1
  apply decide_eq_decide.mpr
  constructor
  · intro h
    by_contra hni
    rw [List.count_eq_zero.mpr hni] at h
    omega
  · intro h
    rw [List.count_eq_one_of_mem hnd h]

/-- C4: for n in 0..15 with the sprite bytes inside memory, draw_sprite
succeeds and (1) every logical pixel (px, py) ends as its old value XOR
"some set sprite bit (row, col) has px = (x+col) mod w and py = (y+row) mod h";
(2) every buffer cell that no set sprite bit targets is unchanged; (3) sprite
bits are taken most significant bit first; (4) at x = w - 1 the sprite
columns 1..7 land in display columns 0..6. -/
theorem draw_sprite_pixels (s : Chip8) (x y n : Nat)
    (hn : n < 16) (hin : sprite_in_memory s n) :
    ∃ s', draw_sprite s x y n = some s' ∧
      (∀ px py, px < logical_width s → py < logical_height s →
        s'.display (py * 128 + px) = xor (s.display (py * 128 + px))
          (decide (∃ row, row < sprite_rows s n ∧ ∃ col, col < sprite_cols s n ∧
            sprite_set s n row col = true ∧
            px = (x + col) % logical_width s ∧ py = (y + row) % logical_height s))) ∧
      (∀ i, (¬ ∃ row, row < sprite_rows s n ∧ ∃ col, col < sprite_cols s n ∧
            sprite_set s n row col = true ∧
            draw_index (logical_width s) (logical_height s) x y row col = i) →
        s'.display i = s.display i) ∧
      (∀ row col, col < sprite_cols s n →
        sprite_set s n row col =
          (sprite_row_bits s n row).testBit (sprite_cols s n - 1 - col)) ∧
      (x = logical_width s - 1 → ∀ row col, 1 ≤ col → col < 8 →
        draw_index (logical_width s) (logical_height s) x y row col =
          ((y + row) % logical_height s) * 128 + (col - 1)) := by
  refine ⟨_, draw_sprite_eq s x y n hin, ?_, ?_, ?_, ?_⟩
  · intro px py hpx _
    show ((sprite_targets s x y n).foldl draw_pixel { s with V := set_at s.V 0xF 0 }).display
      (py * 128 + px) = _
    rw [foldl_draw_pixel_display_nodup _ (sprite_targets_nodup s x y n hn)]
    congr 1
    apply decide_eq_decide.mpr
    rw [mem_sprite_targets]
    constructor
    · rintro ⟨row, hrow, col, hcol, hset, hidx⟩
      exact ⟨row, hrow, col, hcol, hset, (draw_index_coords s x y row col px py hpx).mp hidx⟩
    · rintro ⟨row, hrow, col, hcol, hset, hxy⟩
      exact ⟨row, hrow, col, hcol, hset, (draw_index_coords s x y row col px py hpx).mpr hxy⟩
  · intro i hno
    show ((sprite_targets s x y n).foldl draw_pixel { s with V := set_at s.V 0xF 0 }).display i
      = _
    rw [foldl_draw_pixel_display_nodup _ (sprite_targets_nodup s x y n hn)]
    have : i ∉ sprite_targets s x y n := fun h => hno ((mem_sprite_targets s x y n i).mp h)
    simp [this]
  · intro row col hcol
    unfold sprite_set sprite_cols at *
    by_cases hbig : sprite_big s n
    · simp only [if_pos hbig] at hcol ⊢
      exact sprite_bit_msb_first 15 _ col (by omega)
    · simp only [if_neg hbig] at hcol ⊢
      exact sprite_bit_msb_first 7 _ col (by omega)
  · intro hx row col h1 h8
    unfold draw_index
    simp only [CHIP8_HIGH_RES_WIDTH]
    rcases logical_size_cases s with ⟨hw, hh⟩ | ⟨hw, hh⟩ <;> rw [hw] at hx <;> rw [hw, hh] <;>
      omega

/-- Witness for C4: the glyph of digit 0 drawn at x = 63, y = 30 in low resolution. -/
theorem draw_sprite_pixels_witness :
    ∃ s', draw_sprite state_pixel_set 63 30 5 = some s' ∧
      (∀ px py, px < logical_width state_pixel_set → py < logical_height state_pixel_set →
        s'.display (py * 128 + px) = xor (state_pixel_set.display (py * 128 + px))
          (decide (∃ row, row < sprite_rows state_pixel_set 5 ∧
            ∃ col, col < sprite_cols state_pixel_set 5 ∧
            sprite_set state_pixel_set 5 row col = true ∧
            px = (63 + col) % logical_width state_pixel_set ∧
            py = (30 + row) % logical_height state_pixel_set))) ∧
      (∀ i, (¬ ∃ row, row < sprite_rows state_pixel_set 5 ∧
            ∃ col, col < sprite_cols state_pixel_set 5 ∧
            sprite_set state_pixel_set 5 row col = true ∧
            draw_index (logical_width state_pixel_set) (logical_height state_pixel_set)
              63 30 row col = i) →
        s'.display i = state_pixel_set.display i) ∧
      (∀ row col, col < sprite_cols state_pixel_set 5 →
        sprite_set state_pixel_set 5 row col =
          (sprite_row_bits state_pixel_set 5 row).testBit
            (sprite_cols state_pixel_set 5 - 1 - col)) ∧
      (63 = logical_width state_pixel_set - 1 → ∀ row col, 1 ≤ col → col < 8 →
        draw_index (logical_width state_pixel_set) (logical_height state_pixel_set)
            63 30 row col =
          ((30 + row) % logical_height state_pixel_set) * 128 + (col - 1)) :=
  draw_sprite_pixels state_pixel_set 63 30 5 (by decide) (by decide)

/-! ## Fetch -/

theorem big_endian_word (hi lo : Nat) (hlo : lo < 256) : (hi <<< 8) ||| lo = 256 * hi + lo := by
  rw [Nat.shiftLeft_eq, Nat.mul_comm]
  exact (Nat.mul_add_lt_is_or (i := 8) hlo hi).symm

theorem fetch_opcode_in_bounds (s : Chip8) (op : Nat) (h : fetch_opcode s = some op) :
    s.pc + 1 < 4096 := by
  unfold fetch_opcode mem_read at h
  simp only [CHIP8_MEMORY_SIZE] at h
  by_cases h1 : s.pc + 1 < 4096
  · exact h1
  · by_cases h0 : s.pc < 4096 <;> simp [h0, h1] at h

/-! ## C5: CALL then RET -/

/-- C5: for a running state with stack pointer below 16 whose opcode at pc is
2nnn and whose memory at nnn holds 00EE, two consecutive cycles succeed; the
first pushes pc + 2 and jumps to nnn, the second leaves the program counter
equal to pc + 2 and the stack pointer equal to its pre-call value. -/
theorem call_ret_round_trip (rnd rnd' : Nat) (s : Chip8) (nnn : Nat)
    (hrun : s.running = true) (hsp : s.sp < 16) (hnnn : nnn + 1 < 4096)
    (hfetch : fetch_opcode s = some (0x2000 + nnn))
    (hret0 : s.memory nnn = 0x00) (hret1 : s.memory (nnn + 1) = 0xEE) :
    ∃ s1 s2, chip8_cycle rnd s = some s1 ∧ chip8_cycle rnd' s1 = some s2 ∧
      s1.pc = nnn ∧ s1.stack s.sp = s.pc + 2 ∧ s1.sp = s.sp + 1 ∧
      s2.pc = s.pc + 2 ∧ s2.sp = s.sp := by
  have hpc := fetch_opcode_in_bounds s _ hfetch
  have hpc2 : (s.pc + 2) % 65536 = s.pc + 2 := by omega
  have hfam : (0x2000 + nnn) &&& 0xF000 = 0x2000 := by rw [decode_fam]; omega
  have hdn : (0x2000 + nnn) &&& 0x0FFF = nnn := by rw [decode_nnn]; omega
  have hsp1 : (s.sp + 1) % 256 = s.sp + 1 := by omega
  have h1 : chip8_cycle rnd s = some
      { skip_next s with stack := set_at s.stack s.sp (s.pc + 2), sp := s.sp + 1, pc := nnn } := by
    rw [chip8_cycle_running rnd s _ hrun hfetch]
    simp [execute, hfam, hdn, skip_next, CHIP8_STACK_SIZE, hsp, hpc2, hsp1]
  have hn0 : nnn < 4096 := by omega
  have hf2 : fetch_opcode
      { skip_next s with stack := set_at s.stack s.sp (s.pc + 2), sp := s.sp + 1, pc := nnn } =
      some 0x00EE := by
    simp [fetch_opcode, mem_read, skip_next, CHIP8_MEMORY_SIZE, hnnn, hn0, hret0, hret1]
  have h2 : chip8_cycle rnd'
      { skip_next s with stack := set_at s.stack s.sp (s.pc + 2), sp := s.sp + 1, pc := nnn } =
      some { skip_next s with stack := set_at s.stack s.sp (s.pc + 2), sp := s.sp,
                              pc := s.pc + 2 } := by
    rw [chip8_cycle_running rnd' _ _ (by simpa [skip_next] using hrun) hf2]
    have hfam0 : (0x00EE &&& 0xF000 : Nat) = 0 := by decide
    simp [execute, hfam0, cycle_family_0, skip_next, stack_read, CHIP8_STACK_SIZE, hsp]
  exact ⟨_, _, h1, h2, rfl, by simp, rfl, rfl, rfl⟩

/-- Witness for C5. -/
theorem call_ret_round_trip_witness :
    ∃ s1 s2, chip8_cycle 0 state_call_ret = some s1 ∧ chip8_cycle 0 s1 = some s2 ∧
      s1.pc = 0x204 ∧ s1.stack state_call_ret.sp = state_call_ret.pc + 2 ∧
      s1.sp = state_call_ret.sp + 1 ∧
      s2.pc = state_call_ret.pc + 2 ∧ s2.sp = state_call_ret.sp :=
  call_ret_round_trip 0 0 state_call_ret 0x204 rfl (by decide) (by decide) (by decide)
    (by decide) (by decide)

/-! ## C7: Fx33 binary-coded decimal -/

/-- C7: for a running state whose fetched opcode is Fx33, with Vx a byte and
index + 2 inside memory, the cycle succeeds and writes the hundreds, tens and
units digits of Vx at memory[index], memory[index+1], memory[index+2]; each is
at most 9, they recompose to Vx (2, 3, 4 for 234), and every other memory
byte, every register, the index register, the stack and the timers keep their
values. -/
theorem bcd_store (rnd : Nat) (s : Chip8) (x : Nat)
    (hrun : s.running = true) (hx : x < 16)
    (hfetch : fetch_opcode s = some (0xF033 + 256 * x))
    (hv : s.V x < 256) (hI : s.I + 2 < 4096) :
    ∃ s', chip8_cycle rnd s = some s' ∧
      s'.memory s.I = s.V x / 100 ∧
      s'.memory (s.I + 1) = s.V x / 10 % 10 ∧
      s'.memory (s.I + 2) = s.V x % 10 ∧
      s'.memory s.I ≤ 9 ∧ s'.memory (s.I + 1) ≤ 9 ∧ s'.memory (s.I + 2) ≤ 9 ∧
      100 * s'.memory s.I + 10 * s'.memory (s.I + 1) + s'.memory (s.I + 2) = s.V x ∧
      (s.V x = 234 →
        s'.memory s.I = 2 ∧ s'.memory (s.I + 1) = 3 ∧ s'.memory (s.I + 2) = 4) ∧
      (∀ a, a ≠ s.I → a ≠ s.I + 1 → a ≠ s.I + 2 → s'.memory a = s.memory a) ∧
      s'.V = s.V ∧ s'.I = s.I ∧ s'.stack = s.stack ∧ s'.sp = s.sp ∧
      s'.delay_timer = s.delay_timer ∧ s'.sound_timer = s.sound_timer := by
  have hfam : (0xF033 + 256 * x) &&& 0xF000 = 0xF000 := by rw [decode_fam]; omega
  have hdx : ((0xF033 + 256 * x) &&& 0x0F00) >>> 8 = x := by rw [decode_x]; omega
  have hkk : (0xF033 + 256 * x) &&& 0x00FF = 0x33 := by rw [decode_kk]; omega
  have hI0 : s.I < 4096 := by omega
  have hI1 : s.I + 1 < 4096 := by omega
  have h1 : chip8_cycle rnd s = some { skip_next s with
      memory := set_at (set_at (set_at s.memory s.I (s.V x / 100)) (s.I + 1) (s.V x / 10 % 10))
        (s.I + 2) (s.V x % 10) } := by
    rw [chip8_cycle_running rnd s _ hrun hfetch]
    have e1 : s.V x / 100 % 256 = s.V x / 100 := by omega
    have e2 : s.V x / 10 % 10 % 256 = s.V x / 10 % 10 := by omega
    have e3 : s.V x % 10 % 256 = s.V x % 10 := by omega
    simp [execute, hfam, hdx, cycle_family_F, hkk, mem_write, skip_next, CHIP8_MEMORY_SIZE,
      hI, hI0, hI1, e1, e2, e3]
  refine ⟨_, h1, ?_, ?_, ?_, ?_, ?_, ?_, ?_, ?_, ?_, rfl, rfl, rfl, rfl, rfl, rfl⟩
  · simp
  · simp
  · simp
  · simp; omega
  · simp; omega
  · simp; omega
  · simp; omega
  · intro h; simp [h]
  · intro a h0 h1 h2; simp [skip_next, h0, h1, h2]

/-- Witness for C7: `V3 = 234`, `I = 0x300`. -/
theorem bcd_store_witness :
    ∃ s', chip8_cycle 0 state_bcd = some s' ∧
      s'.memory state_bcd.I = state_bcd.V 3 / 100 ∧
      s'.memory (state_bcd.I + 1) = state_bcd.V 3 / 10 % 10 ∧
      s'.memory (state_bcd.I + 2) = state_bcd.V 3 % 10 ∧
      s'.memory state_bcd.I ≤ 9 ∧ s'.memory (state_bcd.I + 1) ≤ 9 ∧
      s'.memory (state_bcd.I + 2) ≤ 9 ∧
      100 * s'.memory state_bcd.I + 10 * s'.memory (state_bcd.I + 1) +
        s'.memory (state_bcd.I + 2) = state_bcd.V 3 ∧
      (state_bcd.V 3 = 234 →
        s'.memory state_bcd.I = 2 ∧ s'.memory (state_bcd.I + 1) = 3 ∧
          s'.memory (state_bcd.I + 2) = 4) ∧
      (∀ a, a ≠ state_bcd.I → a ≠ state_bcd.I + 1 → a ≠ state_bcd.I + 2 →
        s'.memory a = state_bcd.memory a) ∧
      s'.V = state_bcd.V ∧ s'.I = state_bcd.I ∧ s'.stack = state_bcd.stack ∧
      s'.sp = state_bcd.sp ∧
      s'.delay_timer = state_bcd.delay_timer ∧ s'.sound_timer = state_bcd.sound_timer :=
  bcd_store 0 state_bcd 3 rfl (by decide) (by decide) (by decide) (by decide)

/-! ## C8: fetch order and 1nnn -/

/-- The opcode that a fetch at address `a` yields: `memory[a]` is the high
byte, `memory[a + 1]` the low byte, both read inside the memory array. -/
theorem fetch_opcode_at (s : Chip8) :
    fetch_opcode s = (mem_read s s.pc).bind (fun hi =>
      (mem_read s (s.pc + 1)).bind (fun lo => some (((hi <<< 8) ||| lo) % 65536))) := rfl

/-- C8: for a running state with pc and pc + 1 inside memory holding the
bytes hi and lo, chip8_cycle fetches the opcode 256 * hi + lo (big-endian) and
executes it after advancing pc by 2; when that opcode is 1nnn the cycle ends
with pc = nnn exactly and memory untouched, so the next cycle reads its opcode
bytes at memory[nnn] and memory[nnn + 1]. -/
theorem fetch_big_endian_and_jump (rnd rnd' : Nat) (s : Chip8) (hi lo : Nat)
    (hrun : s.running = true) (hpc : s.pc + 1 < 4096)
    (hhi : s.memory s.pc = hi) (hlo : s.memory (s.pc + 1) = lo)
    (hhib : hi < 256) (hlob : lo < 256) :
    fetch_opcode s = some (256 * hi + lo) ∧
    chip8_cycle rnd s = execute rnd (256 * hi + lo) (skip_next s) ∧
    ∀ nnn, nnn < 4096 → 256 * hi + lo = 0x1000 + nnn →
      ∃ s', chip8_cycle rnd s = some s' ∧ s'.pc = nnn ∧ s'.memory = s.memory ∧
        fetch_opcode s' = (mem_read s nnn).bind (fun b0 =>
          (mem_read s (nnn + 1)).bind (fun b1 => some (((b0 <<< 8) ||| b1) % 65536))) ∧
        chip8_cycle rnd' s' = (fetch_opcode s').bind (fun op => execute rnd' op (skip_next s')) ∧
        (skip_next s').pc = (nnn + 2) % 65536 := by
  have hf : fetch_opcode s = some (256 * hi + lo) := by
    rw [fetch_opcode_eq s hpc, hhi, hlo, big_endian_word hi lo hlob]
    congr 1
    omega
  refine ⟨hf, chip8_cycle_running rnd s _ hrun hf, ?_⟩
  intro nnn hnnn hop
  have hfam : (0x1000 + nnn) &&& 0xF000 = 0x1000 := by rw [decode_fam]; omega
  have hdn : (0x1000 + nnn) &&& 0x0FFF = nnn := by rw [decode_nnn]; omega
  have h1 : chip8_cycle rnd s = some { skip_next s with pc := nnn } := by
    rw [chip8_cycle_running rnd s _ hrun hf, hop]
    simp [execute, hfam, hdn]
  refine ⟨_, h1, rfl, rfl, rfl, ?_, rfl⟩
  exact chip8_cycle_fetch rnd' _ hrun

/-- Witness for C8: `1202` at `0x200`; the next opcode is read at `0x202`, `0x203`. -/
theorem fetch_big_endian_and_jump_witness :
    fetch_opcode state_jump = some (256 * 0x12 + 0x02) ∧
    chip8_cycle 0 state_jump = execute 0 (256 * 0x12 + 0x02) (skip_next state_jump) ∧
    ∃ s', chip8_cycle 0 state_jump = some s' ∧ s'.pc = 0x202 ∧
      s'.memory = state_jump.memory ∧
      fetch_opcode s' = (mem_read state_jump 0x202).bind (fun b0 =>
        (mem_read state_jump (0x202 + 1)).bind (fun b1 => some (((b0 <<< 8) ||| b1) % 65536))) ∧
      chip8_cycle 0 s' = (fetch_opcode s').bind (fun op => execute 0 op (skip_next s')) ∧
      (skip_next s').pc = (0x202 + 2) % 65536 := by
  have h := fetch_big_endian_and_jump 0 0 state_jump 0x12 0x02 rfl (by decide) (by decide)
    (by decide) (by decide) (by decide)
  exact ⟨h.1, h.2.1, h.2.2 0x202 (by decide) (by decide)⟩

/-! ## C9: 00E0 -/

/-- C9: for a running state in either mode whose fetched opcode is 00E0, the
cycle succeeds, every cell of the display buffer (hence every logical pixel)
is false and the draw flag is set whatever they held before; registers, index,
memory, timers, keys, stack and stack pointer, mode and running flag are
unchanged and pc has advanced by 2. -/
theorem cls_clears_display (rnd : Nat) (s : Chip8)
    (hrun : s.running = true) (hfetch : fetch_opcode s = some 0x00E0) :
    ∃ s', chip8_cycle rnd s = some s' ∧
      (∀ i, s'.display i = false) ∧
      (∀ px py, px < logical_width s' → py < logical_height s' →
        s'.display (py * CHIP8_HIGH_RES_WIDTH + px) = false) ∧
      s'.draw_flag = true ∧
      s'.V = s.V ∧ s'.I = s.I ∧ s'.memory = s.memory ∧
      s'.delay_timer = s.delay_timer ∧ s'.sound_timer = s.sound_timer ∧
      s'.keys = s.keys ∧ s'.stack = s.stack ∧ s'.sp = s.sp ∧
      s'.high_res = s.high_res ∧ s'.running = s.running ∧
      s'.pc = (s.pc + 2) % 65536 := by
  have h1 : chip8_cycle rnd s = some (clear_display (skip_next s)) := by
    rw [chip8_cycle_running rnd s _ hrun hfetch]
    have hfam0 : (0x00E0 &&& 0xF000 : Nat) = 0 := by decide
    simp [execute, hfam0, cycle_family_0]
  exact ⟨_, h1, fun _ => rfl, fun _ _ _ _ => rfl, rfl, rfl, rfl, rfl, rfl, rfl, rfl, rfl, rfl,
    rfl, rfl, rfl⟩

/-- Witness for C9. -/
theorem cls_clears_display_witness :
    ∃ s', chip8_cycle 0 state_cls = some s' ∧
      (∀ i, s'.display i = false) ∧
      (∀ px py, px < logical_width s' → py < logical_height s' →
        s'.display (py * CHIP8_HIGH_RES_WIDTH + px) = false) ∧
      s'.draw_flag = true ∧
      s'.V = state_cls.V ∧ s'.I = state_cls.I ∧ s'.memory = state_cls.memory ∧
      s'.delay_timer = state_cls.delay_timer ∧ s'.sound_timer = state_cls.sound_timer ∧
      s'.keys = state_cls.keys ∧ s'.stack = state_cls.stack ∧ s'.sp = state_cls.sp ∧
      s'.high_res = state_cls.high_res ∧ s'.running = state_cls.running ∧
      s'.pc = (state_cls.pc + 2) % 65536 :=
  cls_clears_display 0 state_cls rfl (by decide)

/-! ## C10: 00FF and 00FE -/

/-- C10: for a running state, (1) in low resolution chip8_get_display
reports 64 by 32, and executing 00FF leaves every display cell false and makes
it report 128 by 64; (2) executing 00FE in any mode leaves every display cell
false and makes it report 64 by 32. -/
theorem resolution_switch (rnd : Nat) (s : Chip8) (hrun : s.running = true) :
    (s.high_res = false → fetch_opcode s = some 0x00FF →
      (chip8_get_display s).2 = (64, 32) ∧
      ∃ s', chip8_cycle rnd s = some s' ∧ (∀ i, s'.display i = false) ∧
        (∀ i, (chip8_get_display s').1 i = false) ∧
        (chip8_get_display s').2 = (128, 64)) ∧
    (fetch_opcode s = some 0x00FE →
      ∃ s', chip8_cycle rnd s = some s' ∧ (∀ i, s'.display i = false) ∧
        (∀ i, (chip8_get_display s').1 i = false) ∧
        (chip8_get_display s').2 = (64, 32)) := by
  constructor
  · intro hlow hfetch
    have h1 : chip8_cycle rnd s = some (clear_display { skip_next s with high_res := true }) := by
      rw [chip8_cycle_running rnd s _ hrun hfetch]
      have hfam0 : (0x00FF &&& 0xF000 : Nat) = 0 := by decide
      simp [execute, hfam0, cycle_family_0]
    refine ⟨?_, _, h1, fun _ => rfl, fun _ => rfl, rfl⟩
    simp [chip8_get_display, hlow, CHIP8_LOW_RES_WIDTH, CHIP8_LOW_RES_HEIGHT]
  · intro hfetch
    have h1 : chip8_cycle rnd s = some (clear_display { skip_next s with high_res := false }) := by
      rw [chip8_cycle_running rnd s _ hrun hfetch]
      have hfam0 : (0x00FE &&& 0xF000 : Nat) = 0 := by decide
      simp [execute, hfam0, cycle_family_0]
    exact ⟨_, h1, fun _ => rfl, fun _ => rfl, rfl⟩

/-- Witness for C10: `00FF` executed in low resolution and `00FE` executed in
high resolution, both over a non-empty display. -/
theorem resolution_switch_witness :
    ((chip8_get_display state_to_high_res).2 = (64, 32) ∧
      ∃ s', chip8_cycle 0 state_to_high_res = some s' ∧ (∀ i, s'.display i = false) ∧
        (∀ i, (chip8_get_display s').1 i = false) ∧
        (chip8_get_display s').2 = (128, 64)) ∧
    (∃ s', chip8_cycle 0 state_to_low_res = some s' ∧ (∀ i, s'.display i = false) ∧
        (∀ i, (chip8_get_display s').1 i = false) ∧
        (chip8_get_display s').2 = (64, 32)) :=
  ⟨(resolution_switch 0 state_to_high_res rfl).1 rfl (by decide),
    (resolution_switch 0 state_to_low_res rfl).2 (by decide)⟩

/-! ## C6: Fx55 then Fx65 -/

theorem store_loop (k : Nat) (c : Chip8) (h : ∀ i, i < k → c.I + i < 4096) :
    (List.range k).foldlM (fun c i => mem_write c (c.I + i) (c.V i)) c =
      some { c with memory := fun a =>
        if c.I ≤ a ∧ a < c.I + k then c.V (a - c.I) else c.memory a } := by
  induction k with
  | zero =>
    have h0 : (fun a => if c.I ≤ a ∧ a < c.I + 0 then c.V (a - c.I) else c.memory a) =
        c.memory := by
      funext a
      have : ¬ (c.I ≤ a ∧ a < c.I + 0) := by omega
      simp [this]
    rw [h0]
    rfl
  | succ k ih =>
    have hk : c.I + k < 4096 := h k (by omega)
    rw [List.range_succ, List.foldlM_append, ih (fun i hi => h i (by omega))]
    simp only [Option.bind_eq_bind, Option.some_bind, List.foldlM_cons, List.foldlM_nil,
      mem_write, CHIP8_MEMORY_SIZE, hk, if_true, Option.bind_some, Option.pure_def]
    congr 2
    funext a
    simp only [set_at_apply]
    by_cases ha : a = c.I + k
    · subst ha
      have h1 : c.I ≤ c.I + k ∧ c.I + k < c.I + (k + 1) := by omega
      simp [h1]
    · by_cases h2 : c.I ≤ a ∧ a < c.I + k
      · have h3 : c.I ≤ a ∧ a < c.I + (k + 1) := by omega
        simp [ha, h2, h3]
      · have h3 : ¬ (c.I ≤ a ∧ a < c.I + (k + 1)) := by omega
        simp [ha, h2, h3]

theorem load_loop (k : Nat) (c : Chip8) (h : ∀ i, i < k → c.I + i < 4096) :
    (List.range k).foldlM
      (fun c i => (mem_read c (c.I + i)).map (fun b => { c with V := set_at c.V i b })) c =
      some { c with V := fun i => if i < k then c.memory (c.I + i) else c.V i } := by
  induction k with
  | zero => simp
  | succ k ih =>
    have hk : c.I + k < 4096 := h k (by omega)
    rw [List.range_succ, List.foldlM_append, ih (fun i hi => h i (by omega))]
    simp only [Option.bind_eq_bind, Option.some_bind, List.foldlM_cons, List.foldlM_nil,
      mem_read, CHIP8_MEMORY_SIZE, hk, if_true, Option.bind_some, Option.pure_def,
      Option.map_some']
    congr 2
    funext i
    simp only [set_at_apply]
    by_cases hi : i = k
    · subst hi; simp
    · by_cases h2 : i < k
      · have h3 : i < k + 1 := by omega
        simp [hi, h2, h3]
      · have h3 : ¬ i < k + 1 := by omega
        simp [hi, h2, h3]

/-- C6: for a running state whose fetched opcode is Fx55 with index + x inside
memory, the cycle succeeds, leaves the index register alone and stores V0..Vx
at memory[index..index+x]; from any later running state that fetches Fx65, has
the same index register and the same bytes in that memory range (the registers
may hold anything), the cycle succeeds and V0..Vx again hold the values they
had before the store. -/
theorem store_then_load_restores (rnd rnd' : Nat) (s : Chip8) (x : Nat)
    (hrun : s.running = true) (hx : x < 16)
    (hfetch : fetch_opcode s = some (0xF055 + 256 * x))
    (hI : s.I + x < 4096) :
    ∃ s2, chip8_cycle rnd s = some s2 ∧ s2.I = s.I ∧ s2.running = true ∧
      s2.pc = (s.pc + 2) % 65536 ∧
      (∀ i, i ≤ x → s2.memory (s.I + i) = s.V i) ∧
      (∀ a, a < s.I ∨ s.I + x < a → s2.memory a = s.memory a) ∧
      ∀ s3 : Chip8, s3.running = true → fetch_opcode s3 = some (0xF065 + 256 * x) →
        s3.I = s2.I → (∀ i, i ≤ x → s3.memory (s2.I + i) = s2.memory (s2.I + i)) →
        ∃ s4, chip8_cycle rnd' s3 = some s4 ∧ ∀ i, i ≤ x → s4.V i = s.V i := by
  have hfam : (0xF055 + 256 * x) &&& 0xF000 = 0xF000 := by rw [decode_fam]; omega
  have hdx : ((0xF055 + 256 * x) &&& 0x0F00) >>> 8 = x := by rw [decode_x]; omega
  have hkk : (0xF055 + 256 * x) &&& 0x00FF = 0x55 := by rw [decode_kk]; omega
  have hfam' : (0xF065 + 256 * x) &&& 0xF000 = 0xF000 := by rw [decode_fam]; omega
  have hdx' : ((0xF065 + 256 * x) &&& 0x0F00) >>> 8 = x := by rw [decode_x]; omega
  have hkk' : (0xF065 + 256 * x) &&& 0x00FF = 0x65 := by rw [decode_kk]; omega
  have h1 : chip8_cycle rnd s = some { skip_next s with
      memory := fun a => if s.I ≤ a ∧ a < s.I + (x + 1) then (s.V (a - s.I)) else s.memory a } := by
    rw [chip8_cycle_running rnd s _ hrun hfetch]
    simp only [execute, hfam, hdx]
    simp only [cycle_family_F, hkk]
    have := store_loop (x + 1) (skip_next s) (fun i hi => by show s.I + i < 4096; omega)
    simpa using this
  refine ⟨_, h1, rfl, hrun, rfl, ?_, ?_, ?_⟩
  · intro i hi
    have h2 : s.I ≤ s.I + i ∧ s.I + i < s.I + (x + 1) := by omega
    simp [h2]
  · intro a ha
    have h2 : ¬ (s.I ≤ a ∧ a < s.I + (x + 1)) := by omega
    simp [skip_next, h2]
  · intro s3 hrun3 hfetch3 hI3 hmem3
    have hI3' : s3.I = s.I := hI3
    have h3 : chip8_cycle rnd' s3 = some { skip_next s3 with
        V := fun i => if i < x + 1 then (s3.memory (s3.I + i)) else s3.V i } := by
      rw [chip8_cycle_running rnd' s3 _ hrun3 hfetch3]
      simp only [execute, hfam', hdx']
      simp only [cycle_family_F, hkk']
      have := load_loop (x + 1) (skip_next s3)
        (fun i hi => by show s3.I + i < 4096; rw [hI3']; omega)
      simpa using this
    refine ⟨_, h3, ?_⟩
    intro i hi
    have h4 : i < x + 1 := by omega
    have h5 := hmem3 i hi
    have h2 : s.I ≤ s.I + i ∧ s.I + i < s.I + (x + 1) := by omega
    simp only [h4, if_true, hI3']
    simp only [skip_next, h2] at h5
    simpa using h5

/-- Witness for C6: V0..V3 are stored at `0x300`, all registers are then
zeroed, and the `F365` that follows in the program reloads them. -/
theorem store_then_load_restores_witness :
    ∃ s2, chip8_cycle 0 state_store = some s2 ∧
      ∃ s4, chip8_cycle 0 { s2 with V := fun _ => 0 } = some s4 ∧
        ∀ i, i ≤ 3 → s4.V i = state_store.V i := by
  obtain ⟨s2, h2, _, hrun2, hpc2, _, hframe, hload⟩ :=
    store_then_load_restores 0 0 state_store 3 rfl (by decide) (by decide) (by decide)
  refine ⟨s2, h2, hload { s2 with V := fun _ => 0 } hrun2 ?_ rfl (fun _ _ => rfl)⟩
  have hp : s2.pc = 0x202 := by rw [hpc2]; decide
  have hm0 : s2.memory 0x202 = 0xF3 := by rw [hframe 0x202 (Or.inl (by decide))]; decide
  have hm1 : s2.memory 0x203 = 0x65 := by rw [hframe 0x203 (Or.inl (by decide))]; decide
  have hword : ((0xF3 <<< 8 ||| 0x65) % 65536 : Nat) = 0xF065 + 256 * 3 := by decide
  show fetch_opcode { s2 with V := fun _ => 0 } = some (0xF065 + 256 * 3)
  rw [fetch_opcode_eq _ (by show s2.pc + 1 < 4096; rw [hp]; decide)]
  show some (((s2.memory s2.pc <<< 8) ||| s2.memory (s2.pc + 1)) % 65536) = _
  rw [hp, hm0, hm1, hword]

/-! ## C11: a halted machine -/

theorem chip8_cycle_halted (rnd : Nat) (s : Chip8) (h : s.running = false) :
    chip8_cycle rnd s = some s := by
  simp [chip8_cycle, h]

theorem chip8_cycles_halted (rnds : List Nat) (s : Chip8) (h : s.running = false) :
    chip8_cycles rnds s = some s := by
  induction rnds with
  | nil => rfl
  | cons r t ih =>
    unfold chip8_cycles at ih ⊢
    rw [List.foldlM_cons, chip8_cycle_halted r s h]
    exact ih

/-- C11: with running = false one chip8_cycle, and any number of them, returns
the state itself; a running state that fetches 00FD ends with running = false,
so every further sequence of cycles leaves that state unchanged. -/
theorem halted_state_is_fixed (rnd : Nat) (rnds : List Nat) (s : Chip8) :
    (s.running = false → chip8_cycle rnd s = some s ∧ chip8_cycles rnds s = some s) ∧
    (s.running = true → fetch_opcode s = some 0x00FD →
      ∃ s', chip8_cycle rnd s = some s' ∧ s'.running = false ∧
        chip8_cycles rnds s' = some s') := by
  refine ⟨fun h => ⟨chip8_cycle_halted rnd s h, chip8_cycles_halted rnds s h⟩, ?_⟩
  intro hrun hfetch
  have h1 : chip8_cycle rnd s = some { skip_next s with running := false } := by
    rw [chip8_cycle_running rnd s _ hrun hfetch]
    have hfam0 : (0x00FD &&& 0xF000 : Nat) = 0 := by decide
    simp [execute, hfam0, cycle_family_0]
  exact ⟨_, h1, rfl, chip8_cycles_halted rnds _ rfl⟩

/-- Witness for C11: `00FD` at `0x200`, then three more cycles. -/
theorem halted_state_is_fixed_witness :
    ∃ s', chip8_cycle 0 state_exit = some s' ∧ s'.running = false ∧
      chip8_cycles [1, 2, 3] s' = some s' ∧ chip8_cycle 7 s' = some s' := by
  obtain ⟨s', h1, h2, h3⟩ := (halted_state_is_fixed 0 [1, 2, 3] state_exit).2 rfl (by decide)
  exact ⟨s', h1, h2, h3, ((halted_state_is_fixed 7 [] s').1 h2).1⟩

/-! ## C12: `chip8_load_rom` -/

/-- C12: for a ROM read completely, chip8_load_rom fails exactly when the
length is zero or length + 0x200 exceeds 4096, that is it succeeds iff
1 <= length <= 3584; on failure the state is unchanged; on success
memory[0x200 + i] is byte i for every i below the length, every other memory
byte is unchanged and so is every other field. -/
theorem load_rom_contract (c8 : Chip8) (rom : List Nat) :
    ((chip8_load_rom c8 rom).2 = false ↔
      (rom.length = 0 ∨ rom.length + 0x200 > 4096)) ∧
    ((chip8_load_rom c8 rom).2 = true ↔ (1 ≤ rom.length ∧ rom.length ≤ 3584)) ∧
    ((chip8_load_rom c8 rom).2 = false → (chip8_load_rom c8 rom).1 = c8) ∧
    ((chip8_load_rom c8 rom).2 = true →
      (∀ i, i < rom.length → (chip8_load_rom c8 rom).1.memory (0x200 + i) = rom.getD i 0) ∧
      (∀ a, a < 0x200 ∨ 0x200 + rom.length ≤ a →
        (chip8_load_rom c8 rom).1.memory a = c8.memory a) ∧
      (chip8_load_rom c8 rom).1 = { c8 with memory := (chip8_load_rom c8 rom).1.memory }) := by
  by_cases hbad : rom.length ≤ 0 ∨ rom.length + 0x200 > CHIP8_MEMORY_SIZE
  · have hbad' : rom.length = 0 ∨ rom.length + 0x200 > 4096 := by
      simp only [CHIP8_MEMORY_SIZE] at hbad; omega
    have hres : chip8_load_rom c8 rom = (c8, false) := by
      unfold chip8_load_rom; simp only [hbad, if_true]
    rw [hres]
    refine ⟨⟨fun _ => hbad', fun _ => rfl⟩, ⟨fun h => by simp at h, fun h => by omega⟩,
      fun _ => rfl, fun h => by simp at h⟩
  · have hok : 1 ≤ rom.length ∧ rom.length ≤ 3584 := by
      simp only [CHIP8_MEMORY_SIZE] at hbad; omega
    have hres : chip8_load_rom c8 rom =
        ({ c8 with memory := fun a =>
            if 0x200 ≤ a ∧ a < 0x200 + rom.length then rom.getD (a - 0x200) 0
            else c8.memory a }, true) := by
      unfold chip8_load_rom; simp only [hbad, if_false]
    rw [hres]
    refine ⟨⟨fun h => by simp at h, fun h => by omega⟩, ⟨fun _ => hok, fun _ => rfl⟩,
      fun h => by simp at h, fun _ => ⟨?_, ?_, rfl⟩⟩
    · intro i hi
      have h1 : 0x200 ≤ 0x200 + i ∧ 0x200 + i < 0x200 + rom.length := by omega
      simp [h1]
    · intro a ha
      have h1 : ¬ (0x200 ≤ a ∧ a < 0x200 + rom.length) := by omega
      simp [h1]

/-! ## C13: 8xy5 SUB Vx, Vy -/

/-- When neither operand register is VF, 8xy5 leaves VF = 1 iff old Vx > old Vy
and Vx = (old Vx - old Vy) mod 256. -/
theorem sub_vx_vy_plain (rnd : Nat) (s : Chip8) (x y : Nat)
    (hrun : s.running = true) (hx : x < 15) (hy : y < 15)
    (hfetch : fetch_opcode s = some (0x8005 + 256 * x + 16 * y))
    (hvy : s.V y < 256) :
    ∃ s', chip8_cycle rnd s = some s' ∧
      s'.V 0xF = (if s.V x > s.V y then 1 else 0) ∧
      (s'.V x : Int) = ((s.V x : Int) - (s.V y : Int)) % 256 := by
  rw [chip8_cycle_running rnd s _ hrun hfetch]
  have hfam : (0x8005 + 256 * x + 16 * y) &&& 0xF000 = 0x8000 := by rw [decode_fam]; omega
  have hdx : ((0x8005 + 256 * x + 16 * y) &&& 0x0F00) >>> 8 = x := by rw [decode_x]; omega
  have hdy : ((0x8005 + 256 * x + 16 * y) &&& 0x00F0) >>> 4 = y := by rw [decode_y]; omega
  have hdn : (0x8005 + 256 * x + 16 * y) &&& 0x000F = 5 := by rw [decode_n]; omega
  have hexec : execute rnd (0x8005 + 256 * x + 16 * y) (skip_next s) =
      some (cycle_family_8 (0x8005 + 256 * x + 16 * y) x y (skip_next s)) := by
    simp [execute, hfam, hdx, hdy]
  have hxf : x ≠ 15 := by omega
  have hyf : y ≠ 15 := by omega
  have hfx : ¬ (15 = x) := by omega
  refine ⟨_, hexec, ?_, ?_⟩
  · simp [cycle_family_8, hdn, skip_next, hfx]
  · have hval : (cycle_family_8 (0x8005 + 256 * x + 16 * y) x y (skip_next s)).V x =
        (s.V x + 256 - s.V y) % 256 := by
      simp [cycle_family_8, hdn, skip_next, hxf, hyf]
    rw [hval]
    omega

/-- C13 at the failing input: `80F5` with `V0 = 5`, `VF = 3` sets VF = 1 and
then subtracts the new VF, leaving `V0 = 4`; the difference of the operands
held before the instruction is `(5 - 3) mod 256 = 2`. -/
theorem sub_vx_vy_flag_operand_clobbered :
    state_sub_flag_operand.running = true ∧
    fetch_opcode state_sub_flag_operand = some (0x8005 + 256 * 0 + 16 * 0xF) ∧
    state_sub_flag_operand.V 0 = 5 ∧ state_sub_flag_operand.V 0xF = 3 ∧
    (chip8_cycle 0 state_sub_flag_operand).map (fun s' => (s'.V 0, s'.V 0xF)) = some (4, 1) ∧
    (state_sub_flag_operand.V 0 + 256 - state_sub_flag_operand.V 0xF) % 256 = 2 := by
  decide

/-! ## C14: stack misuse -/

/-- C14: for a running state, 2nnn with stack pointer = 16 and 00EE with stack
pointer = 0 both succeed and change nothing except the program counter, which
is advanced by 2 (stack, stack pointer and every other field are unchanged).
-/
theorem stack_misuse_ignored (rnd : Nat) (s : Chip8) (hrun : s.running = true) :
    (∀ nnn, nnn < 4096 → s.sp = 16 → fetch_opcode s = some (0x2000 + nnn) →
      chip8_cycle rnd s = some { s with pc := (s.pc + 2) % 65536 }) ∧
    (s.sp = 0 → fetch_opcode s = some 0x00EE →
      chip8_cycle rnd s = some { s with pc := (s.pc + 2) % 65536 }) := by
  constructor
  · intro nnn hnnn hsp hfetch
    rw [chip8_cycle_running rnd s _ hrun hfetch]
    have hfam : (0x2000 + nnn) &&& 0xF000 = 0x2000 := by rw [decode_fam]; omega
    simp [execute, hfam, skip_next, CHIP8_STACK_SIZE, hsp]
  · intro hsp hfetch
    rw [chip8_cycle_running rnd s _ hrun hfetch]
    have hfam0 : (0x00EE &&& 0xF000 : Nat) = 0 := by decide
    simp [execute, hfam0, cycle_family_0, skip_next, hsp]

/-- Witness for C14: CALL on a full stack and RET on an empty stack. -/
theorem stack_misuse_ignored_witness :
    chip8_cycle 0 state_stack_full =
      some { state_stack_full with pc := (state_stack_full.pc + 2) % 65536 } ∧
    chip8_cycle 0 state_stack_empty =
      some { state_stack_empty with pc := (state_stack_empty.pc + 2) % 65536 } :=
  ⟨(stack_misuse_ignored 0 state_stack_full rfl).1 0x300 (by decide) rfl (by decide),
    (stack_misuse_ignored 0 state_stack_empty rfl).2 rfl (by decide)⟩

/-! ## C15: opcodes without a case -/

/-- C15: for a running state whose fetched 16-bit opcode matches no defined
case of its family (0x0xxx other than 00E0, 00EE, 00FB..00FF and 00Cn; 5xyN and
9xyN with N not 0; 8xyN with N in 8..D or F; Exkk with kk not 9E or A1; Fxkk
with kk outside 07, 0A, 15, 18, 1E, 29, 30, 33, 55, 65), the cycle succeeds and
changes nothing except the program counter, which is advanced by 2. -/
theorem undefined_opcode_is_noop (rnd : Nat) (s : Chip8) (op : Nat)
    (hrun : s.running = true) (hop : op < 65536) (hfetch : fetch_opcode s = some op)
    (hundef :
      (op / 4096 = 0 ∧ op ≠ 0x00E0 ∧ op ≠ 0x00EE ∧ op ≠ 0x00FB ∧ op ≠ 0x00FC ∧
        op ≠ 0x00FD ∧ op ≠ 0x00FE ∧ op ≠ 0x00FF ∧ op / 16 ≠ 0x00C) ∨
      ((op / 4096 = 5 ∨ op / 4096 = 9) ∧ op % 16 ≠ 0) ∨
      (op / 4096 = 8 ∧ op % 16 ∈ [8, 9, 0xA, 0xB, 0xC, 0xD, 0xF]) ∨
      (op / 4096 = 0xE ∧ op % 256 ≠ 0x9E ∧ op % 256 ≠ 0xA1) ∨
      (op / 4096 = 0xF ∧
        op % 256 ∉ [0x07, 0x0A, 0x15, 0x18, 0x1E, 0x29, 0x30, 0x33, 0x55, 0x65])) :
    chip8_cycle rnd s = some { s with pc := (s.pc + 2) % 65536 } := by
  rw [chip8_cycle_running rnd s _ hrun hfetch]
  have hdn := decode_n op
  have hkk := decode_kk op
  rcases hundef with ⟨hf, h1, h2, h3, h4, h5, h6, h7, h8⟩ | ⟨hf, hn⟩ | ⟨hf, hn⟩ |
      ⟨hf, h1, h2⟩ | ⟨hf, hn⟩
  · have hfam : op &&& 0xF000 = 0 := by rw [decode_fam]; omega
    have hsc : ¬ (op &&& 0xFFF0 = 0x00C0) := by rw [decode_scroll]; omega
    simp [execute, hfam, cycle_family_0, h1, h2, h3, h4, h5, h6, h7, hsc, skip_next]
  · have hn' : ¬ (op &&& 0x000F = 0) := by rw [hdn]; exact hn
    rcases hf with hf | hf
    · have hfam : op &&& 0xF000 = 0x5000 := by rw [decode_fam]; omega
      simp [execute, hfam, hn', skip_next]
    · have hfam : op &&& 0xF000 = 0x9000 := by rw [decode_fam]; omega
      simp [execute, hfam, hn', skip_next]
  · have hfam : op &&& 0xF000 = 0x8000 := by rw [decode_fam]; omega
    simp only [List.mem_cons, List.mem_singleton, List.not_mem_nil, or_false] at hn
    rcases hn with h | h | h | h | h | h | h <;> rw [← hdn] at h <;>
      simp [execute, hfam, cycle_family_8, h, skip_next]
  · have hfam : op &&& 0xF000 = 0xE000 := by rw [decode_fam]; omega
    have h1' : ¬ (op &&& 0x00FF = 0x9E) := by rw [hkk]; exact h1
    have h2' : ¬ (op &&& 0x00FF = 0xA1) := by rw [hkk]; exact h2
    simp [execute, hfam, cycle_family_E, h1', h2', skip_next]
  · have hfam : op &&& 0xF000 = 0xF000 := by rw [decode_fam]; omega
    simp only [List.mem_cons, List.mem_singleton, List.not_mem_nil, or_false, not_or] at hn
    obtain ⟨a1, a2, a3, a4, a5, a6, a7, a8, a9, a10⟩ := hn
    rw [← hkk] at a1 a2 a3 a4 a5 a6 a7 a8 a9 a10
    simp [execute, hfam, cycle_family_F, a1, a2, a3, a4, a5, a6, a7, a8, a9, a10, skip_next]

/-- Witness for C15: `0123`, `5121`, `812F`, `E100` and `F1FF` at `0x200`. -/
theorem undefined_opcode_is_noop_witness :
    chip8_cycle 0 (prog_state 0x01 0x23 0 0) =
      some { prog_state 0x01 0x23 0 0 with pc := 0x202 } ∧
    chip8_cycle 0 (prog_state 0x51 0x21 0 0) =
      some { prog_state 0x51 0x21 0 0 with pc := 0x202 } ∧
    chip8_cycle 0 (prog_state 0x81 0x2F 0 0) =
      some { prog_state 0x81 0x2F 0 0 with pc := 0x202 } ∧
    chip8_cycle 0 (prog_state 0xE1 0x00 0 0) =
      some { prog_state 0xE1 0x00 0 0 with pc := 0x202 } ∧
    chip8_cycle 0 (prog_state 0xF1 0xFF 0 0) =
      some { prog_state 0xF1 0xFF 0 0 with pc := 0x202 } :=
  ⟨undefined_opcode_is_noop 0 _ 0x0123 rfl (by decide) (by decide) (by decide),
    undefined_opcode_is_noop 0 _ 0x5121 rfl (by decide) (by decide) (by decide),
    undefined_opcode_is_noop 0 _ 0x812F rfl (by decide) (by decide) (by decide),
    undefined_opcode_is_noop 0 _ 0xE100 rfl (by decide) (by decide) (by decide),
    undefined_opcode_is_noop 0 _ 0xF1FF rfl (by decide) (by decide) (by decide)⟩

/-! ## C16: Fx0A wait for key -/

theorem find_range_first (p : Nat → Bool) (n k : Nat) (hk : k < n) (hp : p k = true)
    (hmin : ∀ j, j < k → p j = false) : (List.range n).find? p = some k := by
  induction n with
  | zero => omega
  | succ n ih =>
    rw [List.range_succ, List.find?_append]
    by_cases hkn : k < n
    · rw [ih hkn]; rfl
    · have hkeq : k = n := by omega
      subst hkeq
      have hnone : (List.range k).find? p = none := by
        rw [List.find?_eq_none]
        intro j hj
        simp [hmin j (List.mem_range.mp hj)]
      rw [hnone]
      simp [hp]

theorem find_range_none (p : Nat → Bool) (n : Nat) (h : ∀ j, j < n → p j = false) :
    (List.range n).find? p = none := by
  rw [List.find?_eq_none]
  intro j hj
  simp [h j (List.mem_range.mp hj)]

/-- C16: for a running state whose fetched opcode is Fx0A, (1) if none of the
16 key flags is set the cycle returns the state itself, program counter
included; (2) if key k is set and no key below k is, the cycle succeeds, Vx
becomes k, the program counter is advanced by 2 and nothing else changes. -/
theorem wait_for_key (rnd : Nat) (s : Chip8) (x : Nat)
    (hrun : s.running = true) (hx : x < 16)
    (hfetch : fetch_opcode s = some (0xF00A + 256 * x)) :
    ((∀ i, i < 16 → s.keys i = false) → chip8_cycle rnd s = some s) ∧
    (∀ k, k < 16 → s.keys k = true → (∀ j, j < k → s.keys j = false) →
      chip8_cycle rnd s = some { s with pc := (s.pc + 2) % 65536, V := set_at s.V x k }) := by
  have hpc := fetch_opcode_in_bounds s _ hfetch
  have hfam : (0xF00A + 256 * x) &&& 0xF000 = 0xF000 := by rw [decode_fam]; omega
  have hdx : ((0xF00A + 256 * x) &&& 0x0F00) >>> 8 = x := by rw [decode_x]; omega
  have hkk : (0xF00A + 256 * x) &&& 0x00FF = 0x0A := by rw [decode_kk]; omega
  have hexec : chip8_cycle rnd s = cycle_family_F (0xF00A + 256 * x) x (skip_next s) := by
    rw [chip8_cycle_running rnd s _ hrun hfetch]
    simp [execute, hfam, hdx]
  rw [hexec]
  constructor
  · intro hnone
    have hfind : (List.range CHIP8_KEY_COUNT).find? (fun i => (skip_next s).keys i) = none :=
      find_range_none _ _ hnone
    have hback : ((s.pc + 2) % 65536 + 65536 - 2) % 65536 = s.pc := by omega
    simp only [cycle_family_F, hkk, hfind]
    show some { skip_next s with pc := ((skip_next s).pc + 65536 - 2) % 65536 } = some s
    have hpc' : ((skip_next s).pc + 65536 - 2) % 65536 = s.pc := hback
    rw [hpc']
    rfl
  · intro k hk hkey hmin
    have hfind : (List.range CHIP8_KEY_COUNT).find? (fun i => (skip_next s).keys i) = some k :=
      find_range_first _ _ k hk hkey hmin
    have hk256 : k % 256 = k := by omega
    simp only [cycle_family_F, hkk, hfind]
    simp [skip_next, hk256]

/-- Witness for C16: no key pressed, then keys 5 and 9 pressed. -/
theorem wait_for_key_witness :
    chip8_cycle 0 state_wait_key = some state_wait_key ∧
    chip8_cycle 0 state_key_pressed =
      some { state_key_pressed with
        pc := (state_key_pressed.pc + 2) % 65536, V := set_at state_key_pressed.V 3 5 } :=
  ⟨(wait_for_key 0 state_wait_key 3 rfl (by decide) (by decide)).1 (fun _ _ => rfl),
    (wait_for_key 0 state_key_pressed 3 rfl (by decide) (by decide)).2 5 (by decide)
      (by decide) (by decide)⟩

/-! ## In-place scroll loops -/

theorem foldl_apply_move_frame (L : List (Nat × Option Nat)) (c : Chip8) :
    L.foldl apply_move c = { c with display := (L.foldl apply_move c).display } := by
  induction L generalizing c with
  | nil => rfl
  | cons a t ih =>
    rw [List.foldl_cons, ih]
    rfl

/-- When no assignment writes or reads a cell written earlier in the
sequence, every written cell ends with the value its source had at the start,
and every cell that is not written keeps its value. -/
theorem foldl_apply_move_spec (L : List (Nat × Option Nat))
    (hsafe : L.Pairwise no_clobber) (c : Chip8) :
    (∀ m, m ∈ L → (L.foldl apply_move c).display m.1 =
      (match m.2 with
        | some src => c.display src
        | none => false)) ∧
    (∀ i, (∀ m, m ∈ L → m.1 ≠ i) → (L.foldl apply_move c).display i = c.display i) := by
  induction L generalizing c with
  | nil =>
    exact ⟨fun m hm => by simp at hm, fun _ _ => rfl⟩
  | cons a t ih =>
    obtain ⟨ha, ht⟩ := List.pairwise_cons.mp hsafe
    obtain ⟨ih1, ih2⟩ := ih ht (apply_move c a)
    rw [List.foldl_cons]
    constructor
    · intro m hm
      rcases List.mem_cons.mp hm with hma | hmt
      · subst hma
        rw [ih2 m.1 (fun b hb => Ne.symm (ha b hb).1)]
        simp [apply_move]
      · rw [ih1 m hmt]
        have hsrc := (ha m hmt).2
        cases hm2 : m.2 with
        | none => rfl
        | some src =>
          have hne : src ≠ a.1 := by
            intro h; apply hsrc; rw [hm2, h]
          simp [apply_move, hne]
    · intro i hi
      rw [ih2 i (fun b hb => hi b (List.mem_cons_of_mem a hb))]
      have hne : i ≠ a.1 := Ne.symm (hi a (List.mem_cons_self a t))
      simp [apply_move, hne]

theorem foldl_flatMap_map {α β γ : Type} (step : γ → β → γ) (g : α → List Nat)
    (f : α → Nat → β) (l : List α) (c : γ) :
    (l.flatMap (fun a => (g a).map (f a))).foldl step c =
      l.foldl (fun c a => (g a).foldl (fun c b => step c (f a b)) c) c := by
  induction l generalizing c with
  | nil => rfl
  | cons a t ih =>
    rw [List.flatMap_cons, List.foldl_append, List.foldl_cons, ih, List.foldl_map]

theorem scroll_down_cell_eq (n y : Nat) (c : Chip8) (x : Nat) :
    scroll_down_cell n y c x = apply_move c (scroll_down_move n y x) := by
  unfold scroll_down_cell apply_move scroll_down_move
  by_cases h : n ≤ y <;> simp [h]

theorem scroll_right_cell_eq (y : Nat) (c : Chip8) (x : Nat) :
    scroll_right_cell y c x = apply_move c (scroll_right_move y x) := by
  unfold scroll_right_cell apply_move scroll_right_move
  by_cases h : 4 ≤ x <;> simp [h]

theorem scroll_left_cell_eq (w y : Nat) (c : Chip8) (x : Nat) :
    scroll_left_cell w y c x = apply_move c (scroll_left_move w y x) := by
  unfold scroll_left_cell apply_move scroll_left_move
  by_cases h : x + 4 < w <;> simp [h]

theorem scroll_right_eq (s : Chip8) :
    scroll_right s =
      { (scroll_right_moves (logical_width s) (logical_height s)).foldl apply_move s with
        draw_flag := true } := by
  have hcell : ∀ y, scroll_right_cell y = fun c x => apply_move c (scroll_right_move y x) :=
    fun y => funext fun c => funext fun x => scroll_right_cell_eq y c x
  unfold scroll_right scroll_right_moves
  rw [foldl_flatMap_map]
  simp only [hcell]

theorem scroll_left_eq (s : Chip8) :
    scroll_left s =
      { (scroll_left_moves (logical_width s) (logical_height s)).foldl apply_move s with
        draw_flag := true } := by
  have hcell : ∀ w y, scroll_left_cell w y = fun c x => apply_move c (scroll_left_move w y x) :=
    fun w y => funext fun c => funext fun x => scroll_left_cell_eq w y c x
  unfold scroll_left scroll_left_moves
  rw [foldl_flatMap_map]
  simp only [hcell]

theorem scroll_down_eq (s : Chip8) (n : Nat) (h0 : n ≠ 0) (hn : n ≤ logical_height s) :
    scroll_down s n =
      { (scroll_down_moves (logical_width s) (logical_height s) n).foldl apply_move s with
        draw_flag := true } := by
  have hcell : ∀ n y, scroll_down_cell n y = fun c x => apply_move c (scroll_down_move n y x) :=
    fun n y => funext fun c => funext fun x => scroll_down_cell_eq n y c x
  unfold scroll_down scroll_down_moves
  rw [foldl_flatMap_map]
  have hcap : ¬ n > logical_height s := by omega
  simp only [h0, if_false, hcap, hcell]

theorem scroll_down_moves_safe (w h n : Nat) (hw : w ≤ 128) (hn : 1 ≤ n) :
    (scroll_down_moves w h n).Pairwise no_clobber := by
  unfold scroll_down_moves
  rw [List.pairwise_flatMap]
  constructor
  · intro y _
    rw [List.pairwise_map]
    refine List.Pairwise.imp_of_mem ?_ (List.pairwise_lt_range w)
    intro a b ha hb hab
    have ha' := List.mem_range.mp ha
    have hb' := List.mem_range.mp hb
    simp only [no_clobber, scroll_down_move, CHIP8_HIGH_RES_WIDTH]
    refine ⟨by omega, ?_⟩
    split
    · intro h; have := Option.some.inj h; omega
    · simp
  · rw [List.pairwise_reverse]
    refine List.Pairwise.imp_of_mem ?_ (List.pairwise_lt_range h)
    intro y1 y2 _ _ hlt p hp q hq
    obtain ⟨a, ha, rfl⟩ := List.mem_map.mp hp
    obtain ⟨b, hb, rfl⟩ := List.mem_map.mp hq
    have ha' := List.mem_range.mp ha
    have hb' := List.mem_range.mp hb
    simp only [no_clobber, scroll_down_move, CHIP8_HIGH_RES_WIDTH]
    refine ⟨by omega, ?_⟩
    split
    · intro h; have := Option.some.inj h; omega
    · simp

theorem scroll_right_moves_safe (w h : Nat) (hw : w ≤ 128) :
    (scroll_right_moves w h).Pairwise no_clobber := by
  unfold scroll_right_moves
  rw [List.pairwise_flatMap]
  constructor
  · intro y _
    rw [List.pairwise_map, List.pairwise_reverse]
    refine List.Pairwise.imp_of_mem ?_ (List.pairwise_lt_range w)
    intro a b ha hb hab
    have ha' := List.mem_range.mp ha
    have hb' := List.mem_range.mp hb
    simp only [no_clobber, scroll_right_move, CHIP8_HIGH_RES_WIDTH]
    refine ⟨by omega, ?_⟩
    split
    · intro h; have := Option.some.inj h; omega
    · simp
  · refine List.Pairwise.imp_of_mem ?_ (List.pairwise_lt_range h)
    intro y1 y2 _ _ hlt p hp q hq
    obtain ⟨a, ha, rfl⟩ := List.mem_map.mp hp
    obtain ⟨b, hb, rfl⟩ := List.mem_map.mp hq
    have ha' := List.mem_range.mp (List.mem_reverse.mp ha)
    have hb' := List.mem_range.mp (List.mem_reverse.mp hb)
    simp only [no_clobber, scroll_right_move, CHIP8_HIGH_RES_WIDTH]
    refine ⟨by omega, ?_⟩
    split
    · intro h; have := Option.some.inj h; omega
    · simp

theorem scroll_left_moves_safe (w h : Nat) (hw : w ≤ 128) :
    (scroll_left_moves w h).Pairwise no_clobber := by
  unfold scroll_left_moves
  rw [List.pairwise_flatMap]
  constructor
  · intro y _
    rw [List.pairwise_map]
    refine List.Pairwise.imp_of_mem ?_ (List.pairwise_lt_range w)
    intro a b ha hb hab
    have ha' := List.mem_range.mp ha
    have hb' := List.mem_range.mp hb
    simp only [no_clobber, scroll_left_move, CHIP8_HIGH_RES_WIDTH]
    refine ⟨by omega, ?_⟩
    split
    · intro h; have := Option.some.inj h; omega
    · simp
  · refine List.Pairwise.imp_of_mem ?_ (List.pairwise_lt_range h)
    intro y1 y2 _ _ hlt p hp q hq
    obtain ⟨a, ha, rfl⟩ := List.mem_map.mp hp
    obtain ⟨b, hb, rfl⟩ := List.mem_map.mp hq
    have ha' := List.mem_range.mp ha
    have hb' := List.mem_range.mp hb
    simp only [no_clobber, scroll_left_move, CHIP8_HIGH_RES_WIDTH]
    refine ⟨by omega, ?_⟩
    split
    · intro h; have := Option.some.inj h; omega
    · simp

theorem mem_scroll_down_moves (w h n x y : Nat) (hx : x < w) (hy : y < h) :
    scroll_down_move n y x ∈ scroll_down_moves w h n := by
  unfold scroll_down_moves
  rw [List.mem_flatMap]
  exact ⟨y, List.mem_reverse.mpr (List.mem_range.mpr hy),
    List.mem_map.mpr ⟨x, List.mem_range.mpr hx, rfl⟩⟩

theorem mem_scroll_right_moves (w h x y : Nat) (hx : x < w) (hy : y < h) :
    scroll_right_move y x ∈ scroll_right_moves w h := by
  unfold scroll_right_moves
  rw [List.mem_flatMap]
  exact ⟨y, List.mem_range.mpr hy,
    List.mem_map.mpr ⟨x, List.mem_reverse.mpr (List.mem_range.mpr hx), rfl⟩⟩

theorem mem_scroll_left_moves (w h x y : Nat) (hx : x < w) (hy : y < h) :
    scroll_left_move w y x ∈ scroll_left_moves w h := by
  unfold scroll_left_moves
  rw [List.mem_flatMap]
  exact ⟨y, List.mem_range.mpr hy, List.mem_map.mpr ⟨x, List.mem_range.mpr hx, rfl⟩⟩

theorem logical_width_le (s : Chip8) : logical_width s ≤ 128 := by
  rcases logical_size_cases s with ⟨hw, _⟩ | ⟨hw, _⟩ <;> omega

theorem logical_height_ge (s : Chip8) : 32 ≤ logical_height s := by
  rcases logical_size_cases s with ⟨_, hh⟩ | ⟨_, hh⟩ <;> omega

/-! ## C17: `scroll_down` -/

/-- C17: for n = 0 scroll_down returns the state itself; for n in 1..15, in
either mode, every logical pixel (x, y) ends as the old pixel (x, y - n) when
y >= n and as false when y < n, the draw flag is set and no field other than
the display and the draw flag changes; a running state that fetches 00Cn
executes scroll_down with that n. -/
theorem scroll_down_shifts (rnd : Nat) (s : Chip8) (n : Nat) (hn : n < 16) :
    (n = 0 → scroll_down s n = s) ∧
    (1 ≤ n →
      (∀ x y, x < logical_width s → y < logical_height s →
        (scroll_down s n).display (y * 128 + x) =
          if n ≤ y then s.display ((y - n) * 128 + x) else false) ∧
      (scroll_down s n).draw_flag = true ∧
      scroll_down s n = { s with display := (scroll_down s n).display, draw_flag := true }) ∧
    (s.running = true → fetch_opcode s = some (0x00C0 + n) →
      chip8_cycle rnd s = some (scroll_down (skip_next s) n)) := by
  refine ⟨?_, ?_, ?_⟩
  · intro h0
    simp [scroll_down, h0]
  · intro h1
    have hh := logical_height_ge s
    have heq := scroll_down_eq s n (by omega) (by omega)
    have hspec := foldl_apply_move_spec _
      (scroll_down_moves_safe (logical_width s) (logical_height s) n (logical_width_le s) h1) s
    refine ⟨?_, ?_, ?_⟩
    · intro x y hx hy
      rw [heq]
      have := hspec.1 _ (mem_scroll_down_moves (logical_width s) (logical_height s) n x y hx hy)
      show ((scroll_down_moves (logical_width s) (logical_height s) n).foldl apply_move s).display
        (y * 128 + x) = _
      by_cases hny : n ≤ y
      · simpa [scroll_down_move, CHIP8_HIGH_RES_WIDTH, hny] using this
      · simpa [scroll_down_move, CHIP8_HIGH_RES_WIDTH, hny] using this
    · rw [heq]
    · rw [heq]
      have hfr := foldl_apply_move_frame
        (scroll_down_moves (logical_width s) (logical_height s) n) s
      rw [hfr]
  · intro hrun hfetch
    rw [chip8_cycle_running rnd s _ hrun hfetch]
    have hfam : (0x00C0 + n) &&& 0xF000 = 0 := by rw [decode_fam]; omega
    have hsc : (0x00C0 + n) &&& 0xFFF0 = 0x00C0 := by rw [decode_scroll]; omega
    have hdn : (0x00C0 + n) &&& 0x000F = n := by rw [decode_n]; omega
    have hn256 : n % 256 = n := by omega
    have e1 : ¬ (0x00C0 + n = 0x00E0) := by omega
    have e2 : ¬ (0x00C0 + n = 0x00EE) := by omega
    have e3 : ¬ (0x00C0 + n = 0x00FE) := by omega
    have e4 : ¬ (0x00C0 + n = 0x00FF) := by omega
    have e5 : ¬ (0x00C0 + n = 0x00FD) := by omega
    have e6 : ¬ (0x00C0 + n = 0x00FB) := by omega
    have e7 : ¬ (0x00C0 + n = 0x00FC) := by omega
    simp only [execute, hfam, cycle_family_0, e1, e2, e3, e4, e5, e6, e7, hsc, hdn, hn256,
      if_true, if_false]

/-- Witness for C17: `00C3` executed in low resolution. -/
theorem scroll_down_shifts_witness :
    (∀ x y, x < logical_width (skip_next state_scroll_down) →
        y < logical_height (skip_next state_scroll_down) →
        (scroll_down (skip_next state_scroll_down) 3).display (y * 128 + x) =
          if 3 ≤ y then (skip_next state_scroll_down).display ((y - 3) * 128 + x) else false) ∧
    (scroll_down (skip_next state_scroll_down) 3).draw_flag = true ∧
    chip8_cycle 0 state_scroll_down = some (scroll_down (skip_next state_scroll_down) 3) :=
  ⟨((scroll_down_shifts 0 (skip_next state_scroll_down) 3 (by decide)).2.1 (by decide)).1,
    ((scroll_down_shifts 0 (skip_next state_scroll_down) 3 (by decide)).2.1 (by decide)).2.1,
    (scroll_down_shifts 0 state_scroll_down 3 (by decide)).2.2 rfl (by decide)⟩

/-! ## C18: `scroll_right` and `scroll_left` -/

/-- C18: in either mode, after scroll_right every logical pixel (x, y) is the
old pixel (x - 4, y) when x >= 4 and false when x < 4; after scroll_left it is
the old pixel (x + 4, y) when x + 4 < w and false otherwise; each routine is
the in-order sequence of its cell assignments, and in that sequence no
assignment reads (or writes) a cell written by an earlier one. -/
theorem scroll_sideways (s : Chip8) :
    (∀ x y, x < logical_width s → y < logical_height s →
      (scroll_right s).display (y * 128 + x) =
        if 4 ≤ x then s.display (y * 128 + (x - 4)) else false) ∧
    (∀ x y, x < logical_width s → y < logical_height s →
      (scroll_left s).display (y * 128 + x) =
        if x + 4 < logical_width s then s.display (y * 128 + (x + 4)) else false) ∧
    scroll_right s =
      { (scroll_right_moves (logical_width s) (logical_height s)).foldl apply_move s with
        draw_flag := true } ∧
    (scroll_right_moves (logical_width s) (logical_height s)).Pairwise
      (fun a b => b.2 ≠ some a.1 ∧ a.1 ≠ b.1) ∧
    scroll_left s =
      { (scroll_left_moves (logical_width s) (logical_height s)).foldl apply_move s with
        draw_flag := true } ∧
    (scroll_left_moves (logical_width s) (logical_height s)).Pairwise
      (fun a b => b.2 ≠ some a.1 ∧ a.1 ≠ b.1) := by
  have hsr := scroll_right_moves_safe (logical_width s) (logical_height s) (logical_width_le s)
  have hsl := scroll_left_moves_safe (logical_width s) (logical_height s) (logical_width_le s)
  refine ⟨?_, ?_, scroll_right_eq s, hsr.imp (fun h => ⟨h.2, h.1⟩), scroll_left_eq s,
    hsl.imp (fun h => ⟨h.2, h.1⟩)⟩
  · intro x y hx hy
    rw [scroll_right_eq]
    have := (foldl_apply_move_spec _ hsr s).1 _
      (mem_scroll_right_moves (logical_width s) (logical_height s) x y hx hy)
    show ((scroll_right_moves (logical_width s) (logical_height s)).foldl apply_move s).display
      (y * 128 + x) = _
    by_cases h4 : 4 ≤ x
    · simpa [scroll_right_move, CHIP8_HIGH_RES_WIDTH, h4] using this
    · simpa [scroll_right_move, CHIP8_HIGH_RES_WIDTH, h4] using this
  · intro x y hx hy
    rw [scroll_left_eq]
    have := (foldl_apply_move_spec _ hsl s).1 _
      (mem_scroll_left_moves (logical_width s) (logical_height s) x y hx hy)
    show ((scroll_left_moves (logical_width s) (logical_height s)).foldl apply_move s).display
      (y * 128 + x) = _
    by_cases h4 : x + 4 < logical_width s
    · simpa [scroll_left_move, CHIP8_HIGH_RES_WIDTH, h4] using this
    · simpa [scroll_left_move, CHIP8_HIGH_RES_WIDTH, h4] using this

/-! ## C19: font glyphs -/

theorem prog_state_low_memory (b0 b1 b2 b3 a : Nat) (ha : a < 0x200) :
    (prog_state b0 b1 b2 b3).memory a = chip8_init.memory a := by
  have h0 : a ≠ 0x200 := by omega
  have h1 : a ≠ 0x201 := by omega
  have h2 : a ≠ 0x202 := by omega
  have h3 : a ≠ 0x203 := by omega
  simp [prog_state, h0, h1, h2, h3]

theorem chip8_init_small_font (a : Nat) (ha : a < 0x50) :
    chip8_init.memory a = font_small.getD a 0 := by
  simp [chip8_init, ha]

theorem chip8_init_big_font (a : Nat) (ha : a < 100) :
    chip8_init.memory (0x50 + a) = font_big.getD a 0 := by
  have h1 : ¬ (0x50 + a < 0x50) := by omega
  have h2 : 0x50 + a < 0x50 + 100 := by omega
  simp only [chip8_init, h1, h2, if_true, if_false]
  congr 1
  omega

/-- C19: for a running, low-resolution state with a clear display whose font
area is as chip8_init left it and whose Vx holds d: (1) for d in 0..15, Fx29
sets index to 5 * d, and drawing 5 rows at (0, 0) then sets pixel (col, row),
col < 8, row < 5, exactly when bit 7 - col of small-font byte 5 * d + row is 1,
leaves every other cell false and leaves VF = 0; (2) for d in 0..9, Fx30 sets
index to 0x50 + 10 * d, where the 10 bytes of the big-font glyph of d start.
-/
theorem font_glyph_address_and_bitmap (rnd : Nat) (s : Chip8) (x d : Nat)
    (hrun : s.running = true) (hx : x < 16) (hvx : s.V x = d)
    (hfont : ∀ a, a < 0xB4 → s.memory a = chip8_init.memory a) :
    (d < 16 → fetch_opcode s = some (0xF029 + 256 * x) →
      (∀ i, s.display i = false) → s.high_res = false →
      ∃ s1 s2, chip8_cycle rnd s = some s1 ∧ s1.I = 5 * d ∧
        draw_sprite s1 0 0 5 = some s2 ∧
        (∀ col row, col < 8 → row < 5 →
          s2.display (row * 128 + col) = (font_small.getD (5 * d + row) 0).testBit (7 - col)) ∧
        (∀ i, (¬ ∃ col row, col < 8 ∧ row < 5 ∧ i = row * 128 + col) →
          s2.display i = false) ∧
        s2.V 0xF = 0) ∧
    (d < 10 → fetch_opcode s = some (0xF030 + 256 * x) →
      ∃ s1, chip8_cycle rnd s = some s1 ∧ s1.I = 0x50 + 10 * d ∧
        ∀ k, k < 10 → s1.memory (s1.I + k) = font_big.getD (10 * d + k) 0) := by
  constructor
  · intro hd hfetch hclear hlow
    have hfam : (0xF029 + 256 * x) &&& 0xF000 = 0xF000 := by rw [decode_fam]; omega
    have hdx : ((0xF029 + 256 * x) &&& 0x0F00) >>> 8 = x := by rw [decode_x]; omega
    have hkk : (0xF029 + 256 * x) &&& 0x00FF = 0x29 := by rw [decode_kk]; omega
    have hI : (d * 5) % 65536 = 5 * d := by omega
    have h1 : chip8_cycle rnd s = some { skip_next s with I := 5 * d } := by
      rw [chip8_cycle_running rnd s _ hrun hfetch]
      simp [execute, hfam, hdx, cycle_family_F, hkk, skip_next, hvx, hI]
    have hnb : ¬ sprite_big ({ skip_next s with I := 5 * d } : Chip8) 5 := by
      intro h; exact absurd h.1 (by decide)
    have hin : sprite_in_memory ({ skip_next s with I := 5 * d } : Chip8) 5 := by
      unfold sprite_in_memory
      rw [if_neg hnb]
      intro row hrow
      show 5 * d + row < 4096
      omega
    have hnd := sprite_targets_nodup ({ skip_next s with I := 5 * d } : Chip8) 0 0 5 (by decide)
    have hrows : sprite_rows ({ skip_next s with I := 5 * d } : Chip8) 5 = 5 := by
      unfold sprite_rows; rw [if_neg hnb]
    have hcols : sprite_cols ({ skip_next s with I := 5 * d } : Chip8) 5 = 8 := by
      unfold sprite_cols; rw [if_neg hnb]
    have hw : logical_width ({ skip_next s with I := 5 * d } : Chip8) = 64 := by
      simp [logical_width, skip_next, hlow, CHIP8_LOW_RES_WIDTH]
    have hh : logical_height ({ skip_next s with I := 5 * d } : Chip8) = 32 := by
      simp [logical_height, skip_next, hlow, CHIP8_LOW_RES_HEIGHT]
    have hset : ∀ row col, row < 5 → col < 8 →
        sprite_set ({ skip_next s with I := 5 * d } : Chip8) 5 row col =
          (font_small.getD (5 * d + row) 0).testBit (7 - col) := by
      intro row col hrow hcol
      unfold sprite_set sprite_row_bits
      rw [if_neg hnb, if_neg hnb]
      have hmem : ({ skip_next s with I := 5 * d } : Chip8).memory
          (({ skip_next s with I := 5 * d } : Chip8).I + row) =
          font_small.getD (5 * d + row) 0 := by
        show s.memory (5 * d + row) = _
        rw [hfont _ (by omega), chip8_init_small_font _ (by omega)]
      rw [hmem]
      exact sprite_bit_msb_first 7 _ col (by omega)
    have hidx : ∀ row col, row < 5 → col < 8 → draw_index 64 32 0 0 row col = row * 128 + col := by
      intro row col hrow hcol
      unfold draw_index
      simp only [CHIP8_HIGH_RES_WIDTH]
      omega
    have hdisp : ∀ i,
        ((sprite_targets ({ skip_next s with I := 5 * d } : Chip8) 0 0 5).foldl draw_pixel
          { ({ skip_next s with I := 5 * d } : Chip8) with
            V := set_at ({ skip_next s with I := 5 * d } : Chip8).V 0xF 0 }).display i =
          decide (i ∈ sprite_targets ({ skip_next s with I := 5 * d } : Chip8) 0 0 5) := by
      intro i
      rw [foldl_draw_pixel_display_nodup _ hnd]
      have : s.display i = false := hclear i
      show xor (s.display i) _ = _
      rw [this]
      simp
    refine ⟨_, _, h1, rfl, draw_sprite_eq _ 0 0 5 hin, ?_, ?_, ?_⟩
    · intro col row hcol hrow
      show ((sprite_targets ({ skip_next s with I := 5 * d } : Chip8) 0 0 5).foldl draw_pixel
          _).display (row * 128 + col) = _
      rw [hdisp, ← hset row col hrow hcol]
      apply Bool.eq_iff_iff.mpr
      rw [decide_eq_true_iff, mem_sprite_targets, hrows, hcols, hw, hh]
      constructor
      · rintro ⟨r, hr, c, hc, hbit, hi⟩
        rw [hidx r c hr hc] at hi
        have hrc : r = row ∧ c = col := by omega
        rw [← hrc.1, ← hrc.2]
        exact hbit
      · intro hbit
        exact ⟨row, hrow, col, hcol, hbit, hidx row col hrow hcol⟩
    · intro i hi
      show ((sprite_targets ({ skip_next s with I := 5 * d } : Chip8) 0 0 5).foldl draw_pixel
          _).display i = _
      rw [hdisp]
      apply decide_eq_false
      rw [mem_sprite_targets, hrows, hcols, hw, hh]
      rintro ⟨r, hr, c, hc, _, hidx'⟩
      rw [hidx r c hr hc] at hidx'
      exact hi ⟨c, r, hc, hr, hidx'.symm⟩
    · show ((sprite_targets ({ skip_next s with I := 5 * d } : Chip8) 0 0 5).foldl draw_pixel
          _).V 0xF = 0
      rw [foldl_draw_pixel_VF _ hnd]
      have hany : (sprite_targets ({ skip_next s with I := 5 * d } : Chip8) 0 0 5).any
          (fun i => ({ ({ skip_next s with I := 5 * d } : Chip8) with
            V := set_at ({ skip_next s with I := 5 * d } : Chip8).V 0xF 0 } : Chip8).display i) =
          false := by
        rw [List.any_eq_false]
        intro i _
        have : s.display i = false := hclear i
        simpa using this
      rw [hany]
      simp
  · intro hd hfetch
    have hfam : (0xF030 + 256 * x) &&& 0xF000 = 0xF000 := by rw [decode_fam]; omega
    have hdx : ((0xF030 + 256 * x) &&& 0x0F00) >>> 8 = x := by rw [decode_x]; omega
    have hkk : (0xF030 + 256 * x) &&& 0x00FF = 0x30 := by rw [decode_kk]; omega
    have hI : (0x50 + d * 10) % 65536 = 0x50 + 10 * d := by omega
    have h1 : chip8_cycle rnd s = some { skip_next s with I := 0x50 + 10 * d } := by
      rw [chip8_cycle_running rnd s _ hrun hfetch]
      simp [execute, hfam, hdx, cycle_family_F, hkk, skip_next, hvx, hI]
    refine ⟨_, h1, rfl, ?_⟩
    intro k hk
    show s.memory (0x50 + 10 * d + k) = _
    rw [hfont _ (by omega)]
    have := chip8_init_big_font (10 * d + k) (by omega)
    rw [← this]
    congr 1
    omega

/-- Witness for C19: the glyph of digit A (`F0 90 F0 90 90`) and the address
of the big glyph of digit 7. -/
theorem font_glyph_address_and_bitmap_witness :
    (∃ s1 s2, chip8_cycle 0 state_small_font = some s1 ∧ s1.I = 5 * 0xA ∧
        draw_sprite s1 0 0 5 = some s2 ∧
        (∀ col row, col < 8 → row < 5 →
          s2.display (row * 128 + col) =
            (font_small.getD (5 * 0xA + row) 0).testBit (7 - col)) ∧
        (∀ i, (¬ ∃ col row, col < 8 ∧ row < 5 ∧ i = row * 128 + col) →
          s2.display i = false) ∧
        s2.V 0xF = 0) ∧
    (∃ s1, chip8_cycle 0 state_big_font = some s1 ∧ s1.I = 0x50 + 10 * 7 ∧
        ∀ k, k < 10 → s1.memory (s1.I + k) = font_big.getD (10 * 7 + k) 0) :=
  ⟨(font_glyph_address_and_bitmap 0 state_small_font 3 0xA rfl (by decide) rfl
      (fun a ha => prog_state_low_memory _ _ _ _ a (by omega))).1 (by decide) (by decide)
      (fun _ => rfl) rfl,
    (font_glyph_address_and_bitmap 0 state_big_font 3 7 rfl (by decide) rfl
      (fun a ha => prog_state_low_memory _ _ _ _ a (by omega))).2 (by decide) (by decide)⟩

/-! ## C20: the stack pointer of reachable states -/

theorem foldl_sp {α : Type} (f : Chip8 → α → Chip8) (hf : ∀ c a, (f c a).sp = c.sp)
    (l : List α) (c : Chip8) : (l.foldl f c).sp = c.sp := by
  induction l generalizing c with
  | nil => rfl
  | cons a t ih => rw [List.foldl_cons, ih, hf]

theorem foldlM_sp {α : Type} (f : Chip8 → α → Option Chip8)
    (hf : ∀ c a c', f c a = some c' → c'.sp = c.sp)
    (l : List α) (c c' : Chip8) (h : l.foldlM f c = some c') : c'.sp = c.sp := by
  induction l generalizing c with
  | nil =>
    simp only [List.foldlM_nil, Option.pure_def, Option.some.injEq] at h
    rw [← h]
  | cons a t ih =>
    rw [List.foldlM_cons] at h
    cases hfa : f c a with
    | none => rw [hfa] at h; simp at h
    | some c1 =>
      rw [hfa] at h
      simp only [Option.bind_eq_bind, Option.some_bind] at h
      rw [ih c1 h, hf c a c1 hfa]

theorem draw_pixel_sp (c : Chip8) (i : Nat) : (draw_pixel c i).sp = c.sp := by
  simp only [draw_pixel]; split <;> rfl

theorem draw_row_sp (mask ncols w h x y row bits : Nat) (c : Chip8) :
    (draw_row mask ncols w h x y row bits c).sp = c.sp := by
  unfold draw_row
  apply foldl_sp
  intro c col
  split
  · exact draw_pixel_sp c _
  · rfl

theorem draw_sprite_sp (s s' : Chip8) (x y n : Nat) (h : draw_sprite s x y n = some s') :
    s'.sp = s.sp := by
  unfold draw_sprite at h
  by_cases hb : n = 0 ∧ s.high_res = true
  · rw [if_pos hb] at h
    simp only [Option.bind_eq_bind, Option.pure_def, Option.bind_eq_some] at h
    obtain ⟨c1, hc1, hs'⟩ := h
    rw [← Option.some.inj hs']
    show c1.sp = ({ s with V := set_at s.V 0xF 0 } : Chip8).sp
    refine foldlM_sp _ ?_ _ _ _ hc1
    intro c row c' hrow
    unfold draw_row16 at hrow
    simp only [Option.bind_eq_bind, Option.pure_def, Option.bind_eq_some] at hrow
    obtain ⟨hi, _, lo, _, hc'⟩ := hrow
    rw [← Option.some.inj hc']
    exact draw_row_sp _ _ _ _ _ _ _ _ _
  · rw [if_neg hb] at h
    simp only [Option.bind_eq_bind, Option.pure_def, Option.bind_eq_some] at h
    obtain ⟨c1, hc1, hs'⟩ := h
    rw [← Option.some.inj hs']
    show c1.sp = ({ s with V := set_at s.V 0xF 0 } : Chip8).sp
    refine foldlM_sp _ ?_ _ _ _ hc1
    intro c row c' hrow
    unfold draw_row8 at hrow
    simp only [Option.bind_eq_bind, Option.pure_def, Option.bind_eq_some] at hrow
    obtain ⟨bits, _, hc'⟩ := hrow
    rw [← Option.some.inj hc']
    exact draw_row_sp _ _ _ _ _ _ _ _ _

theorem scroll_right_sp (c : Chip8) : (scroll_right c).sp = c.sp := by
  unfold scroll_right
  show (List.foldl _ c _).sp = c.sp
  apply foldl_sp
  intro c y
  apply foldl_sp
  intro c x
  rfl

theorem scroll_left_sp (c : Chip8) : (scroll_left c).sp = c.sp := by
  unfold scroll_left
  show (List.foldl _ c _).sp = c.sp
  apply foldl_sp
  intro c y
  apply foldl_sp
  intro c x
  rfl

theorem scroll_down_sp (c : Chip8) (n : Nat) : (scroll_down c n).sp = c.sp := by
  unfold scroll_down
  split
  · rfl
  · show (List.foldl _ c _).sp = c.sp
    apply foldl_sp
    intro c y
    apply foldl_sp
    intro c x
    rfl

theorem cycle_family_8_sp (op x y : Nat) (c : Chip8) : (cycle_family_8 op x y c).sp = c.sp := by
  unfold cycle_family_8
  dsimp only
  repeat' split
  all_goals rfl

theorem cycle_family_E_sp (op x : Nat) (c c' : Chip8) (h : cycle_family_E op x c = some c') :
    c'.sp = c.sp := by
  unfold cycle_family_E at h
  dsimp only at h
  split_ifs at h
  · cases hk : key_read c (c.V x) with
    | none => rw [hk] at h; exact absurd h (by simp)
    | some k =>
      rw [hk] at h
      have := Option.some.inj h
      rw [← this]
      cases k <;> rfl
  · cases hk : key_read c (c.V x) with
    | none => rw [hk] at h; exact absurd h (by simp)
    | some k =>
      rw [hk] at h
      have := Option.some.inj h
      rw [← this]
      cases k <;> rfl
  · rw [← Option.some.inj h]

theorem mem_write_sp (c c' : Chip8) (a v : Nat) (h : mem_write c a v = some c') :
    c'.sp = c.sp := by
  unfold mem_write at h
  split_ifs at h
  rw [← Option.some.inj h]

theorem cycle_family_F_sp (op x : Nat) (c c' : Chip8) (h : cycle_family_F op x c = some c') :
    c'.sp = c.sp := by
  unfold cycle_family_F at h
  conv at h => zeta
  by_cases e1 : op &&& 0x00FF = 0x07
  · rw [if_pos e1] at h; rw [← Option.some.inj h]
  rw [if_neg e1] at h
  by_cases e2 : op &&& 0x00FF = 0x0A
  · rw [if_pos e2] at h
    cases hf : (List.range CHIP8_KEY_COUNT).find? (fun i => c.keys i) with
    | none => rw [hf] at h; rw [← Option.some.inj h]
    | some i => rw [hf] at h; rw [← Option.some.inj h]
  rw [if_neg e2] at h
  by_cases e3 : op &&& 0x00FF = 0x15
  · rw [if_pos e3] at h; rw [← Option.some.inj h]
  rw [if_neg e3] at h
  by_cases e4 : op &&& 0x00FF = 0x18
  · rw [if_pos e4] at h; rw [← Option.some.inj h]
  rw [if_neg e4] at h
  by_cases e5 : op &&& 0x00FF = 0x1E
  · rw [if_pos e5] at h; rw [← Option.some.inj h]
  rw [if_neg e5] at h
  by_cases e6 : op &&& 0x00FF = 0x29
  · rw [if_pos e6] at h; rw [← Option.some.inj h]
  rw [if_neg e6] at h
  by_cases e7 : op &&& 0x00FF = 0x30
  · rw [if_pos e7] at h; rw [← Option.some.inj h]
  rw [if_neg e7] at h
  by_cases e8 : op &&& 0x00FF = 0x33
  · rw [if_pos e8] at h
    cases h1 : mem_write c (c.I + 0) (c.V x / 100 % 256) with
    | none => rw [h1] at h; exact absurd h (by simp)
    | some c1 =>
      rw [h1] at h
      cases h2 : mem_write c1 (c1.I + 1) (c.V x / 10 % 10 % 256) with
      | none =>
        have h' : (mem_write c1 (c1.I + 1) (c.V x / 10 % 10 % 256)).bind
            (fun c2 => mem_write c2 (c2.I + 2) (c.V x % 10 % 256)) = some c' := h
        rw [h2] at h'
        exact absurd h' (by simp)
      | some c2 =>
        have h' : (mem_write c1 (c1.I + 1) (c.V x / 10 % 10 % 256)).bind
            (fun c2 => mem_write c2 (c2.I + 2) (c.V x % 10 % 256)) = some c' := h
        rw [h2] at h'
        have h3 : mem_write c2 (c2.I + 2) (c.V x % 10 % 256) = some c' := h'
        rw [mem_write_sp _ _ _ _ h3, mem_write_sp _ _ _ _ h2, mem_write_sp _ _ _ _ h1]
  rw [if_neg e8] at h
  by_cases e9 : op &&& 0x00FF = 0x55
  · rw [if_pos e9] at h
    exact foldlM_sp _ (fun c a c' hc => mem_write_sp _ _ _ _ hc) _ _ _ h
  rw [if_neg e9] at h
  by_cases e10 : op &&& 0x00FF = 0x65
  · rw [if_pos e10] at h
    refine foldlM_sp _ ?_ _ _ _ h
    intro c a c' hc
    simp only [Option.map_eq_some'] at hc
    obtain ⟨b, _, hb⟩ := hc
    rw [← hb]
  rw [if_neg e10] at h
  rw [← Option.some.inj h]

theorem cycle_family_0_sp (op : Nat) (c c' : Chip8) (h : cycle_family_0 op c = some c') :
    c'.sp = c.sp ∨ (0 < c.sp ∧ c.sp ≤ 16 ∧ c'.sp + 1 = c.sp) := by
  unfold cycle_family_0 at h
  split_ifs at h with h1 h2 hpos
  · left; rw [← Option.some.inj h]; rfl
  · right
    cases hret : stack_read { c with sp := c.sp - 1 } (c.sp - 1) with
    | none =>
      have h' : (stack_read { c with sp := c.sp - 1 } (c.sp - 1)).bind
          (fun ret => some { ({ c with sp := c.sp - 1 } : Chip8) with pc := ret }) = some c' := h
      rw [hret] at h'
      exact absurd h' (by simp)
    | some ret =>
      have h' : (stack_read { c with sp := c.sp - 1 } (c.sp - 1)).bind
          (fun ret => some { ({ c with sp := c.sp - 1 } : Chip8) with pc := ret }) = some c' := h
      rw [hret] at h'
      have h'' := Option.some.inj h'
      unfold stack_read at hret
      simp only [CHIP8_STACK_SIZE] at hret
      split_ifs at hret with hlt
      rw [← h'']
      refine ⟨hpos, by omega, ?_⟩
      show c.sp - 1 + 1 = c.sp
      omega
  · left; rw [← Option.some.inj h]
  · left; rw [← Option.some.inj h]; rfl
  · left; rw [← Option.some.inj h]; rfl
  · left; rw [← Option.some.inj h]
  · left; rw [← Option.some.inj h]; exact scroll_right_sp c
  · left; rw [← Option.some.inj h]; exact scroll_left_sp c
  · left; rw [← Option.some.inj h]; exact scroll_down_sp c _
  · left; rw [← Option.some.inj h]

/-- The only changes of the stack pointer in one decode-execute step: a push
from below 16, or a pop from above 0 whose read index is inside the stack. -/
theorem execute_sp (rnd op : Nat) (c c' : Chip8) (h : execute rnd op c = some c') :
    c'.sp = c.sp ∨ (c.sp < 16 ∧ c'.sp = c.sp + 1) ∨
      (0 < c.sp ∧ c.sp ≤ 16 ∧ c'.sp + 1 = c.sp) := by
  unfold execute at h
  conv at h => zeta
  by_cases f0 : op &&& 0xF000 = 0x0000
  · rw [if_pos f0] at h
    rcases cycle_family_0_sp op c c' h with h | h
    · exact Or.inl h
    · exact Or.inr (Or.inr h)
  rw [if_neg f0] at h
  by_cases f1 : op &&& 0xF000 = 0x1000
  · rw [if_pos f1] at h; left; rw [← Option.some.inj h]
  rw [if_neg f1] at h
  by_cases f2 : op &&& 0xF000 = 0x2000
  · rw [if_pos f2] at h
    by_cases hsp : c.sp < CHIP8_STACK_SIZE
    · rw [if_pos hsp] at h
      right; left
      simp only [CHIP8_STACK_SIZE] at hsp
      rw [← Option.some.inj h]
      refine ⟨hsp, ?_⟩
      show (c.sp + 1) % 256 = c.sp + 1
      omega
    · rw [if_neg hsp] at h; left; rw [← Option.some.inj h]
  rw [if_neg f2] at h
  by_cases f3 : op &&& 0xF000 = 0x3000
  · rw [if_pos f3] at h; left; rw [← Option.some.inj h]; split <;> rfl
  rw [if_neg f3] at h
  by_cases f4 : op &&& 0xF000 = 0x4000
  · rw [if_pos f4] at h; left; rw [← Option.some.inj h]; split <;> rfl
  rw [if_neg f4] at h
  by_cases f5 : op &&& 0xF000 = 0x5000
  · rw [if_pos f5] at h; left; rw [← Option.some.inj h]
    split
    · split <;> rfl
    · rfl
  rw [if_neg f5] at h
  by_cases f6 : op &&& 0xF000 = 0x6000
  · rw [if_pos f6] at h; left; rw [← Option.some.inj h]
  rw [if_neg f6] at h
  by_cases f7 : op &&& 0xF000 = 0x7000
  · rw [if_pos f7] at h; left; rw [← Option.some.inj h]
  rw [if_neg f7] at h
  by_cases f8 : op &&& 0xF000 = 0x8000
  · rw [if_pos f8] at h; left; rw [← Option.some.inj h]; exact cycle_family_8_sp _ _ _ _
  rw [if_neg f8] at h
  by_cases f9 : op &&& 0xF000 = 0x9000
  · rw [if_pos f9] at h; left; rw [← Option.some.inj h]
    split
    · split <;> rfl
    · rfl
  rw [if_neg f9] at h
  by_cases fa : op &&& 0xF000 = 0xA000
  · rw [if_pos fa] at h; left; rw [← Option.some.inj h]
  rw [if_neg fa] at h
  by_cases fb : op &&& 0xF000 = 0xB000
  · rw [if_pos fb] at h; left; rw [← Option.some.inj h]
  rw [if_neg fb] at h
  by_cases fc : op &&& 0xF000 = 0xC000
  · rw [if_pos fc] at h; left; rw [← Option.some.inj h]
  rw [if_neg fc] at h
  by_cases fd : op &&& 0xF000 = 0xD000
  · rw [if_pos fd] at h; left; exact draw_sprite_sp _ _ _ _ _ h
  rw [if_neg fd] at h
  by_cases fe : op &&& 0xF000 = 0xE000
  · rw [if_pos fe] at h; left; exact cycle_family_E_sp _ _ _ _ h
  rw [if_neg fe] at h
  by_cases ff : op &&& 0xF000 = 0xF000
  · rw [if_pos ff] at h; left; exact cycle_family_F_sp _ _ _ _ h
  rw [if_neg ff] at h
  left; rw [← Option.some.inj h]

theorem chip8_cycle_sp (rnd : Nat) (s s' : Chip8) (h : chip8_cycle rnd s = some s') :
    s'.sp = s.sp ∨ (s.sp < 16 ∧ s'.sp = s.sp + 1) ∨
      (0 < s.sp ∧ s.sp ≤ 16 ∧ s'.sp + 1 = s.sp) := by
  cases hrun : s.running with
  | false =>
    rw [chip8_cycle_halted rnd s hrun] at h
    left; rw [← Option.some.inj h]
  | true =>
    rw [chip8_cycle_fetch rnd s hrun] at h
    cases hf : fetch_opcode s with
    | none => rw [hf] at h; exact absurd h (by simp)
    | some op =>
      rw [hf] at h
      exact execute_sp rnd op (skip_next s) s' h

theorem reachable_sp_le (s : Chip8) (h : Reachable s) : s.sp ≤ 16 := by
  induction h with
  | init mem => show (0 : Nat) ≤ 16; omega
  | cycle rnd s s' _ hstep ih =>
    rcases chip8_cycle_sp rnd s s' hstep with h | ⟨h1, h2⟩ | ⟨_, _, h3⟩ <;> omega
  | key_down s key _ ih =>
    unfold chip8_key_down; split <;> exact ih
  | key_up s key _ ih =>
    unfold chip8_key_up; split <;> exact ih
  | timer s _ ih =>
    have : (timer_tick s).sp = s.sp := by
      unfold timer_tick
      dsimp only
      split <;> split <;> rfl
    omega
  | drawn s _ ih => exact ih
  | quit s _ ih => exact ih

/-- C20, for runs that stay inside the arrays: in every state reached from
`chip8_init` (any memory contents) by cycles none of which reads or writes
`memory`, `stack` or `keys` outside the array, key events and timer ticks, the
stack pointer is at most 16; a cycle changes it only by a push from below 16
or by a pop from above 0 that leaves it below 16; 2nnn always succeeds and
writes the stack only at index sp < 16; 00EE always succeeds and reads the
stack only at index sp - 1 < 16. -/
theorem reachable_stack_in_bounds (s : Chip8) (hreach : Reachable s) :
    s.sp ≤ 16 ∧
    (∀ rnd s', chip8_cycle rnd s = some s' →
      s'.sp = s.sp ∨ (s.sp < 16 ∧ s'.sp = s.sp + 1) ∨
        (0 < s.sp ∧ s'.sp + 1 = s.sp ∧ s'.sp < 16)) ∧
    (∀ rnd nnn, s.running = true → nnn < 4096 → fetch_opcode s = some (0x2000 + nnn) →
      ∃ s', chip8_cycle rnd s = some s' ∧
        (s.sp < 16 → s'.sp = s.sp + 1 ∧ s'.stack = set_at s.stack s.sp ((s.pc + 2) % 65536)) ∧
        (s.sp = 16 → s'.sp = 16 ∧ s'.stack = s.stack)) ∧
    (∀ rnd, s.running = true → fetch_opcode s = some 0x00EE →
      ∃ s', chip8_cycle rnd s = some s' ∧
        (0 < s.sp → s'.sp = s.sp - 1 ∧ s'.sp < 16 ∧ s'.pc = s.stack (s.sp - 1)) ∧
        (s.sp = 0 → s'.sp = 0)) := by
  have hle := reachable_sp_le s hreach
  refine ⟨hle, ?_, ?_, ?_⟩
  · intro rnd s' hstep
    rcases chip8_cycle_sp rnd s s' hstep with h | h | ⟨h1, h2, h3⟩
    · exact Or.inl h
    · exact Or.inr (Or.inl h)
    · exact Or.inr (Or.inr ⟨h1, h3, by omega⟩)
  · intro rnd nnn hrun hnnn hfetch
    have hfam : (0x2000 + nnn) &&& 0xF000 = 0x2000 := by rw [decode_fam]; omega
    rw [chip8_cycle_running rnd s _ hrun hfetch]
    by_cases hsp : s.sp < 16
    · have hsp1 : (s.sp + 1) % 256 = s.sp + 1 := by omega
      refine ⟨{ skip_next s with
          stack := set_at s.stack (s.sp) ((s.pc + 2) % 65536),
          sp := s.sp + 1, pc := (0x2000 + nnn) &&& 0x0FFF }, ?_, ?_, ?_⟩
      · simp [execute, hfam, skip_next, CHIP8_STACK_SIZE, hsp, hsp1]
      · intro _; exact ⟨rfl, rfl⟩
      · intro h16; omega
    · have h16 : s.sp = 16 := by omega
      refine ⟨skip_next s, ?_, ?_, ?_⟩
      · simp [execute, hfam, skip_next, CHIP8_STACK_SIZE, h16]
      · intro h; omega
      · intro _; exact ⟨h16, rfl⟩
  · intro rnd hrun hfetch
    have hfam0 : (0x00EE &&& 0xF000 : Nat) = 0 := by decide
    rw [chip8_cycle_running rnd s _ hrun hfetch]
    by_cases hsp : 0 < s.sp
    · have hidx : s.sp - 1 < 16 := by omega
      refine ⟨{ skip_next s with sp := s.sp - 1, pc := (s.stack (s.sp - 1)) }, ?_, ?_, ?_⟩
      · simp [execute, hfam0, cycle_family_0, skip_next, stack_read, CHIP8_STACK_SIZE, hsp, hidx]
      · intro _; exact ⟨rfl, hidx, rfl⟩
      · intro h0; omega
    · have h0 : s.sp = 0 := by omega
      refine ⟨skip_next s, ?_, ?_, ?_⟩
      · simp [execute, hfam0, cycle_family_0, skip_next, h0]
      · intro h; omega
      · intro _; exact h0

/-- Witness for C20: the state before the first cycle of a program that starts
with `2300`. -/
theorem reachable_stack_in_bounds_witness :
    state_call_program.sp ≤ 16 ∧
    ∃ s', chip8_cycle 0 state_call_program = some s' ∧
      (state_call_program.sp < 16 → s'.sp = state_call_program.sp + 1 ∧
        s'.stack = set_at state_call_program.stack state_call_program.sp
          ((state_call_program.pc + 2) % 65536)) ∧
      (state_call_program.sp = 16 → s'.sp = 16 ∧ s'.stack = state_call_program.stack) :=
  ⟨(reachable_stack_in_bounds state_call_program (Reachable.init _)).1,
    (reachable_stack_in_bounds state_call_program (Reachable.init _)).2.2.1 0 0x300 rfl
      (by decide) (by decide)⟩

/-! ## C21: Ex9E / ExA1 and the key index -/

/-- With Vx below 16, Ex9E and ExA1 read `keys[Vx]` and succeed. -/
theorem skip_if_key_in_range (rnd : Nat) (s : Chip8) (x : Nat)
    (hrun : s.running = true) (hx : x < 16) (hv : s.V x < 16) :
    (fetch_opcode s = some (0xE09E + 256 * x) →
      chip8_cycle rnd s =
        some (if s.keys (s.V x) then skip_next (skip_next s) else skip_next s)) ∧
    (fetch_opcode s = some (0xE0A1 + 256 * x) →
      chip8_cycle rnd s =
        some (if !s.keys (s.V x) then skip_next (skip_next s) else skip_next s)) := by
  constructor
  · intro hfetch
    have hfam : (0xE09E + 256 * x) &&& 0xF000 = 0xE000 := by rw [decode_fam]; omega
    have hdx : ((0xE09E + 256 * x) &&& 0x0F00) >>> 8 = x := by rw [decode_x]; omega
    have hkk : (0xE09E + 256 * x) &&& 0x00FF = 0x9E := by rw [decode_kk]; omega
    rw [chip8_cycle_running rnd s _ hrun hfetch]
    simp [execute, hfam, hdx, cycle_family_E, hkk, key_read, CHIP8_KEY_COUNT, skip_next, hv]
  · intro hfetch
    have hfam : (0xE0A1 + 256 * x) &&& 0xF000 = 0xE000 := by rw [decode_fam]; omega
    have hdx : ((0xE0A1 + 256 * x) &&& 0x0F00) >>> 8 = x := by rw [decode_x]; omega
    have hkk : (0xE0A1 + 256 * x) &&& 0x00FF = 0xA1 := by rw [decode_kk]; omega
    rw [chip8_cycle_running rnd s _ hrun hfetch]
    simp [execute, hfam, hdx, cycle_family_E, hkk, key_read, CHIP8_KEY_COUNT, skip_next, hv]

/-- With Vx at 16 or above, Ex9E and ExA1 index `keys` past its 16 entries. -/
theorem skip_if_key_out_of_range (rnd : Nat) (s : Chip8) (x : Nat)
    (hrun : s.running = true) (hx : x < 16) (hv : 16 ≤ s.V x) :
    key_read (skip_next s) (s.V x) = none ∧
    (fetch_opcode s = some (0xE09E + 256 * x) → chip8_cycle rnd s = none) ∧
    (fetch_opcode s = some (0xE0A1 + 256 * x) → chip8_cycle rnd s = none) := by
  have hv' : ¬ s.V x < 16 := by omega
  refine ⟨by simp [key_read, CHIP8_KEY_COUNT, hv'], ?_, ?_⟩
  · intro hfetch
    have hfam : (0xE09E + 256 * x) &&& 0xF000 = 0xE000 := by rw [decode_fam]; omega
    have hdx : ((0xE09E + 256 * x) &&& 0x0F00) >>> 8 = x := by rw [decode_x]; omega
    have hkk : (0xE09E + 256 * x) &&& 0x00FF = 0x9E := by rw [decode_kk]; omega
    rw [chip8_cycle_running rnd s _ hrun hfetch]
    simp [execute, hfam, hdx, cycle_family_E, hkk, key_read, CHIP8_KEY_COUNT, skip_next, hv']
  · intro hfetch
    have hfam : (0xE0A1 + 256 * x) &&& 0xF000 = 0xE000 := by rw [decode_fam]; omega
    have hdx : ((0xE0A1 + 256 * x) &&& 0x0F00) >>> 8 = x := by rw [decode_x]; omega
    have hkk : (0xE0A1 + 256 * x) &&& 0x00FF = 0xA1 := by rw [decode_kk]; omega
    rw [chip8_cycle_running rnd s _ hrun hfetch]
    simp [execute, hfam, hdx, cycle_family_E, hkk, key_read, CHIP8_KEY_COUNT, skip_next, hv']

/-- C21 at the failing inputs: `E09E` with the byte `V0 = 200` reads
`keys[200]`, and `E0A1` with `V0 = 16` reads `keys[16]`; both indices are
outside the 16-entry array, so neither cycle has a defined result. -/
theorem skip_if_key_reads_past_keys :
    state_key_index_200.running = true ∧
    fetch_opcode state_key_index_200 = some 0xE09E ∧
    state_key_index_200.V 0 = 200 ∧
    key_read (skip_next state_key_index_200) (state_key_index_200.V 0) = none ∧
    chip8_cycle 0 state_key_index_200 = none ∧
    state_key_index_16.running = true ∧
    fetch_opcode state_key_index_16 = some 0xE0A1 ∧
    state_key_index_16.V 0 = 16 ∧
    chip8_cycle 0 state_key_index_16 = none := by
  refine ⟨rfl, by decide, rfl, by decide, ?_, rfl, by decide, rfl, ?_⟩
  · exact (skip_if_key_out_of_range 0 state_key_index_200 0 rfl (by decide) (by decide)).2.1
      (by decide)
  · exact (skip_if_key_out_of_range 0 state_key_index_16 0 rfl (by decide) (by decide)).2.2
      (by decide)

/-! ## C22: memory-indexed opcodes -/

theorem foldlM_inv {α : Type} (P : Chip8 → Prop) (f : Chip8 → α → Option Chip8)
    (hf : ∀ c a c', f c a = some c' → P c → P c')
    (l : List α) (c c' : Chip8) (h : l.foldlM f c = some c') (hp : P c) : P c' := by
  induction l generalizing c with
  | nil =>
    simp only [List.foldlM_nil, Option.pure_def, Option.some.injEq] at h
    rw [← h]; exact hp
  | cons a t ih =>
    rw [List.foldlM_cons] at h
    cases hfa : f c a with
    | none => rw [hfa] at h; simp at h
    | some c1 =>
      rw [hfa] at h
      simp only [Option.bind_eq_bind, Option.some_bind] at h
      exact ih c1 h (hf c a c1 hfa hp)

theorem mem_write_eq_none (c : Chip8) (a v : Nat) : mem_write c a v = none ↔ 4096 ≤ a := by
  unfold mem_write
  simp only [CHIP8_MEMORY_SIZE]
  by_cases h : a < 4096
  · simp [h]
  · simp [h]; omega

theorem mem_read_eq_none (c : Chip8) (a : Nat) : mem_read c a = none ↔ 4096 ≤ a := by
  unfold mem_read
  simp only [CHIP8_MEMORY_SIZE]
  by_cases h : a < 4096
  · simp [h]
  · simp [h]; omega

theorem mem_write_I (c c' : Chip8) (a v : Nat) (h : mem_write c a v = some c') : c'.I = c.I := by
  unfold mem_write at h
  split_ifs at h
  rw [← Option.some.inj h]

theorem store_loop_fault (k : Nat) (c : Chip8) (i : Nat) (hi : i < k) (hbad : 4096 ≤ c.I + i) :
    (List.range k).foldlM (fun c i => mem_write c (c.I + i) (c.V i)) c = none := by
  induction k with
  | zero => omega
  | succ k ih =>
    rw [List.range_succ, List.foldlM_append]
    cases hpre : (List.range k).foldlM (fun c i => mem_write c (c.I + i) (c.V i)) c with
    | none => rfl
    | some c1 =>
      have hI : c1.I = c.I :=
        foldlM_inv (fun d => d.I = c.I) _ (fun d a d' hd hp => (mem_write_I d d' _ _ hd).trans hp)
          _ _ _ hpre rfl
      have hik : i = k := by
        by_contra hne
        have := ih (by omega)
        rw [hpre] at this
        exact absurd this (by simp)
      subst hik
      have hw : mem_write c1 (c1.I + i) (c1.V i) = none := by
        rw [mem_write_eq_none, hI]; exact hbad
      simp [hw]

theorem load_loop_fault (k : Nat) (c : Chip8) (i : Nat) (hi : i < k) (hbad : 4096 ≤ c.I + i) :
    (List.range k).foldlM
      (fun c i => (mem_read c (c.I + i)).map (fun b => { c with V := set_at c.V i b })) c =
      none := by
  induction k with
  | zero => omega
  | succ k ih =>
    rw [List.range_succ, List.foldlM_append]
    cases hpre : (List.range k).foldlM
        (fun c i => (mem_read c (c.I + i)).map (fun b => { c with V := set_at c.V i b })) c with
    | none => rfl
    | some c1 =>
      have hI : c1.I = c.I := by
        refine foldlM_inv (fun d => d.I = c.I) _ ?_ _ _ _ hpre rfl
        intro d a d' hd hp
        simp only [Option.map_eq_some'] at hd
        obtain ⟨b, _, hb⟩ := hd
        rw [← hb]; exact hp
      have hik : i = k := by
        by_contra hne
        have := ih (by omega)
        rw [hpre] at this
        exact absurd this (by simp)
      subst hik
      have hr : mem_read c1 (c1.I + i) = none := by
        rw [mem_read_eq_none, hI]; exact hbad
      simp [hr]

/-- C22: the memory accessors fail exactly at addresses 4096 and above, and
for a running state Fx33 is the chain of writes at index, index + 1 and
index + 2 with no other test, so with index + 2 >= 4096 it addresses memory
outside the array; Fx55 and Fx65 are loops over index + i for i <= x with no
other test, so with index + x >= 4096 they address memory outside the array.
-/
theorem memory_indexed_opcodes_unchecked (rnd : Nat) (s : Chip8) (x : Nat)
    (hrun : s.running = true) (hx : x < 16) :
    (∀ c a v, mem_write c a v = none ↔ 4096 ≤ a) ∧
    (∀ c a, mem_read c a = none ↔ 4096 ≤ a) ∧
    (fetch_opcode s = some (0xF033 + 256 * x) →
      chip8_cycle rnd s =
        (mem_write (skip_next s) (s.I + 0) ((s.V x / 100) % 256)).bind (fun c1 =>
          (mem_write c1 (c1.I + 1) (((s.V x / 10) % 10) % 256)).bind (fun c2 =>
            mem_write c2 (c2.I + 2) ((s.V x % 10) % 256))) ∧
      (4096 ≤ s.I + 2 → chip8_cycle rnd s = none)) ∧
    (fetch_opcode s = some (0xF055 + 256 * x) →
      chip8_cycle rnd s =
        (List.range (x + 1)).foldlM (fun c i => mem_write c (c.I + i) (c.V i)) (skip_next s) ∧
      (4096 ≤ s.I + x → chip8_cycle rnd s = none)) ∧
    (fetch_opcode s = some (0xF065 + 256 * x) →
      chip8_cycle rnd s =
        (List.range (x + 1)).foldlM
          (fun c i => (mem_read c (c.I + i)).map (fun b => { c with V := set_at c.V i b }))
          (skip_next s) ∧
      (4096 ≤ s.I + x → chip8_cycle rnd s = none)) := by
  refine ⟨mem_write_eq_none, mem_read_eq_none, ?_, ?_, ?_⟩
  · intro hfetch
    have hfam : (0xF033 + 256 * x) &&& 0xF000 = 0xF000 := by rw [decode_fam]; omega
    have hdx : ((0xF033 + 256 * x) &&& 0x0F00) >>> 8 = x := by rw [decode_x]; omega
    have hkk : (0xF033 + 256 * x) &&& 0x00FF = 0x33 := by rw [decode_kk]; omega
    have heq : chip8_cycle rnd s =
        (mem_write (skip_next s) (s.I + 0) ((s.V x / 100) % 256)).bind (fun c1 =>
          (mem_write c1 (c1.I + 1) (((s.V x / 10) % 10) % 256)).bind (fun c2 =>
            mem_write c2 (c2.I + 2) ((s.V x % 10) % 256))) := by
      rw [chip8_cycle_running rnd s _ hrun hfetch]
      simp only [execute, hfam, hdx]
      simp only [cycle_family_F, hkk]
      simp
      rfl
    refine ⟨heq, ?_⟩
    intro hbad
    rw [heq]
    cases h1 : mem_write (skip_next s) (s.I + 0) ((s.V x / 100) % 256) with
    | none => rfl
    | some c1 =>
      have hI1 : c1.I = s.I := mem_write_I (skip_next s) c1 _ _ h1
      cases h2 : mem_write c1 (c1.I + 1) (((s.V x / 10) % 10) % 256) with
      | none => simp [h2]
      | some c2 =>
        have hI2 : c2.I = s.I := (mem_write_I _ _ _ _ h2).trans hI1
        have h3 : mem_write c2 (c2.I + 2) ((s.V x % 10) % 256) = none := by
          rw [mem_write_eq_none, hI2]; exact hbad
        simp [h2, h3]
  · intro hfetch
    have hfam : (0xF055 + 256 * x) &&& 0xF000 = 0xF000 := by rw [decode_fam]; omega
    have hdx : ((0xF055 + 256 * x) &&& 0x0F00) >>> 8 = x := by rw [decode_x]; omega
    have hkk : (0xF055 + 256 * x) &&& 0x00FF = 0x55 := by rw [decode_kk]; omega
    have heq : chip8_cycle rnd s =
        (List.range (x + 1)).foldlM (fun c i => mem_write c (c.I + i) (c.V i))
          (skip_next s) := by
      rw [chip8_cycle_running rnd s _ hrun hfetch]
      simp only [execute, hfam, hdx]
      simp only [cycle_family_F, hkk]
      simp
    refine ⟨heq, ?_⟩
    intro hbad
    rw [heq]
    exact store_loop_fault (x + 1) (skip_next s) x (by omega) hbad
  · intro hfetch
    have hfam : (0xF065 + 256 * x) &&& 0xF000 = 0xF000 := by rw [decode_fam]; omega
    have hdx : ((0xF065 + 256 * x) &&& 0x0F00) >>> 8 = x := by rw [decode_x]; omega
    have hkk : (0xF065 + 256 * x) &&& 0x00FF = 0x65 := by rw [decode_kk]; omega
    have heq : chip8_cycle rnd s =
        (List.range (x + 1)).foldlM
          (fun c i => (mem_read c (c.I + i)).map (fun b => { c with V := set_at c.V i b }))
          (skip_next s) := by
      rw [chip8_cycle_running rnd s _ hrun hfetch]
      simp only [execute, hfam, hdx]
      simp only [cycle_family_F, hkk]
      simp
    refine ⟨heq, ?_⟩
    intro hbad
    rw [heq]
    exact load_loop_fault (x + 1) (skip_next s) x (by omega) hbad

/-- Witness for C22: `F033` with index 4095, `F355` and `F365` with index
4093. -/
theorem memory_indexed_opcodes_unchecked_witness :
    chip8_cycle 0 state_bcd_at_4095 = none ∧
    chip8_cycle 0 state_store_at_4093 = none ∧
    chip8_cycle 0 state_load_at_4093 = none :=
  ⟨((memory_indexed_opcodes_unchecked 0 state_bcd_at_4095 0 rfl (by decide)).2.2.1
      (by decide)).2 (by decide),
    ((memory_indexed_opcodes_unchecked 0 state_store_at_4093 3 rfl (by decide)).2.2.2.1
      (by decide)).2 (by decide),
    ((memory_indexed_opcodes_unchecked 0 state_load_at_4093 3 rfl (by decide)).2.2.2.2
      (by decide)).2 (by decide)⟩

/-! ## C24: display indices of `draw_sprite` -/

/-- C24: for all coordinates, rows and columns and either mode, the index
py * 128 + px computed by draw_sprite has px below the logical width, py below
the logical height and lies below 8192 = 128 * 64; hence every index toggled
by draw_sprite, for either sprite shape, is inside the display buffer. -/
theorem draw_index_in_buffer (s : Chip8) (x y n row col : Nat) :
    (x + col) % logical_width s < logical_width s ∧
    (y + row) % logical_height s < logical_height s ∧
    draw_index (logical_width s) (logical_height s) x y row col =
      ((y + row) % logical_height s) * 128 + (x + col) % logical_width s ∧
    draw_index (logical_width s) (logical_height s) x y row col <
      CHIP8_HIGH_RES_WIDTH * CHIP8_HIGH_RES_HEIGHT ∧
    CHIP8_HIGH_RES_WIDTH * CHIP8_HIGH_RES_HEIGHT = 8192 ∧
    (∀ i, i ∈ sprite_targets s x y n → i < 8192) := by
  have hidx : ∀ r c, draw_index (logical_width s) (logical_height s) x y r c < 8192 := by
    intro r c
    unfold draw_index
    simp only [CHIP8_HIGH_RES_WIDTH]
    rcases logical_size_cases s with ⟨hw, hh⟩ | ⟨hw, hh⟩ <;> rw [hw, hh] <;> omega
  refine ⟨?_, ?_, rfl, hidx row col, rfl, ?_⟩
  · rcases logical_size_cases s with ⟨hw, _⟩ | ⟨hw, _⟩ <;> rw [hw] <;> omega
  · rcases logical_size_cases s with ⟨_, hh⟩ | ⟨_, hh⟩ <;> rw [hh] <;> omega
  · intro i hi
    obtain ⟨r, _, c, _, _, hrc⟩ := (mem_sprite_targets s x y n i).mp hi
    rw [← hrc]
    exact hidx r c

/-! ## C25: Dxyn with VF as a coordinate -/

theorem foldl_draw_pixel_frame (L : List Nat) (c : Chip8) :
    L.foldl draw_pixel c =
      { c with V := (L.foldl draw_pixel c).V, display := (L.foldl draw_pixel c).display } := by
  induction L generalizing c with
  | nil => rfl
  | cons a t ih =>
    rw [List.foldl_cons, ih]
    simp only [draw_pixel]
    split <;> rfl

/-- A running state that fetches Dxyn calls draw_sprite with the register
values Vx and Vy it holds at that moment. -/
theorem draw_opcode_cycle (rnd : Nat) (s : Chip8) (x y n : Nat)
    (hrun : s.running = true) (hx : x < 16) (hy : y < 16) (hn : n < 16)
    (hfetch : fetch_opcode s = some (0xD000 + 256 * x + 16 * y + n)) :
    chip8_cycle rnd s = draw_sprite (skip_next s) (s.V x) (s.V y) n := by
  have hfam : (0xD000 + 256 * x + 16 * y + n) &&& 0xF000 = 0xD000 := by
    rw [decode_fam]; omega
  have hdx : ((0xD000 + 256 * x + 16 * y + n) &&& 0x0F00) >>> 8 = x := by
    rw [decode_x]; omega
  have hdy : ((0xD000 + 256 * x + 16 * y + n) &&& 0x00F0) >>> 4 = y := by
    rw [decode_y]; omega
  have hdn : (0xD000 + 256 * x + 16 * y + n) &&& 0x000F = n := by rw [decode_n]; omega
  rw [chip8_cycle_running rnd s _ hrun hfetch]
  simp only [execute, hfam, hdx, hdy, hdn]
  simp
  rfl

/-- C25: for a running state whose fetched opcode is Dxyn, for every x and y
and so in particular with x = F or y = F (sprite bytes inside memory), the
cycle is draw_sprite called with the register values held before the
instruction, so the cells toggled are the targets computed from the old VF;
afterwards VF is 1 if one of those cells was set and 0 otherwise, the other
registers are unchanged, and executing the same opcode again from the
resulting state draws at coordinates in which VF is that flag. -/
theorem draw_with_flag_register (rnd rnd' : Nat) (s : Chip8) (x y n : Nat)
    (hrun : s.running = true) (hx : x < 16) (hy : y < 16) (hn : n < 16)
    (hfetch : fetch_opcode s = some (0xD000 + 256 * x + 16 * y + n))
    (hin : sprite_in_memory s n) :
    chip8_cycle rnd s = draw_sprite (skip_next s) (s.V x) (s.V y) n ∧
    ∃ s', chip8_cycle rnd s = some s' ∧
      (∀ i, s'.display i =
        xor (s.display i) (decide (i ∈ sprite_targets s (s.V x) (s.V y) n))) ∧
      s'.V 0xF =
        (if (sprite_targets s (s.V x) (s.V y) n).any (fun i => s.display i) then 1 else 0) ∧
      (∀ j, j ≠ 0xF → s'.V j = s.V j) ∧
      chip8_cycle rnd' { s' with pc := s.pc } =
        draw_sprite (skip_next { s' with pc := s.pc })
          (if x = 0xF then s'.V 0xF else s.V x) (if y = 0xF then s'.V 0xF else s.V y) n := by
  have hcyc := draw_opcode_cycle rnd s x y n hrun hx hy hn hfetch
  have hin' : sprite_in_memory (skip_next s) n :=
    sprite_in_memory_congr (skip_next s) s n rfl rfl hin
  have htg : sprite_targets (skip_next s) (s.V x) (s.V y) n =
      sprite_targets s (s.V x) (s.V y) n :=
    sprite_targets_congr (skip_next s) s _ _ n rfl rfl rfl
  have hdraw := draw_sprite_eq (skip_next s) (s.V x) (s.V y) n hin'
  rw [htg] at hdraw
  have hnd := sprite_targets_nodup s (s.V x) (s.V y) n hn
  have hVother : ∀ j, j ≠ 0xF →
      ((sprite_targets s (s.V x) (s.V y) n).foldl draw_pixel
        { skip_next s with V := set_at (skip_next s).V 0xF 0 }).V j = s.V j := by
    intro j hj
    rw [foldl_draw_pixel_V _ _ j hj]
    show set_at s.V 0xF 0 j = s.V j
    simp [hj]
  refine ⟨hcyc, _, hcyc.trans hdraw, ?_, ?_, hVother, ?_⟩
  · intro i
    show ((sprite_targets s (s.V x) (s.V y) n).foldl draw_pixel _).display i = _
    rw [foldl_draw_pixel_display_nodup _ hnd]
    rfl
  · show ((sprite_targets s (s.V x) (s.V y) n).foldl draw_pixel _).V 0xF = _
    rw [foldl_draw_pixel_VF _ hnd]
    rfl
  · have hfr := foldl_draw_pixel_frame (sprite_targets s (s.V x) (s.V y) n)
      { skip_next s with V := set_at (skip_next s).V 0xF 0 }
    have hrun2 : ({ ({ (sprite_targets s (s.V x) (s.V y) n).foldl draw_pixel
        { skip_next s with V := set_at (skip_next s).V 0xF 0 } with draw_flag := true } : Chip8)
        with pc := s.pc } : Chip8).running = true := by
      show ((sprite_targets s (s.V x) (s.V y) n).foldl draw_pixel _).running = true
      rw [hfr]; exact hrun
    have hfetch2 : fetch_opcode ({ ({ (sprite_targets s (s.V x) (s.V y) n).foldl draw_pixel
        { skip_next s with V := set_at (skip_next s).V 0xF 0 } with draw_flag := true } : Chip8)
        with pc := s.pc } : Chip8) = some (0xD000 + 256 * x + 16 * y + n) := by
      rw [← hfetch]
      unfold fetch_opcode mem_read
      simp only [foldl_draw_pixel_memory]
      rfl
    rw [draw_opcode_cycle rnd' _ x y n hrun2 hx hy hn hfetch2]
    have hvx : ∀ j, j < 16 →
        ((sprite_targets s (s.V x) (s.V y) n).foldl draw_pixel
          { skip_next s with V := set_at (skip_next s).V 0xF 0 }).V j =
        if j = 0xF then ((sprite_targets s (s.V x) (s.V y) n).foldl draw_pixel
          { skip_next s with V := set_at (skip_next s).V 0xF 0 }).V 0xF else s.V j := by
      intro j _
      by_cases hj : j = 0xF
      · rw [if_pos hj, hj]
      · rw [if_neg hj]; exact hVother j hj
    show draw_sprite _ (((sprite_targets s (s.V x) (s.V y) n).foldl draw_pixel _).V x)
      (((sprite_targets s (s.V x) (s.V y) n).foldl draw_pixel _).V y) n = _
    rw [hvx x hx, hvx y hy]

/-- Witness for C25: `DF05` with `VF = 10`, `V0 = 3` draws the glyph of digit 0
at (10, 3) and leaves VF = 0; the same opcode then draws at (0, 3). -/
theorem draw_with_flag_register_witness :
    chip8_cycle 0 state_draw_flag_coord = draw_sprite (skip_next state_draw_flag_coord) 10 3 5 ∧
    ∃ s', chip8_cycle 0 state_draw_flag_coord = some s' ∧
      (∀ i, s'.display i = xor (state_draw_flag_coord.display i)
        (decide (i ∈ sprite_targets state_draw_flag_coord 10 3 5))) ∧
      s'.V 0xF = 0 ∧
      chip8_cycle 0 { s' with pc := state_draw_flag_coord.pc } =
        draw_sprite (skip_next { s' with pc := state_draw_flag_coord.pc }) 0 3 5 := by
  obtain ⟨h1, s', h2, h3, h4, _, h6⟩ :=
    draw_with_flag_register 0 0 state_draw_flag_coord 0xF 0 5 rfl (by decide) (by decide)
      (by decide) (by decide) (by decide)
  have hflag : s'.V 0xF = 0 := by
    rw [h4]
    decide
  refine ⟨h1, s', h2, h3, hflag, ?_⟩
  rw [h6, hflag]
  rfl

/-! ## C23: the display outside the low-resolution region -/

theorem low_res_clean_of_same (c c' : Chip8) (hd : c'.display = c.display)
    (hr : c'.high_res = c.high_res) (h : low_res_clean c) : low_res_clean c' := by
  intro hlow i hi
  rw [hd]
  exact h (hr ▸ hlow) i hi

theorem low_res_clean_of_outside (c c' : Chip8) (hr : c'.high_res = c.high_res)
    (hd : c.high_res = false → ∀ i, outside_low_res i → c'.display i = c.display i)
    (h : low_res_clean c) : low_res_clean c' := by
  intro hlow i hi
  have hlow' : c.high_res = false := hr ▸ hlow
  rw [hd hlow' i hi]
  exact h hlow' i hi

theorem inside_low_res (px py : Nat) (hx : px < 64) (hy : py < 32) :
    ¬ outside_low_res (py * 128 + px) := by
  unfold outside_low_res
  simp only [CHIP8_LOW_RES_WIDTH, CHIP8_LOW_RES_HEIGHT, CHIP8_HIGH_RES_WIDTH]
  omega

theorem draw_index_inside_low_res (x y row col : Nat) :
    ¬ outside_low_res (draw_index 64 32 x y row col) := by
  unfold draw_index
  simp only [CHIP8_HIGH_RES_WIDTH]
  exact inside_low_res _ _ (Nat.mod_lt _ (by decide)) (Nat.mod_lt _ (by decide))

theorem foldl_inv {α : Type} (P : Chip8 → Prop) (f : Chip8 → α → Chip8)
    (hf : ∀ c a, P c → P (f c a)) (l : List α) (c : Chip8) (hp : P c) : P (l.foldl f c) := by
  induction l generalizing c with
  | nil => exact hp
  | cons a t ih => rw [List.foldl_cons]; exact ih _ (hf c a hp)

theorem draw_pixel_high_res (c : Chip8) (i : Nat) : (draw_pixel c i).high_res = c.high_res := by
  simp only [draw_pixel]; split <;> rfl

theorem draw_pixel_display_ne (c : Chip8) (idx i : Nat) (h : i ≠ idx) :
    (draw_pixel c idx).display i = c.display i := by
  simp only [draw_pixel]
  split <;> simp [h]

/-- The part of the state that the low-resolution invariant looks at is kept
by a sprite row: the mode, and in low resolution every cell outside the
64-by-32 region. -/
theorem draw_row_keeps (b : Bool) (d : Nat → Bool) (mask ncols w h x y row bits : Nat)
    (hwh : b = false → w = 64 ∧ h = 32) (c : Chip8)
    (hp : c.high_res = b ∧ (b = false → ∀ i, outside_low_res i → c.display i = d i)) :
    (draw_row mask ncols w h x y row bits c).high_res = b ∧
      (b = false → ∀ i, outside_low_res i →
        (draw_row mask ncols w h x y row bits c).display i = d i) := by
  unfold draw_row
  refine foldl_inv (fun c => c.high_res = b ∧
    (b = false → ∀ i, outside_low_res i → c.display i = d i)) _ ?_ _ c hp
  intro c col hpc
  split
  · refine ⟨(draw_pixel_high_res c _).trans hpc.1, ?_⟩
    intro hb i hi
    obtain ⟨hw, hh⟩ := hwh hb
    have hne : i ≠ draw_index w h x y row col := by
      intro heq
      rw [heq, hw, hh] at hi
      exact draw_index_inside_low_res x y row col hi
    rw [draw_pixel_display_ne c _ i hne]
    exact hpc.2 hb i hi
  · exact hpc

theorem draw_sprite_keeps (s s' : Chip8) (x y n : Nat) (h : draw_sprite s x y n = some s') :
    s'.high_res = s.high_res ∧
      (s.high_res = false → ∀ i, outside_low_res i → s'.display i = s.display i) := by
  have hwh : s.high_res = false → logical_width s = 64 ∧ logical_height s = 32 := by
    intro hlow
    simp [logical_width, logical_height, hlow, CHIP8_LOW_RES_WIDTH, CHIP8_LOW_RES_HEIGHT]
  have h0 : ({ s with V := set_at s.V 0xF 0 } : Chip8).high_res = s.high_res ∧
      (s.high_res = false → ∀ i, outside_low_res i →
        ({ s with V := set_at s.V 0xF 0 } : Chip8).display i = s.display i) :=
    ⟨rfl, fun _ _ _ => rfl⟩
  unfold draw_sprite at h
  by_cases hb : n = 0 ∧ s.high_res = true
  · rw [if_pos hb] at h
    simp only [Option.bind_eq_bind, Option.pure_def, Option.bind_eq_some] at h
    obtain ⟨c1, hc1, hs'⟩ := h
    rw [← Option.some.inj hs']
    have hc : c1.high_res = s.high_res ∧
        (s.high_res = false → ∀ i, outside_low_res i → c1.display i = s.display i) := by
      refine foldlM_inv (fun c => c.high_res = s.high_res ∧
        (s.high_res = false → ∀ i, outside_low_res i → c.display i = s.display i)) _ ?_ _ _ c1
        hc1 h0
      intro c row c' hrow hpc
      unfold draw_row16 at hrow
      simp only [Option.bind_eq_bind, Option.pure_def, Option.bind_eq_some] at hrow
      obtain ⟨hi, _, lo, _, hc'⟩ := hrow
      rw [← Option.some.inj hc']
      exact draw_row_keeps s.high_res s.display _ _ _ _ _ _ _ _ hwh c hpc
    exact hc
  · rw [if_neg hb] at h
    simp only [Option.bind_eq_bind, Option.pure_def, Option.bind_eq_some] at h
    obtain ⟨c1, hc1, hs'⟩ := h
    rw [← Option.some.inj hs']
    have hc : c1.high_res = s.high_res ∧
        (s.high_res = false → ∀ i, outside_low_res i → c1.display i = s.display i) := by
      refine foldlM_inv (fun c => c.high_res = s.high_res ∧
        (s.high_res = false → ∀ i, outside_low_res i → c.display i = s.display i)) _ ?_ _ _ c1
        hc1 h0
      intro c row c' hrow hpc
      unfold draw_row8 at hrow
      simp only [Option.bind_eq_bind, Option.pure_def, Option.bind_eq_some] at hrow
      obtain ⟨bits, _, hc'⟩ := hrow
      rw [← Option.some.inj hc']
      exact draw_row_keeps s.high_res s.display _ _ _ _ _ _ _ _ hwh c hpc
    exact hc

theorem foldl_apply_move_untouched (L : List (Nat × Option Nat)) (c : Chip8) (i : Nat)
    (h : ∀ m, m ∈ L → m.1 ≠ i) : (L.foldl apply_move c).display i = c.display i := by
  induction L generalizing c with
  | nil => rfl
  | cons a t ih =>
    rw [List.foldl_cons, ih _ (fun m hm => h m (List.mem_cons_of_mem a hm))]
    have hne : i ≠ a.1 := Ne.symm (h a (List.mem_cons_self a t))
    simp [apply_move, hne]

theorem foldl_apply_move_high_res (L : List (Nat × Option Nat)) (c : Chip8) :
    (L.foldl apply_move c).high_res = c.high_res := by
  rw [foldl_apply_move_frame]

theorem scroll_down_eq_general (s : Chip8) (n : Nat) (h0 : n ≠ 0) :
    scroll_down s n =
      { (scroll_down_moves (logical_width s) (logical_height s)
          (if n > logical_height s then logical_height s % 256 else n)).foldl apply_move s with
        draw_flag := true } := by
  have hcell : ∀ n y, scroll_down_cell n y = fun c x => apply_move c (scroll_down_move n y x) :=
    fun n y => funext fun c => funext fun x => scroll_down_cell_eq n y c x
  unfold scroll_down scroll_down_moves
  rw [foldl_flatMap_map]
  simp only [h0, if_false, hcell]

theorem scroll_down_moves_inside (w h n : Nat) (hw : w = 64) (hh : h = 32)
    (m : Nat × Option Nat) (hm : m ∈ scroll_down_moves w h n) : ¬ outside_low_res m.1 := by
  unfold scroll_down_moves at hm
  obtain ⟨y, hy, hmy⟩ := List.mem_flatMap.mp hm
  obtain ⟨x, hx, rfl⟩ := List.mem_map.mp hmy
  have hx' := List.mem_range.mp hx
  have hy' := List.mem_range.mp (List.mem_reverse.mp hy)
  exact inside_low_res x y (by omega) (by omega)

theorem scroll_right_moves_inside (w h : Nat) (hw : w = 64) (hh : h = 32)
    (m : Nat × Option Nat) (hm : m ∈ scroll_right_moves w h) : ¬ outside_low_res m.1 := by
  unfold scroll_right_moves at hm
  obtain ⟨y, hy, hmy⟩ := List.mem_flatMap.mp hm
  obtain ⟨x, hx, rfl⟩ := List.mem_map.mp hmy
  have hx' := List.mem_range.mp (List.mem_reverse.mp hx)
  have hy' := List.mem_range.mp hy
  exact inside_low_res x y (by omega) (by omega)

theorem scroll_left_moves_inside (w h : Nat) (hw : w = 64) (hh : h = 32)
    (m : Nat × Option Nat) (hm : m ∈ scroll_left_moves w h) : ¬ outside_low_res m.1 := by
  unfold scroll_left_moves at hm
  obtain ⟨y, hy, hmy⟩ := List.mem_flatMap.mp hm
  obtain ⟨x, hx, rfl⟩ := List.mem_map.mp hmy
  have hx' := List.mem_range.mp hx
  have hy' := List.mem_range.mp hy
  exact inside_low_res x y (by omega) (by omega)

theorem logical_size_low (c : Chip8) (hlow : c.high_res = false) :
    logical_width c = 64 ∧ logical_height c = 32 := by
  simp [logical_width, logical_height, hlow, CHIP8_LOW_RES_WIDTH, CHIP8_LOW_RES_HEIGHT]

theorem scroll_right_keeps (c : Chip8) :
    (scroll_right c).high_res = c.high_res ∧
      (c.high_res = false → ∀ i, outside_low_res i → (scroll_right c).display i = c.display i) := by
  rw [scroll_right_eq]
  refine ⟨foldl_apply_move_high_res _ c, ?_⟩
  intro hlow i hi
  obtain ⟨hw, hh⟩ := logical_size_low c hlow
  exact foldl_apply_move_untouched _ c i
    (fun m hm heq => scroll_right_moves_inside _ _ hw hh m hm (heq ▸ hi))

theorem scroll_left_keeps (c : Chip8) :
    (scroll_left c).high_res = c.high_res ∧
      (c.high_res = false → ∀ i, outside_low_res i → (scroll_left c).display i = c.display i) := by
  rw [scroll_left_eq]
  refine ⟨foldl_apply_move_high_res _ c, ?_⟩
  intro hlow i hi
  obtain ⟨hw, hh⟩ := logical_size_low c hlow
  exact foldl_apply_move_untouched _ c i
    (fun m hm heq => scroll_left_moves_inside _ _ hw hh m hm (heq ▸ hi))

theorem scroll_down_keeps (c : Chip8) (n : Nat) :
    (scroll_down c n).high_res = c.high_res ∧
      (c.high_res = false → ∀ i, outside_low_res i →
        (scroll_down c n).display i = c.display i) := by
  by_cases h0 : n = 0
  · have : scroll_down c n = c := by simp [scroll_down, h0]
    rw [this]
    exact ⟨rfl, fun _ _ _ => rfl⟩
  · rw [scroll_down_eq_general c n h0]
    refine ⟨foldl_apply_move_high_res _ c, ?_⟩
    intro hlow i hi
    obtain ⟨hw, hh⟩ := logical_size_low c hlow
    exact foldl_apply_move_untouched _ c i
      (fun m hm heq => scroll_down_moves_inside _ _ _ hw hh m hm (heq ▸ hi))

theorem cycle_family_8_same (op x y : Nat) (c : Chip8) :
    (cycle_family_8 op x y c).display = c.display ∧
      (cycle_family_8 op x y c).high_res = c.high_res := by
  unfold cycle_family_8
  dsimp only
  repeat' split
  all_goals exact ⟨rfl, rfl⟩

theorem cycle_family_E_same (op x : Nat) (c c' : Chip8) (h : cycle_family_E op x c = some c') :
    c'.display = c.display ∧ c'.high_res = c.high_res := by
  unfold cycle_family_E at h
  dsimp only at h
  split_ifs at h
  · cases hk : key_read c (c.V x) with
    | none => rw [hk] at h; exact absurd h (by simp)
    | some k =>
      rw [hk] at h
      have := Option.some.inj h
      rw [← this]
      cases k <;> exact ⟨rfl, rfl⟩
  · cases hk : key_read c (c.V x) with
    | none => rw [hk] at h; exact absurd h (by simp)
    | some k =>
      rw [hk] at h
      have := Option.some.inj h
      rw [← this]
      cases k <;> exact ⟨rfl, rfl⟩
  · rw [← Option.some.inj h]
    exact ⟨rfl, rfl⟩

theorem mem_write_same (c c' : Chip8) (a v : Nat) (h : mem_write c a v = some c') :
    c'.display = c.display ∧ c'.high_res = c.high_res := by
  unfold mem_write at h
  split_ifs at h
  rw [← Option.some.inj h]
  exact ⟨rfl, rfl⟩

theorem cycle_family_F_same (op x : Nat) (c c' : Chip8) (h : cycle_family_F op x c = some c') :
    c'.display = c.display ∧ c'.high_res = c.high_res := by
  unfold cycle_family_F at h
  conv at h => zeta
  by_cases e1 : op &&& 0x00FF = 0x07
  · rw [if_pos e1] at h; rw [← Option.some.inj h]; exact ⟨rfl, rfl⟩
  rw [if_neg e1] at h
  by_cases e2 : op &&& 0x00FF = 0x0A
  · rw [if_pos e2] at h
    cases hf : (List.range CHIP8_KEY_COUNT).find? (fun i => c.keys i) with
    | none => rw [hf] at h; rw [← Option.some.inj h]; exact ⟨rfl, rfl⟩
    | some i => rw [hf] at h; rw [← Option.some.inj h]; exact ⟨rfl, rfl⟩
  rw [if_neg e2] at h
  by_cases e3 : op &&& 0x00FF = 0x15
  · rw [if_pos e3] at h; rw [← Option.some.inj h]; exact ⟨rfl, rfl⟩
  rw [if_neg e3] at h
  by_cases e4 : op &&& 0x00FF = 0x18
  · rw [if_pos e4] at h; rw [← Option.some.inj h]; exact ⟨rfl, rfl⟩
  rw [if_neg e4] at h
  by_cases e5 : op &&& 0x00FF = 0x1E
  · rw [if_pos e5] at h; rw [← Option.some.inj h]; exact ⟨rfl, rfl⟩
  rw [if_neg e5] at h
  by_cases e6 : op &&& 0x00FF = 0x29
  · rw [if_pos e6] at h; rw [← Option.some.inj h]; exact ⟨rfl, rfl⟩
  rw [if_neg e6] at h
  by_cases e7 : op &&& 0x00FF = 0x30
  · rw [if_pos e7] at h; rw [← Option.some.inj h]; exact ⟨rfl, rfl⟩
  rw [if_neg e7] at h
  by_cases e8 : op &&& 0x00FF = 0x33
  · rw [if_pos e8] at h
    cases h1 : mem_write c (c.I + 0) (c.V x / 100 % 256) with
    | none => rw [h1] at h; exact absurd h (by simp)
    | some c1 =>
      rw [h1] at h
      cases h2 : mem_write c1 (c1.I + 1) (c.V x / 10 % 10 % 256) with
      | none =>
        have h' : (mem_write c1 (c1.I + 1) (c.V x / 10 % 10 % 256)).bind
            (fun c2 => mem_write c2 (c2.I + 2) (c.V x % 10 % 256)) = some c' := h
        rw [h2] at h'
        exact absurd h' (by simp)
      | some c2 =>
        have h' : (mem_write c1 (c1.I + 1) (c.V x / 10 % 10 % 256)).bind
            (fun c2 => mem_write c2 (c2.I + 2) (c.V x % 10 % 256)) = some c' := h
        rw [h2] at h'
        have h3 : mem_write c2 (c2.I + 2) (c.V x % 10 % 256) = some c' := h'
        have s1 := mem_write_same _ _ _ _ h1
        have s2 := mem_write_same _ _ _ _ h2
        have s3 := mem_write_same _ _ _ _ h3
        exact ⟨s3.1.trans (s2.1.trans s1.1), s3.2.trans (s2.2.trans s1.2)⟩
  rw [if_neg e8] at h
  by_cases e9 : op &&& 0x00FF = 0x55
  · rw [if_pos e9] at h
    refine foldlM_inv (fun d => d.display = c.display ∧ d.high_res = c.high_res) _ ?_ _ _ _ h
      ⟨rfl, rfl⟩
    intro d a d' hd hp
    have := mem_write_same _ _ _ _ hd
    exact ⟨this.1.trans hp.1, this.2.trans hp.2⟩
  rw [if_neg e9] at h
  by_cases e10 : op &&& 0x00FF = 0x65
  · rw [if_pos e10] at h
    refine foldlM_inv (fun d => d.display = c.display ∧ d.high_res = c.high_res) _ ?_ _ _ _ h
      ⟨rfl, rfl⟩
    intro d a d' hd hp
    simp only [Option.map_eq_some'] at hd
    obtain ⟨b, _, hb⟩ := hd
    rw [← hb]
    exact hp
  rw [if_neg e10] at h
  rw [← Option.some.inj h]
  exact ⟨rfl, rfl⟩

theorem clear_display_clean (c : Chip8) : low_res_clean (clear_display c) :=
  fun _ _ _ => rfl

theorem cycle_family_0_clean (op : Nat) (c c' : Chip8) (h : cycle_family_0 op c = some c')
    (hinv : low_res_clean c) : low_res_clean c' := by
  unfold cycle_family_0 at h
  split_ifs at h with h1 h2 hpos
  · rw [← Option.some.inj h]; exact clear_display_clean c
  · cases hret : stack_read { c with sp := c.sp - 1 } (c.sp - 1) with
    | none =>
      have h' : (stack_read { c with sp := c.sp - 1 } (c.sp - 1)).bind
          (fun ret => some { ({ c with sp := c.sp - 1 } : Chip8) with pc := ret }) = some c' := h
      rw [hret] at h'
      exact absurd h' (by simp)
    | some ret =>
      have h' : (stack_read { c with sp := c.sp - 1 } (c.sp - 1)).bind
          (fun ret => some { ({ c with sp := c.sp - 1 } : Chip8) with pc := ret }) = some c' := h
      rw [hret] at h'
      rw [← Option.some.inj h']
      exact low_res_clean_of_same c _ rfl rfl hinv
  · rw [← Option.some.inj h]; exact hinv
  · rw [← Option.some.inj h]; exact clear_display_clean _
  · rw [← Option.some.inj h]; exact clear_display_clean _
  · rw [← Option.some.inj h]; exact low_res_clean_of_same c _ rfl rfl hinv
  · rw [← Option.some.inj h]
    exact low_res_clean_of_outside c _ (scroll_right_keeps c).1 (scroll_right_keeps c).2 hinv
  · rw [← Option.some.inj h]
    exact low_res_clean_of_outside c _ (scroll_left_keeps c).1 (scroll_left_keeps c).2 hinv
  · rw [← Option.some.inj h]
    exact low_res_clean_of_outside c _ (scroll_down_keeps c _).1 (scroll_down_keeps c _).2 hinv
  · rw [← Option.some.inj h]; exact hinv

/-- One decode-execute step keeps the low-resolution invariant. -/
theorem execute_clean (rnd op : Nat) (c c' : Chip8) (h : execute rnd op c = some c')
    (hinv : low_res_clean c) : low_res_clean c' := by
  unfold execute at h
  conv at h => zeta
  by_cases f0 : op &&& 0xF000 = 0x0000
  · rw [if_pos f0] at h
    exact cycle_family_0_clean op c c' h hinv
  rw [if_neg f0] at h
  by_cases f1 : op &&& 0xF000 = 0x1000
  · rw [if_pos f1] at h; rw [← Option.some.inj h]
    exact low_res_clean_of_same c _ rfl rfl hinv
  rw [if_neg f1] at h
  by_cases f2 : op &&& 0xF000 = 0x2000
  · rw [if_pos f2] at h
    by_cases hsp : c.sp < CHIP8_STACK_SIZE
    · rw [if_pos hsp] at h; rw [← Option.some.inj h]
      exact low_res_clean_of_same c _ rfl rfl hinv
    · rw [if_neg hsp] at h; rw [← Option.some.inj h]; exact hinv
  rw [if_neg f2] at h
  by_cases f3 : op &&& 0xF000 = 0x3000
  · rw [if_pos f3] at h; rw [← Option.some.inj h]
    split
    · exact low_res_clean_of_same c _ rfl rfl hinv
    · exact hinv
  rw [if_neg f3] at h
  by_cases f4 : op &&& 0xF000 = 0x4000
  · rw [if_pos f4] at h; rw [← Option.some.inj h]
    split
    · exact low_res_clean_of_same c _ rfl rfl hinv
    · exact hinv
  rw [if_neg f4] at h
  by_cases f5 : op &&& 0xF000 = 0x5000
  · rw [if_pos f5] at h; rw [← Option.some.inj h]
    split
    · split
      · exact low_res_clean_of_same c _ rfl rfl hinv
      · exact hinv
    · exact hinv
  rw [if_neg f5] at h
  by_cases f6 : op &&& 0xF000 = 0x6000
  · rw [if_pos f6] at h; rw [← Option.some.inj h]
    exact low_res_clean_of_same c _ rfl rfl hinv
  rw [if_neg f6] at h
  by_cases f7 : op &&& 0xF000 = 0x7000
  · rw [if_pos f7] at h; rw [← Option.some.inj h]
    exact low_res_clean_of_same c _ rfl rfl hinv
  rw [if_neg f7] at h
  by_cases f8 : op &&& 0xF000 = 0x8000
  · rw [if_pos f8] at h; rw [← Option.some.inj h]
    exact low_res_clean_of_same c _ (cycle_family_8_same _ _ _ c).1
      (cycle_family_8_same _ _ _ c).2 hinv
  rw [if_neg f8] at h
  by_cases f9 : op &&& 0xF000 = 0x9000
  · rw [if_pos f9] at h; rw [← Option.some.inj h]
    split
    · split
      · exact low_res_clean_of_same c _ rfl rfl hinv
      · exact hinv
    · exact hinv
  rw [if_neg f9] at h
  by_cases fa : op &&& 0xF000 = 0xA000
  · rw [if_pos fa] at h; rw [← Option.some.inj h]
    exact low_res_clean_of_same c _ rfl rfl hinv
  rw [if_neg fa] at h
  by_cases fb : op &&& 0xF000 = 0xB000
  · rw [if_pos fb] at h; rw [← Option.some.inj h]
    exact low_res_clean_of_same c _ rfl rfl hinv
  rw [if_neg fb] at h
  by_cases fc : op &&& 0xF000 = 0xC000
  · rw [if_pos fc] at h; rw [← Option.some.inj h]
    exact low_res_clean_of_same c _ rfl rfl hinv
  rw [if_neg fc] at h
  by_cases fd : op &&& 0xF000 = 0xD000
  · rw [if_pos fd] at h
    have hk := draw_sprite_keeps c c' _ _ _ h
    exact low_res_clean_of_outside c c' hk.1 hk.2 hinv
  rw [if_neg fd] at h
  by_cases fe : op &&& 0xF000 = 0xE000
  · rw [if_pos fe] at h
    have hk := cycle_family_E_same _ _ c c' h
    exact low_res_clean_of_same c c' hk.1 hk.2 hinv
  rw [if_neg fe] at h
  by_cases ff : op &&& 0xF000 = 0xF000
  · rw [if_pos ff] at h
    have hk := cycle_family_F_same _ _ c c' h
    exact low_res_clean_of_same c c' hk.1 hk.2 hinv
  rw [if_neg ff] at h
  rw [← Option.some.inj h]; exact hinv

theorem chip8_cycle_clean (rnd : Nat) (s s' : Chip8) (h : chip8_cycle rnd s = some s')
    (hinv : low_res_clean s) : low_res_clean s' := by
  cases hrun : s.running with
  | false =>
    rw [chip8_cycle_halted rnd s hrun] at h
    rw [← Option.some.inj h]; exact hinv
  | true =>
    rw [chip8_cycle_fetch rnd s hrun] at h
    cases hf : fetch_opcode s with
    | none => rw [hf] at h; exact absurd h (by simp)
    | some op =>
      rw [hf] at h
      exact execute_clean rnd op (skip_next s) s' h
        (low_res_clean_of_same s _ rfl rfl hinv)

theorem reachable_clean (s : Chip8) (h : Reachable s) : low_res_clean s := by
  induction h with
  | init mem => exact fun _ _ _ => rfl
  | cycle rnd s s' _ hstep ih => exact chip8_cycle_clean rnd s s' hstep ih
  | key_down s key _ ih =>
    unfold chip8_key_down
    split
    · exact low_res_clean_of_same s _ rfl rfl ih
    · exact ih
  | key_up s key _ ih =>
    unfold chip8_key_up
    split
    · exact low_res_clean_of_same s _ rfl rfl ih
    · exact ih
  | timer s _ ih =>
    refine low_res_clean_of_same s _ ?_ ?_ ih
    · unfold timer_tick
      dsimp only
      split <;> split <;> rfl
    · unfold timer_tick
      dsimp only
      split <;> split <;> rfl
  | drawn s _ ih => exact low_res_clean_of_same s _ rfl rfl ih
  | quit s _ ih => exact low_res_clean_of_same s _ rfl rfl ih

/-- C23, for runs that stay inside the arrays: in every state with
high_res = false reached from `chip8_init` by cycles none of which reads or
writes `memory`, `stack` or `keys` outside the array, key events and timer
ticks, every display cell of the 128-wide buffer with column >= 64 or
row >= 32 is false; from such a state a draw_sprite or a scroll that returns
leaves each of those cells untouched, and clear_display, which both mode
switches call, empties the whole buffer. -/
theorem low_res_outside_region_clear (s : Chip8) (hreach : Reachable s)
    (hlow : s.high_res = false) :
    (∀ row col, row < 64 → col < 128 → (64 ≤ col ∨ 32 ≤ row) →
      s.display (row * 128 + col) = false) ∧
    (∀ x y n s', draw_sprite s x y n = some s' →
      ∀ i, outside_low_res i → s'.display i = s.display i) ∧
    (∀ n i, outside_low_res i → (scroll_down s n).display i = s.display i) ∧
    (∀ i, outside_low_res i → (scroll_right s).display i = s.display i) ∧
    (∀ i, outside_low_res i → (scroll_left s).display i = s.display i) ∧
    (∀ c i, (clear_display c).display i = false) := by
  refine ⟨?_, ?_, ?_, ?_, ?_, fun _ _ => rfl⟩
  · intro row col hrow hcol hout
    apply reachable_clean s hreach hlow
    unfold outside_low_res
    simp only [CHIP8_LOW_RES_WIDTH, CHIP8_LOW_RES_HEIGHT, CHIP8_HIGH_RES_WIDTH]
    omega
  · intro x y n s' hdraw
    exact (draw_sprite_keeps s s' x y n hdraw).2 hlow
  · intro n
    exact (scroll_down_keeps s n).2 hlow
  · exact (scroll_right_keeps s).2 hlow
  · exact (scroll_left_keeps s).2 hlow

/-- Witness for C23: the program `00FF 00FE` run for two cycles from the
initial state ends in low resolution, and there the cells outside the 64-by-32
region are clear. -/
theorem low_res_outside_region_clear_witness :
    chip8_cycle 0 state_mode_round_trip =
      some (clear_display { skip_next state_mode_round_trip with high_res := true }) ∧
    chip8_cycle 0 (clear_display { skip_next state_mode_round_trip with high_res := true }) =
      some (clear_display { skip_next (skip_next state_mode_round_trip) with
        high_res := false }) ∧
    ∀ row col, row < 64 → col < 128 → (64 ≤ col ∨ 32 ≤ row) →
      (clear_display { skip_next (skip_next state_mode_round_trip) with
        high_res := false }).display (row * 128 + col) = false :=
  have h1 : chip8_cycle 0 state_mode_round_trip =
      some (clear_display { skip_next state_mode_round_trip with high_res := true }) := rfl
  have h2 : chip8_cycle 0
      (clear_display { skip_next state_mode_round_trip with high_res := true }) =
      some (clear_display { skip_next (skip_next state_mode_round_trip) with
        high_res := false }) := rfl
  ⟨h1, h2,
    (low_res_outside_region_clear _
      (Reachable.cycle 0 _ _
        (Reachable.cycle 0 state_mode_round_trip _ (Reachable.init _) h1) h2) rfl).1⟩

/-! ## Stores past `memory`: the runs left out of `Reachable` -/

theorem mem_write_layout_of_some (c c' : Chip8) (a v : Nat) (h : mem_write c a v = some c') :
    mem_write_layout c a v = some c' := by
  have ha : a < CHIP8_MEMORY_SIZE := by
    by_contra hn
    rw [(mem_write_eq_none c a v).mpr (by simp only [CHIP8_MEMORY_SIZE] at hn; omega)] at h
    exact absurd h (by simp)
  unfold mem_write_layout
  rw [if_pos ha]
  exact h

theorem foldlM_of_some {α : Type} (f g : Chip8 → α → Option Chip8)
    (hfg : ∀ c a c', f c a = some c' → g c a = some c')
    (l : List α) (c c' : Chip8) (h : l.foldlM f c = some c') : l.foldlM g c = some c' := by
  induction l generalizing c with
  | nil => exact h
  | cons a t ih =>
    rw [List.foldlM_cons] at h ⊢
    cases hfa : f c a with
    | none => rw [hfa] at h; exact absurd h (by simp)
    | some c1 =>
      rw [hfa] at h
      rw [hfg c a c1 hfa]
      exact ih c1 h

/-- Wherever `chip8_cycle` returns, `chip8_cycle_layout` returns the same state. -/
theorem chip8_cycle_layout_of_some (rnd : Nat) (s s' : Chip8)
    (h : chip8_cycle rnd s = some s') : chip8_cycle_layout rnd s = some s' := by
  unfold chip8_cycle_layout
  unfold chip8_cycle at h
  cases hrun : s.running with
  | false => rw [hrun] at h; exact h
  | true =>
    rw [hrun] at h
    cases hf : fetch_opcode s with
    | none => rw [hf] at h; exact absurd h (by simp)
    | some op =>
      rw [hf] at h
      have h' : execute rnd op (skip_next s) = some s' := h
      show execute_layout rnd op (skip_next s) = some s'
      unfold execute_layout
      by_cases ff : op &&& 0xF000 = 0xF000
      · rw [if_pos ff]
        have hF : cycle_family_F op ((op &&& 0x0F00) >>> 8) (skip_next s) = some s' := by
          rw [← h']
          simp only [execute, ff]
          simp
        unfold cycle_family_F_layout
        dsimp only
        by_cases e33 : op &&& 0x00FF = 0x33
        · rw [if_pos e33]
          simp only [cycle_family_F, e33] at hF
          simp at hF
          obtain ⟨c1, h1, hF1⟩ := Option.bind_eq_some.mp hF
          obtain ⟨c2, h2, h3⟩ := Option.bind_eq_some.mp hF1
          have g1 := mem_write_layout_of_some _ _ _ _ h1
          have g2 := mem_write_layout_of_some _ _ _ _ h2
          have g3 := mem_write_layout_of_some _ _ _ _ h3
          simp [g1, g2, g3]
        rw [if_neg e33]
        by_cases e55 : op &&& 0x00FF = 0x55
        · rw [if_pos e55]
          simp only [cycle_family_F, e55] at hF
          simp at hF
          exact foldlM_of_some _ _
            (fun c a c' hh => mem_write_layout_of_some c c' _ _ hh) _ _ _ hF
        rw [if_neg e55]
        exact hF
      · rw [if_neg ff]; exact h'

/-- Counterexample to C20 as stated: the ROM `AFFF 6035 F01E 60C8 F055 00EE`
is accepted by `chip8_load_rom`; after four cycles index = 4148, which is the
offset of `sp` in the object, V0 = 200 and sp = 0; the fifth cycle, F055,
stores V0 at `memory[4148]`, outside the array (`chip8_cycle` has no result
there), and leaves sp = 200, above 16; the next opcode is 00EE, whose pop
reads `stack[199]`. -/
theorem stack_pointer_overwritten_by_store :
    (chip8_load_rom chip8_init rom_sp_overwrite).2 = true ∧
    (chip8_cycles [0, 0, 0, 0] state_sp_overwrite).map (fun c => (c.I, c.V 0, c.sp)) =
      some (4148, 200, 0) ∧
    OFFSET_sp = 4148 ∧
    (chip8_cycles [0, 0, 0, 0, 0] state_sp_overwrite).isSome = false ∧
    (chip8_cycles_layout [0, 0, 0, 0, 0] state_sp_overwrite).map
      (fun c => (c.sp, fetch_opcode c, stack_read c (c.sp - 1))) =
      some (200, some 0x00EE, none) ∧
    ¬ (∀ s, chip8_cycles_layout [0, 0, 0, 0, 0] state_sp_overwrite = some s → s.sp ≤ 16) := by
  have hrun : (chip8_cycles_layout [0, 0, 0, 0, 0] state_sp_overwrite).map (fun c => c.sp) =
      some 200 := by decide
  refine ⟨by decide, by decide, by decide, by decide, by decide, ?_⟩
  intro hall
  cases hs : chip8_cycles_layout [0, 0, 0, 0, 0] state_sp_overwrite with
  | none => rw [hs] at hrun; exact absurd hrun (by simp)
  | some s =>
    rw [hs] at hrun
    have hle := hall s hs
    have hsp : s.sp = 200 := by simpa using hrun
    omega

/-- Counterexample to C23 as stated: the ROM `AFFF 6078 F01E 6001 F055` is
accepted by `chip8_load_rom`; after four cycles index = 4215, which is the
offset of `display[64]` in the object, V0 = 1, the mode is low resolution and
the display is clear; the fifth cycle, F055, stores V0 at `memory[4215]`,
outside the array (`chip8_cycle` has no result there), and leaves the cell in
row 0, column 64 set while high_res is false. -/
theorem low_res_cell_set_by_store :
    (chip8_load_rom chip8_init rom_display_overwrite).2 = true ∧
    (chip8_cycles [0, 0, 0, 0] state_display_overwrite).map
      (fun c => (c.I, c.V 0, c.high_res, c.display (0 * 128 + 64))) =
      some (4215, 1, false, false) ∧
    OFFSET_display + (0 * 128 + 64) = 4215 ∧
    (chip8_cycles [0, 0, 0, 0, 0] state_display_overwrite).isSome = false ∧
    (chip8_cycles_layout [0, 0, 0, 0, 0] state_display_overwrite).map
      (fun c => (c.high_res, c.display (0 * 128 + 64))) = some (false, true) ∧
    ¬ (∀ s, chip8_cycles_layout [0, 0, 0, 0, 0] state_display_overwrite = some s →
        s.high_res = false → ∀ row col, row < 64 → col < 128 → (64 ≤ col ∨ 32 ≤ row) →
          s.display (row * 128 + col) = false) := by
  have hrun : (chip8_cycles_layout [0, 0, 0, 0, 0] state_display_overwrite).map
      (fun c => (c.high_res, c.display (0 * 128 + 64))) = some (false, true) := by decide
  refine ⟨by decide, by decide, by decide, by decide, hrun, ?_⟩
  intro hall
  cases hs : chip8_cycles_layout [0, 0, 0, 0, 0] state_display_overwrite with
  | none => rw [hs] at hrun; exact absurd hrun (by simp)
  | some s =>
    rw [hs] at hrun
    have hpair : s.high_res = false ∧ s.display (0 * 128 + 64) = true := by simpa using hrun
    have hcell := hall s hs hpair.1 0 64 (by decide) (by decide) (Or.inl (Nat.le_refl 64))
    rw [hpair.2] at hcell
    exact absurd hcell (by decide)

end Chip8Emu
